import Mathlib

/-!
# My-Finance: bill ingestion, shadow classification and the transaction store

A shallow embedding of the ingestion pipeline of `src/main.js` (`extractBills`),
of the normaliser of `src/parser.js` (`parseAmount`, `parseDate`) and of the
SQLite-backed store of `src/server.js` (bulk save, getAll, tagging, tool executors).

Conventions of the embedding.

* A JavaScript string is a list of characters (`Str`).
* A JavaScript value is a `JsVal`; a finite number carries its exact rational
  value, the result of `parseFloat` is a `JsNum` (NaN, an infinity, or a finite
  rational: the exact decimal value of the literal, binary rounding is not
  modelled).
* Library calls whose result depends on the environment (dayjs, the clock, the
  random generator, number printing, the spreadsheet decoder) are inputs.
* A table is the list of its rows in insertion order. A value is stored as it
  is bound (the conversions of column affinity are not modelled), a NULL
  primary key conflicts with no row, and foreign keys are enforced, as the
  driver configures SQLite.
-/

namespace MyFinance

/-- A JavaScript string, as its list of characters. -/
abbrev Str := List Char

/-- Result of a numeric computation in JavaScript: NaN, plus or minus
infinity, or a finite value. -/
inductive JsNum where
  | nan : JsNum
  | inf (negative : Bool) : JsNum
  | fin (q : ℚ) : JsNum
  deriving DecidableEq

/-- A JavaScript value as it occurs in a decoded spreadsheet row or in a JSON
body. `obj repr` is any array or plain object, with `repr` its string
conversion; `undefined` also stands for a key that is absent. -/
inductive JsVal where
  | undefined : JsVal
  | null : JsVal
  | bool (b : Bool) : JsVal
  | num (q : ℚ) : JsVal
  | str (s : Str) : JsVal
  | obj (repr : Str) : JsVal
  deriving DecidableEq

/-- JavaScript truthiness of a value (`!!v`). -/
def JsVal.truthy : JsVal → Bool
  | .undefined => false
  | .null => false
  | .bool b => b
  | .num q => decide (q ≠ 0)
  | .str s => !s.isEmpty
  | .obj _ => true

/-- The value of `a || b`. -/
def JsVal.orElse (a b : JsVal) : JsVal := if a.truthy then a else b

/-- Truthiness of a number: NaN and zero are falsy. -/
def JsNum.truthy : JsNum → Bool
  | .nan => false
  | .inf _ => true
  | .fin q => decide (q ≠ 0)

/-- The value of `x || 0` for a number `x`. -/
def JsNum.orZero (x : JsNum) : JsNum := if x.truthy then x else .fin 0

/-- The comparison `x > 0` on numbers (false for NaN). -/
def JsNum.isPos : JsNum → Bool
  | .nan => false
  | .inf negative => !negative
  | .fin q => decide (0 < q)

/-- String conversion `String(v)`; `numToString` is the number printer. -/
def JsVal.toStr (numToString : ℚ → Str) : JsVal → Str
  | .undefined => "undefined".toList
  | .null => "null".toList
  | .bool true => "true".toList
  | .bool false => "false".toList
  | .num q => numToString q
  | .str s => s
  | .obj repr => repr

/-! ## Substring search, the meaning of the literal-alternative regular expressions -/

/-- Whether `p` is a prefix of `s`. -/
def isPrefixOf : Str → Str → Bool
  | [], _ => true
  | _ :: _, [] => false
  | a :: p, b :: s => a == b && isPrefixOf p s

/-- Whether `p` occurs in `s` as a contiguous substring (`s.includes(p)`). -/
def includes (s p : Str) : Bool :=
  match s with
  | [] => isPrefixOf p []
  | c :: rest => isPrefixOf p (c :: rest) || includes rest p

/-- The test `/k1|k2|.../.test(s)` for literal alternatives `ks`. -/
def testAny (ks : List Str) (s : Str) : Bool := ks.any (fun k => includes s k)

/-! ## Amount parsing -/

/-- The replacement `s.replace(/[¥, ]/g, '')`: drops every yen sign, comma and space. -/
def stripAmount (s : Str) : Str :=
  s.filter (fun c => !(c == '¥' || c == ',' || c == ' '))

/-- Characters skipped by `parseFloat` before the literal (white space and line
terminators of ECMAScript). -/
def isStrWhiteSpace (c : Char) : Bool :=
  let n := c.toNat
  n == 0x09 || n == 0x0A || n == 0x0B || n == 0x0C || n == 0x0D || n == 0x20 ||
  n == 0xA0 || n == 0x1680 || (0x2000 ≤ n && n ≤ 0x200A) || n == 0x2028 ||
  n == 0x2029 || n == 0x202F || n == 0x205F || n == 0x3000 || n == 0xFEFF

/-- Drops the leading white space. -/
def trimStart : Str → Str
  | [] => []
  | c :: rest => if isStrWhiteSpace c then trimStart rest else c :: rest

/-- Whether `c` is a decimal digit. -/
def isDigit (c : Char) : Bool := '0'.toNat ≤ c.toNat && c.toNat ≤ '9'.toNat

/-- Splits off the longest prefix of decimal digits. -/
def spanDigits : Str → Str × Str
  | [] => ([], [])
  | c :: rest =>
    if isDigit c then ((spanDigits rest).1.cons c, (spanDigits rest).2) else ([], c :: rest)

/-- The value of a string of decimal digits. -/
def digitsValue (ds : Str) : ℕ := ds.foldl (fun acc c => 10 * acc + (c.toNat - '0'.toNat)) 0

/-- The exponent part `e[+-]?digits` at the head of `s`, if there is one. -/
def exponentPart : Str → ℤ
  | e :: rest =>
    if e == 'e' || e == 'E' then
      match rest with
      | '+' :: ds => if (spanDigits ds).1.isEmpty then 0 else (digitsValue (spanDigits ds).1 : ℤ)
      | '-' :: ds => if (spanDigits ds).1.isEmpty then 0 else -(digitsValue (spanDigits ds).1 : ℤ)
      | ds => if (spanDigits ds).1.isEmpty then 0 else (digitsValue (spanDigits ds).1 : ℤ)
    else 0
  | [] => 0

/-- Ten to an integer power. -/
def pow10 (e : ℤ) : ℚ :=
  match e with
  | .ofNat n => (10 : ℚ) ^ n
  | .negSucc n => 1 / (10 : ℚ) ^ (n + 1)

/-- The unsigned part of a `StrDecimalLiteral` prefix: `Infinity`, or digits with
an optional fraction and exponent; `none` when no literal starts here. -/
def parseUnsigned (s : Str) : Option JsNum :=
  if isPrefixOf "Infinity".toList s then some (.inf false)
  else
    let ip := spanDigits s
    match ip.2 with
    | '.' :: afterDot =>
      let fp := spanDigits afterDot
      if ip.1.isEmpty && fp.1.isEmpty then none
      else
        some (.fin (((digitsValue ip.1 : ℚ) + (digitsValue fp.1 : ℚ) / (10 : ℚ) ^ fp.1.length)
          * pow10 (exponentPart fp.2)))
    | afterInt =>
      if ip.1.isEmpty then none
      else some (.fin ((digitsValue ip.1 : ℚ) * pow10 (exponentPart afterInt)))

/-- Negation of a number. -/
def JsNum.neg : JsNum → JsNum
  | .nan => .nan
  | .inf negative => .inf (!negative)
  | .fin q => .fin (-q)

/-- The builtin `parseFloat` on a string: the longest decimal literal after the
leading white space, NaN when there is none. -/
def parseFloat (s : Str) : JsNum :=
  match trimStart s with
  | '-' :: rest => ((parseUnsigned rest).map JsNum.neg).getD .nan
  | '+' :: rest => (parseUnsigned rest).getD .nan
  | rest => (parseUnsigned rest).getD .nan

/-- The function `parseAmount` of `src/parser.js`. -/
def parseAmount : JsVal → JsNum
  | .num q => .fin q
  | .str s => (parseFloat (stripAmount s)).orZero
  | _ => .fin 0

/-- The inline amount expression of `extractBills` (`src/main.js`, line 656):
a number is taken as it is, anything else is converted to a string, stripped
and parsed. -/
def inlineAmount (numToString : ℚ → Str) (v : JsVal) : JsNum :=
  match v with
  | .num q => .fin q
  | other => (parseFloat (stripAmount (other.toStr numToString))).orZero

/-! ## Bill extraction (`extractBills`, `src/main.js`) -/

/-- A header-keyed record of the spreadsheet decoder: header text to cell value. -/
abbrev Row := List (Str × JsVal)

/-- Property access `r[key]`: `undefined` when the key is absent. -/
def Row.get (r : Row) (key : Str) : JsVal :=
  match r with
  | [] => .undefined
  | (k, v) :: rest => if k = key then v else Row.get rest key

/-- The first sheet of a decoded workbook, in the two read modes the pipeline
uses: `raw` is `sheet_to_json(sheet, {header: 1})`, `json range` is
`sheet_to_json(sheet, {range, raw: false})`. -/
structure Sheet where
  raw : List (List JsVal)
  json : ℕ → List Row

/-- What the pipeline reads from a dayjs object that is valid. -/
structure DayjsVal where
  valueOf : ℤ
  dateStr : Str
  hour : ℕ
  deriving DecidableEq

/-- The environment of an extraction call: the number printer, the dayjs
parser (`none` when `isValid()` is false), and the values of `Date.now()` and
`Math.random()` observed while mapping the row of a given index. -/
structure Env where
  numToString : ℚ → Str
  dayjs : Str → Option DayjsVal
  now : ℕ → ℚ
  random : ℕ → ℚ

/-- Column names of one platform (`cfg` in `extractBills`). -/
structure Cfg where
  range : ℕ
  time : Str
  cat : Str
  peer : Str
  item : Str
  type : Str
  amt : Str
  id : Str

/-- The WeChat configuration. -/
def wechatCfg : Cfg :=
  { range := 16, time := "交易时间".toList, cat := "交易类型".toList, peer := "交易对方".toList,
    item := "商品".toList, type := "收/支".toList, amt := "金额(元)".toList, id := "交易单号".toList }

/-- The Alipay configuration. -/
def alipayCfg : Cfg :=
  { range := 24, time := "交易时间".toList, cat := "交易分类".toList, peer := "交易对方".toList,
    item := "商品说明".toList, type := "收/支".toList, amt := "金额".toList, id := "交易订单号".toList }

/-- The sniffing test `JSON.stringify(raw).includes('微信')`: the marker has no
character that JSON escapes or uses as punctuation, so it occurs in the
serialisation exactly when it occurs in a string cell (numbers, booleans and
dates serialise without it). -/
def isWechat (raw : List (List JsVal)) : Bool :=
  raw.any (fun cells => cells.any (fun c =>
    match c with
    | .str s => includes s "微信".toList
    | _ => false))

/-- The platform name and configuration chosen by `extractBills`. -/
def detect (sheet : Sheet) : Str × Cfg :=
  if isWechat sheet.raw then ("wechat".toList, wechatCfg) else ("alipay".toList, alipayCfg)

/-- The replacement `s.replace(/\//g, '-')`. -/
def replaceSlash (s : Str) : Str := s.map (fun c => if c == '/' then '-' else c)

/-- The unified record that `extractBills` emits. -/
structure BillRecord where
  id : Str
  platform : Str
  time : ℤ
  date_str : Str
  hour : ℕ
  category : JsVal
  peer : JsVal
  item : JsVal
  amount : JsNum
  type : JsVal
  method : Str
  deriving DecidableEq

/-- The callback of `rows.map` in `extractBills`, for the row of index `i`:
`none` is the JavaScript `null`. -/
def mapRow (env : Env) (platform : Str) (cfg : Cfg) (i : ℕ) (r : Row) : Option BillRecord :=
  let t := r.get cfg.time
  if !t.truthy then none
  else
    match env.dayjs (replaceSlash (t.toStr env.numToString)) with
    | none => none
    | some d =>
      some
        { id := ((r.get cfg.id).orElse (.num (env.now i + env.random i))).toStr env.numToString,
          platform := platform, time := d.valueOf, date_str := d.dateStr, hour := d.hour,
          category := (r.get cfg.cat).orElse (.str "其它".toList),
          peer := (r.get cfg.peer).orElse (.str "未知".toList),
          item := (r.get cfg.item).orElse (.str "/".toList),
          amount := inlineAmount env.numToString (r.get cfg.amt),
          type := (r.get cfg.type).orElse (.str "支出".toList),
          method := "手动导入".toList }

/-- The direction test `x.type === '支出' || x.type === '转账'`. -/
def isExpenseOrTransfer (ty : JsVal) : Bool :=
  ty == .str "支出".toList || ty == .str "转账".toList

/-- The predicate of the final `filter` of `extractBills`:
`x && x.amount > 0 && (x.type === '支出' || x.type === '转账')`. -/
def keepBill : Option BillRecord → Bool
  | none => false
  | some x => x.amount.isPos && isExpenseOrTransfer x.type

/-- The function `extractBills` of `src/main.js` on a decoded sheet: rows are
mapped in sheet order, then filtered. -/
def extractBills (env : Env) (sheet : Sheet) : List BillRecord :=
  let pc := detect sheet
  let rows := sheet.json pc.2.range
  let mapped := rows.enum.map (fun ir => mapRow env pc.1 pc.2 ir.1 ir.2)
  (mapped.filter keepBill).reduceOption

/-! ## The store (`src/server.js`) -/

/-- A value stored in a column, or bound to a statement parameter. -/
inductive SqlVal where
  | null : SqlVal
  | num (q : ℚ) : SqlVal
  | text (s : Str) : SqlVal
  deriving DecidableEq

/-- Binding a JavaScript value to a statement parameter: numbers, strings and
null are accepted, anything else (an absent key, a boolean, an array or an
object) makes the statement throw (`none`). -/
def bind : JsVal → Option SqlVal
  | .undefined => none
  | .null => some .null
  | .bool _ => none
  | .num q => some (.num q)
  | .str s => some (.text s)
  | .obj _ => none

/-- One element of the body of `POST /api/bills`: the twelve properties the
insert statement binds (`undefined` for an absent one). -/
structure Bill where
  id : JsVal
  platform : JsVal
  time : JsVal
  date_str : JsVal
  hour : JsVal
  category : JsVal
  peer : JsVal
  item : JsVal
  amount : JsVal
  type : JsVal
  method : JsVal
  status : JsVal
  deriving DecidableEq

/-- A row of the table `transactions`. -/
structure TxRow where
  id : SqlVal
  platform : SqlVal
  time : SqlVal
  date_str : SqlVal
  hour : SqlVal
  category : SqlVal
  peer : SqlVal
  item : SqlVal
  amount : SqlVal
  type : SqlVal
  method : SqlVal
  status : SqlVal
  deriving DecidableEq

/-- A row of the table `tags`. -/
structure TagRow where
  id : ℕ
  name : Str
  color : Str
  created_at : ℤ
  deriving DecidableEq

/-- A row of the table `transaction_tags`. -/
structure TtRow where
  transaction_id : SqlVal
  tag_id : ℕ
  created_at : ℤ
  deriving DecidableEq

/-- The database: the three tables in insertion (rowid) order and the
AUTOINCREMENT counter of `tags`. -/
structure Db where
  transactions : List TxRow
  tags : List TagRow
  transaction_tags : List TtRow
  tagSeq : ℕ
  deriving DecidableEq

/-- The database after the CREATE TABLE statements on a fresh file. -/
def Db.empty : Db := { transactions := [], tags := [], transaction_tags := [], tagSeq := 0 }

/-- SQL equality `a = b` as a filter condition: false when either side is NULL. -/
def sqlEq (a b : SqlVal) : Bool := a != .null && b != .null && a == b

/-- The test `regex.test(v)` for a regular expression that is an alternation of
the literals `ks` (CJK words and `KTV`): `v` is converted to a string first;
the decimal text of a number contains none of them. -/
def regexTest (ks : List Str) (v : JsVal) : Bool :=
  match v with
  | .num _ => false
  | other => testAny ks (other.toStr (fun _ => []))

/-- The internal-movement alternatives of `/转账|还款|提现|充值/`. -/
def movementWords : List Str := ["转账".toList, "还款".toList, "提现".toList, "充值".toList]

/-- The wallet alternatives of `/余额宝|零钱通|理财|余利宝|理财通/`. -/
def walletWords : List Str :=
  ["余额宝".toList, "零钱通".toList, "理财".toList, "余利宝".toList, "理财通".toList]

/-- The alternative of `/信用卡/`. -/
def creditWords : List Str := ["信用卡".toList]

/-- The flag `isInternal` computed in `insertMany`. -/
def isInternal (bill : Bill) : Bool :=
  regexTest movementWords bill.type || regexTest walletWords bill.peer ||
    regexTest creditWords bill.peer

/-- The status assignment of `insertMany`: the bill after
`bill.status = 'shadow'` or `bill.status = bill.status || '成功'`. -/
def classify (bill : Bill) : Bill :=
  if isInternal bill then { bill with status := .str "shadow".toList }
  else { bill with status := bill.status.orElse (.str "成功".toList) }

/-- The row bound by `insert.run(bill)`; `none` when a parameter cannot be bound. -/
def bindBill (bill : Bill) : Option TxRow := do
  let id ← bind bill.id
  let platform ← bind bill.platform
  let time ← bind bill.time
  let date_str ← bind bill.date_str
  let hour ← bind bill.hour
  let category ← bind bill.category
  let peer ← bind bill.peer
  let item ← bind bill.item
  let amount ← bind bill.amount
  let type ← bind bill.type
  let method ← bind bill.method
  let status ← bind bill.status
  pure { id := id, platform := platform, time := time, date_str := date_str, hour := hour,
         category := category, peer := peer, item := item, amount := amount, type := type,
         method := method, status := status }

/-- The statement `INSERT OR REPLACE INTO transactions` for a bound row: a row
with the same (non-NULL) primary key is deleted first, which also deletes its
`transaction_tags` rows (ON DELETE CASCADE, foreign keys being enforced); the
new row is appended. -/
def insertOrReplace (db : Db) (row : TxRow) : Db :=
  { db with
    transactions := db.transactions.filter (fun r => !sqlEq r.id row.id) ++ [row],
    transaction_tags :=
      if db.transactions.any (fun r => sqlEq r.id row.id) then
        db.transaction_tags.filter (fun tt => !sqlEq tt.transaction_id row.id)
      else db.transaction_tags }

/-- One iteration of the loop of `insertMany`: classify the bill, then run the
insert; `none` when the insert throws. -/
def insertOne (db : Db) (bill : Bill) : Option Db :=
  (bindBill (classify bill)).map (insertOrReplace db)

/-- The loop of `insertMany`, run inside the transaction: `none` when some
insert throws. -/
def insertLoop (db : Db) : List Bill → Option Db
  | [] => some db
  | bill :: rest =>
    match insertOne db bill with
    | none => none
    | some db1 => insertLoop db1 rest

/-- The reply of a route: `ok count` is the success body, `error` the status 500. -/
inductive Reply where
  | ok (count : ℕ) : Reply
  | error : Reply
  deriving DecidableEq

/-- A function wrapped by `db.transaction`: the body is committed when it
completes and rolled back when it throws; the flag tells which. -/
def atomically (db : Db) (body : Db → Option Db) : Db × Bool :=
  match body db with
  | some db1 => (db1, true)
  | none => (db, false)

/-- The transaction function `insertMany`. -/
def insertMany (db : Db) (bills : List Bill) : Db × Bool :=
  atomically db (fun d => insertLoop d bills)

/-- The route `POST /api/bills`: the new database and the reply. A thrown
insert is answered by a single error. -/
def postBills (db : Db) (bills : List Bill) : Db × Reply :=
  if (insertMany db bills).2 then ((insertMany db bills).1, .ok bills.length)
  else ((insertMany db bills).1, .error)

/-- The route `DELETE /api/bills`: every transaction is deleted, and with it
(ON DELETE CASCADE) every association that refers to one. -/
def deleteBills (db : Db) : Db :=
  { db with
    transactions := [],
    transaction_tags :=
      db.transaction_tags.filter (fun tt => !db.transactions.any (fun r => sqlEq r.id tt.transaction_id)) }

/-! ## Tags -/

/-- What the server reads from its environment: the clock of the SQL default
`strftime('%s','now') * 1000`, `Date.now()`, `new Date(s).getTime()` (`none` for
NaN), the local hour and weekday of `new Date(v)` for a stored time, the
conversion of a string to a number, the text SQLite prints for a number and the
number SQLite reads from a text in an aggregate. -/
structure Engine where
  clock : ℤ
  now : ℤ
  dateParse : Str → Option ℤ
  getHours : SqlVal → Option ℕ
  getDay : SqlVal → Option ℕ
  toNumber : Str → JsNum
  sqlNumText : ℚ → Str
  sqlTextNum : Str → ℚ

/-- The condition `(status IS NULL OR status != 'shadow')`. -/
def notShadow (r : TxRow) : Bool :=
  r.status == .null || (r.status != .null && r.status != .text "shadow".toList)

/-- The function `getOrCreateTag`: the id of the tag of that name, inserted
with the next AUTOINCREMENT id when there is none. -/
def getOrCreateTag (eng : Engine) (db : Db) (tagName : Str) : Db × ℕ :=
  match db.tags.find? (fun t => t.name == tagName) with
  | some t => (db, t.id)
  | none =>
    ({ db with
       tags := db.tags ++ [{ id := db.tagSeq + 1, name := tagName, color := "#a855f7".toList,
                             created_at := eng.clock }],
       tagSeq := db.tagSeq + 1 }, db.tagSeq + 1)

/-- The statement `INSERT OR IGNORE INTO transaction_tags`: a duplicate of the
primary key is ignored; a transaction id that is neither NULL nor the id of a
stored transaction violates the foreign key and throws (`none`). -/
def insertTt (eng : Engine) (db : Db) (transactionId : SqlVal) (tagId : ℕ) : Option Db :=
  if db.transaction_tags.any (fun tt => sqlEq tt.transaction_id transactionId && tt.tag_id == tagId)
  then some db
  else if transactionId != .null && !db.transactions.any (fun r => sqlEq r.id transactionId)
  then none
  else some { db with
    transaction_tags := db.transaction_tags ++
      [{ transaction_id := transactionId, tag_id := tagId, created_at := eng.clock }] }

/-- The loop of `addTags`: each name is resolved to a tag and associated. -/
def addTagsLoop (eng : Engine) (transactionId : SqlVal) (db : Db) : List Str → Option Db
  | [] => some db
  | tagName :: rest =>
    match insertTt eng (getOrCreateTag eng db tagName).1 transactionId
        (getOrCreateTag eng db tagName).2 with
    | none => none
    | some db1 => addTagsLoop eng transactionId db1 rest

/-- The route `POST /api/bills/:id/tags`. -/
def postBillTags (eng : Engine) (db : Db) (id : Str) (tagNames : List Str) : Db × Bool :=
  atomically db (fun d => addTagsLoop eng (.text id) d tagNames)

/-- The inner loop of `batchAdd`: one tag id is associated with each transaction id. -/
def tagEach (eng : Engine) (tagId : ℕ) (db : Db) : List SqlVal → Option Db
  | [] => some db
  | txId :: rest =>
    match insertTt eng db txId tagId with
    | none => none
    | some db1 => tagEach eng tagId db1 rest

/-- The outer loop of `batchAdd`. -/
def batchAddLoop (eng : Engine) (txIds : List SqlVal) (db : Db) : List Str → Option Db
  | [] => some db
  | tagName :: rest =>
    match tagEach eng (getOrCreateTag eng db tagName).2 (getOrCreateTag eng db tagName).1 txIds with
    | none => none
    | some db1 => batchAddLoop eng txIds db1 rest

/-- The route `POST /api/tags/batch/merchant`. -/
def postBatchMerchant (eng : Engine) (db : Db) (merchantName : Str) (tagNames : List Str) :
    Db × Bool :=
  atomically db (fun d =>
    batchAddLoop eng
      ((db.transactions.filter (fun r => sqlEq r.peer (.text merchantName) && notShadow r)).map
        (fun r => r.id)) d tagNames)

/-- The comparison `a < b` of two numbers (false when one is NaN). -/
def JsNum.lt : JsNum → JsNum → Bool
  | .fin a, .fin b => decide (a < b)
  | .fin _, .inf negative => !negative
  | .inf negative, .fin _ => negative
  | .inf a, .inf b => a && !b
  | _, _ => false

/-- The JavaScript value read back from a column. -/
def SqlVal.toJs : SqlVal → JsVal
  | .null => .null
  | .num q => .num q
  | .text s => .str s

/-- The numeric conversion applied by a comparison with a number. -/
def toNumber (eng : Engine) : JsVal → JsNum
  | .undefined => .nan
  | .null => .fin 0
  | .bool b => if b then .fin 1 else .fin 0
  | .num q => .fin q
  | .str s => eng.toNumber s
  | .obj repr => eng.toNumber repr

/-- Keeps the first occurrence of each element (`[...new Set(tags)]`). -/
def dedupFirst : List Str → List Str
  | [] => []
  | a :: rest => a :: (dedupFirst rest).filter (fun b => b != a)

/-- The function `autoTagTransaction` of `src/server.js`. -/
def autoTagTransaction (eng : Engine) (transaction : TxRow) : List Str :=
  let hour := eng.getHours transaction.time
  let day := eng.getDay transaction.time
  let merchant := transaction.peer.toJs.orElse (.str [])
  let amount := toNumber eng transaction.amount.toJs
  dedupFirst (
    (if amount.lt (.fin 50) then ["小额".toList] else []) ++
    (if (JsNum.fin 500).lt amount || amount == .fin 500 then ["重要决策".toList] else []) ++
    (if (hour.any (fun h => 22 ≤ h)) || (hour.any (fun h => h ≤ 6)) then ["深夜消费".toList] else []) ++
    (if day == some 0 || day == some 6 then ["周末".toList] else []) ++
    (if regexTest ["咖啡".toList, "奶茶".toList, "茶饮".toList, "饮品".toList] merchant
      then ["习惯性".toList] else []) ++
    (if regexTest ["健身".toList, "瑜伽".toList, "游泳".toList, "跑步".toList, "运动".toList] merchant
      then ["健康".toList] else []) ++
    (if regexTest ["书店".toList, "课程".toList, "培训".toList, "教育".toList, "学习".toList] merchant
      then ["投资自己".toList] else []) ++
    (if regexTest ["餐厅".toList, "聚餐".toList, "火锅".toList, "烧烤".toList, "KTV".toList,
        "电影".toList, "酒吧".toList] merchant
      then ["社交".toList] else []) ++
    (if regexTest ["超市".toList, "菜市场".toList, "生鲜".toList] merchant
      then ["必要".toList] else []))

/-- The loop of `autoApply` over the selected transactions. -/
def autoApplyLoop (eng : Engine) (db : Db) : List TxRow → Option Db
  | [] => some db
  | tx :: rest =>
    match addTagsLoop eng tx.id db (autoTagTransaction eng tx) with
    | none => none
    | some db1 => autoApplyLoop eng db1 rest

/-- The route `POST /api/tags/auto-apply`. -/
def postAutoApply (eng : Engine) (db : Db) : Db × Bool :=
  atomically db (fun d => autoApplyLoop eng d (db.transactions.filter notShadow))

/-! ## Reading the store -/

/-- Code point order on strings (the BINARY collation). -/
def strLe : Str → Str → Bool
  | [], _ => true
  | _ :: _, [] => false
  | a :: s, b :: t => a.toNat < b.toNat || (a == b && strLe s t)

/-- The sort order of SQLite across storage classes: NULL first, then numbers,
then text. -/
def sqlLe : SqlVal → SqlVal → Bool
  | .null, _ => true
  | .num _, .null => false
  | .num a, .num b => decide (a ≤ b)
  | .num _, .text _ => true
  | .text _, .null => false
  | .text _, .num _ => false
  | .text s, .text t => strLe s t

/-- The comparison `a < b` as a filter condition: false when either side is NULL. -/
def sqlLt (a b : SqlVal) : Bool := a != .null && b != .null && !sqlLe b a

/-- The comparison `a >= b` as a filter condition: false when either side is NULL. -/
def sqlGe (a b : SqlVal) : Bool := a != .null && b != .null && sqlLe b a

/-- Inserts `a` before the first element it may precede. -/
def insertBy {α : Type} (before : α → α → Bool) (a : α) : List α → List α
  | [] => [a]
  | b :: rest => if before a b then a :: b :: rest else b :: insertBy before a rest

/-- The sort of an ORDER BY clause, as a stable insertion sort: rows that the
clause does not separate keep their scan order (SQL leaves their order open). -/
def sortBy {α : Type} (before : α → α → Bool) : List α → List α
  | [] => []
  | a :: rest => insertBy before a (sortBy before rest)

/-- Adds a row to the group of its key, or opens a new group at the end. -/
def addToGroups {α κ : Type} [DecidableEq κ] (key : α → κ) (a : α) :
    List (κ × List α) → List (κ × List α)
  | [] => [(key a, [a])]
  | g :: gs => if g.1 = key a then (g.1, g.2 ++ [a]) :: gs else g :: addToGroups key a gs

/-- The groups of a GROUP BY, in order of first appearance (SQL leaves the
order of groups open), each with its rows in scan order; NULL keys are equal
to each other. -/
def groupBy {α κ : Type} [DecidableEq κ] (key : α → κ) (l : List α) : List (κ × List α) :=
  l.foldl (fun gs a => addToGroups key a gs) []

/-- The pieces of `s.split(',')`. -/
def splitComma : Str → List Str
  | [] => [[]]
  | c :: rest =>
    if c == ',' then [] :: splitComma rest
    else
      match splitComma rest with
      | [] => [[c]]
      | h :: t => (c :: h) :: t

/-- The aggregate `GROUP_CONCAT` over the non-NULL texts of a group: NULL
(`none`) when there is none, else the texts joined by commas. -/
def groupConcat : List Str → Option Str
  | [] => none
  | a :: rest => some (rest.foldl (fun acc b => acc ++ [','] ++ b) a)

/-- The names that the two LEFT JOINs of `GET /api/bills` attach to the
transaction id `id`, in scan order of `transaction_tags`. -/
def joinedTagNames (db : Db) (id : SqlVal) : List Str :=
  db.transaction_tags.filterMap (fun tt =>
    if sqlEq id tt.transaction_id then
      (db.tags.find? (fun t => t.id == tt.tag_id)).map (fun t => t.name)
    else none)

/-- The conversion `row.tags ? row.tags.split(',') : []`. -/
def tagsArray : Option Str → List Str
  | none => []
  | some s => if s.isEmpty then [] else splitComma s

/-- An element of the reply of `GET /api/bills`. -/
structure BillOut where
  row : TxRow
  tags : List Str
  deriving DecidableEq

/-- The route `GET /api/bills`: one output row per group of `GROUP BY t.id`
(the columns `t.*` of a group are those of its first row), the tag names
concatenated then split, ordered by `time` descending. -/
def getAll (db : Db) : List BillOut :=
  sortBy (fun a b => sqlLe b.row.time a.row.time)
    ((groupBy (fun r : TxRow => r.id) db.transactions).filterMap (fun g =>
      g.2.head?.map (fun r =>
        { row := r, tags := tagsArray (groupConcat (joinedTagNames db g.1)) })))

/-! ## The tool executors (`executeTool`) -/

/-- Lower case of an ASCII letter, as a code point. -/
def lowerNat (c : Char) : ℕ := if 65 ≤ c.toNat ∧ c.toNat ≤ 90 then c.toNat + 32 else c.toNat

/-- Whether `f` holds of `s` or of one of its proper suffixes. -/
def anySuffix (f : Str → Bool) : Str → Bool
  | [] => f []
  | c :: rest => f (c :: rest) || anySuffix f rest

/-- The operator `s LIKE pattern`: `%` matches any run of characters, `_` any
single character, ASCII letters match without regard to case. -/
def likeMatch : Str → Str → Bool
  | [], s => s.isEmpty
  | p :: ps, s =>
    if p == '%' then anySuffix (likeMatch ps) s
    else
      match s with
      | [] => false
      | c :: cs => (p == '_' || lowerNat p == lowerNat c) && likeMatch ps cs

/-- The condition `v LIKE pattern` on a column value: false for NULL, a number
is matched through its text. -/
def sqlLike (eng : Engine) (v : SqlVal) (pattern : Str) : Bool :=
  match v with
  | .null => false
  | .num q => likeMatch pattern (eng.sqlNumText q)
  | .text s => likeMatch pattern s

/-- The number an aggregate reads from a non-NULL value. -/
def sqlNumber (eng : Engine) : SqlVal → Option ℚ
  | .null => none
  | .num q => some q
  | .text s => some (eng.sqlTextNum s)

/-- The aggregate `SUM`: NULL when no value is non-NULL. -/
def sqlSum (eng : Engine) (vs : List SqlVal) : SqlVal :=
  match vs.filterMap (sqlNumber eng) with
  | [] => .null
  | q :: qs => .num ((q :: qs).sum)

/-- The aggregate `AVG`: NULL when no value is non-NULL. -/
def sqlAvg (eng : Engine) (vs : List SqlVal) : SqlVal :=
  match vs.filterMap (sqlNumber eng) with
  | [] => .null
  | q :: qs => .num ((q :: qs).sum / ((q :: qs).length : ℚ))

/-- The text of a non-NULL value, as `GROUP_CONCAT` sees it. -/
def sqlText (eng : Engine) : SqlVal → Option Str
  | .null => none
  | .num q => some (eng.sqlNumText q)
  | .text s => some s

/-- The clause `LIMIT ?` for a bound number: the value must convert to a 64-bit
integer without loss, that is, be an integer strictly between -2^63 and 2^63;
any other number is a datatype mismatch (`none`). A negative limit keeps every
row. -/
def sqlLimit {α : Type} (limit : ℚ) (rows : List α) : Option (List α) :=
  if limit.den = 1 ∧ -(2 : ℚ) ^ 63 < limit ∧ limit < (2 : ℚ) ^ 63 then
    (if limit < 0 then some rows else some (rows.take limit.num.toNat))
  else none

/-- The value of `args.limit || dflt`. -/
def limitOr (limit : Option ℚ) (dflt : ℚ) : ℚ :=
  match limit with
  | none => dflt
  | some q => if q = 0 then dflt else q

/-- The parameter bound for `new Date(s).getTime() + extra`: NaN is stored as NULL. -/
def dateParam (eng : Engine) (s : Str) (extra : ℤ) : SqlVal :=
  match eng.dateParse s with
  | none => .null
  | some t => .num ((t + extra : ℤ) : ℚ)

/-- Arguments of `queryTransactions`, typed as its schema declares them. -/
structure QueryArgs where
  merchant : Option Str
  category : Option Str
  minAmount : Option ℚ
  maxAmount : Option ℚ
  startDate : Option Str
  endDate : Option Str
  limit : Option ℚ

/-- The enumeration of `period` in the schema of `getStatistics`. -/
inductive Period where
  | week | month | year | all
  deriving DecidableEq

/-- The enumeration of `groupBy` in the schema of `getStatistics`. -/
inductive GroupBy where
  | category | merchant | date
  deriving DecidableEq

/-- Arguments of `getStatistics`; `groupBy` is not required. -/
structure StatArgs where
  period : Period
  groupBy : Option GroupBy

/-- The enumeration of `sortBy` in the schema of `getTopMerchants`. -/
inductive SortBy where
  | amount | frequency
  deriving DecidableEq

/-- Arguments of `getTopMerchants`. -/
structure TopArgs where
  limit : Option ℚ
  sortBy : Option SortBy

/-- Arguments of `comparePeriods`. -/
structure CompareArgs where
  period1Start : Str
  period1End : Str
  period2Start : Str
  period2End : Str

/-- A tool call: the name with its parsed arguments. -/
inductive ToolCall where
  | queryTransactions (args : QueryArgs)
  | getStatistics (args : StatArgs)
  | getTopMerchants (args : TopArgs)
  | analyzeLatteFactors
  | detectSubscriptions
  | comparePeriods (args : CompareArgs)
  | unknown (name : Str)

/-- A row of a grouped total: the group key, `SUM(amount)` and `COUNT(*)`. -/
structure StatRow where
  key : SqlVal
  total : SqlVal
  count : ℕ
  deriving DecidableEq

/-- A row of `analyzeLatteFactors`. -/
structure LatteRow where
  peer : SqlVal
  item : SqlVal
  avg_amount : SqlVal
  frequency : ℕ
  total : SqlVal
  deriving DecidableEq

/-- A row of `detectSubscriptions`. -/
structure SubRow where
  peer : SqlVal
  amount : SqlVal
  frequency : ℕ
  timestamps : Option Str
  deriving DecidableEq

/-- One period of `comparePeriods`. -/
structure PeriodSummary where
  total : SqlVal
  count : ℕ
  byCategory : List (SqlVal × SqlVal)
  deriving DecidableEq

/-- What `executeTool` returns. -/
inductive ToolResult where
  | rows (rs : List TxRow)
  | stats (column : Str) (rs : List StatRow)
  | merchants (rs : List StatRow)
  | latte (rs : List LatteRow)
  | subscriptions (rs : List SubRow)
  | comparison (period1 period2 : PeriodSummary)
  | error
  deriving DecidableEq

/-- An optional filter: applied only when the argument is truthy. -/
def optFilter {α : Type} (arg : Option α) (truthy : α → Bool) (cond : α → TxRow → Bool)
    (r : TxRow) : Bool :=
  match arg with
  | none => true
  | some a => if truthy a then cond a r else true

/-- The WHERE clause that `queryTransactions` builds. -/
def queryWhere (eng : Engine) (args : QueryArgs) (r : TxRow) : Bool :=
  notShadow r &&
  optFilter args.merchant (fun m => !m.isEmpty) (fun m r => sqlLike eng r.peer ('%' :: m ++ ['%'])) r &&
  optFilter args.category (fun c => !c.isEmpty) (fun c r => sqlEq r.category (.text c)) r &&
  optFilter args.minAmount (fun q => decide (q ≠ 0)) (fun q r => sqlGe r.amount (.num q)) r &&
  optFilter args.maxAmount (fun q => decide (q ≠ 0)) (fun q r => sqlGe (.num q) r.amount) r &&
  optFilter args.startDate (fun d => !d.isEmpty) (fun d r => sqlGe r.time (dateParam eng d 0)) r &&
  optFilter args.endDate (fun d => !d.isEmpty) (fun d r => sqlLt r.time (dateParam eng d 86400000)) r

/-- Grouped totals: `SELECT key, SUM(amount), COUNT(*) ... GROUP BY key`. -/
def groupTotals (eng : Engine) (key : TxRow → SqlVal) (rows : List TxRow) : List StatRow :=
  (groupBy key rows).map (fun g =>
    { key := g.1, total := sqlSum eng (g.2.map (fun r => r.amount)), count := g.2.length })

/-- The number of days of a period (`periodMap`), none for `all`. -/
def periodDays : Period → Option ℤ
  | .week => some 7
  | .month => some 30
  | .year => some 365
  | .all => none

/-- The period condition of `getStatistics`: `time > cutoff`. -/
def inPeriod (eng : Engine) (period : Period) (r : TxRow) : Bool :=
  match periodDays period with
  | none => true
  | some days => sqlLt (.num ((eng.now - days * 24 * 3600 * 1000 : ℤ) : ℚ)) r.time

/-- One summary of `comparePeriods` (`sql1` and `sql2` for one range). -/
def periodSummary (eng : Engine) (db : Db) (start stop : SqlVal) : PeriodSummary :=
  let sel := db.transactions.filter (fun r => sqlGe r.time start && sqlLt r.time stop && notShadow r)
  { total := sqlSum eng (sel.map (fun r => r.amount)),
    count := sel.length,
    byCategory := (groupTotals eng (fun r => r.category) sel).map (fun g => (g.key, g.total)) }

/-- The function `executeTool` of `src/server.js`; a statement that throws
is answered by the error object. -/
def executeTool (eng : Engine) (db : Db) : ToolCall → ToolResult
  | .queryTransactions args =>
    match sqlLimit (limitOr args.limit 50)
        (sortBy (fun a b => sqlLe b.time a.time) (db.transactions.filter (queryWhere eng args))) with
    | some rs => .rows rs
    | none => .error
  | .getStatistics args =>
    match args.groupBy with
    | none => .error
    | some g =>
      let sel := db.transactions.filter (fun r => notShadow r && inPeriod eng args.period r)
      let key : TxRow → SqlVal :=
        match g with
        | .category => fun r => r.category
        | .merchant => fun r => r.peer
        | .date => fun r => r.date_str
      let column : Str :=
        match g with
        | .category => "category".toList
        | .merchant => "merchant".toList
        | .date => "date".toList
      .stats column (sortBy (fun a b => sqlLe b.total a.total) (groupTotals eng key sel))
  | .getTopMerchants args =>
    let groups := groupTotals eng (fun r => r.peer) (db.transactions.filter notShadow)
    let sorted :=
      if args.sortBy = some .frequency then sortBy (fun a b => decide (b.count ≤ a.count)) groups
      else sortBy (fun a b => sqlLe b.total a.total) groups
    match sqlLimit (limitOr args.limit 10) sorted with
    | some rs => .merchants rs
    | none => .error
  | .analyzeLatteFactors =>
    let sel := db.transactions.filter (fun r => sqlLt r.amount (.num 50) && notShadow r)
    let groups := (groupBy (fun r : TxRow => r.peer) sel).filterMap (fun g =>
      g.2.head?.map (fun r =>
        ({ peer := g.1, item := r.item, avg_amount := sqlAvg eng (g.2.map (fun x => x.amount)),
           frequency := g.2.length, total := sqlSum eng (g.2.map (fun x => x.amount)) } : LatteRow)))
    .latte ((sortBy (fun a b => sqlLe b.total a.total)
      (groups.filter (fun g => decide (3 ≤ g.frequency)))).take 10)
  | .detectSubscriptions =>
    let sel := db.transactions.filter notShadow
    let groups := (groupBy (fun r : TxRow => (r.peer, r.amount)) sel).map (fun g =>
      ({ peer := g.1.1, amount := g.1.2, frequency := g.2.length,
         timestamps := groupConcat (g.2.filterMap (fun r => sqlText eng r.time)) } : SubRow))
    .subscriptions ((sortBy (fun a b => decide (b.frequency ≤ a.frequency))
      (groups.filter (fun g => decide (2 ≤ g.frequency)))).take 10)
  | .comparePeriods args =>
    .comparison
      (periodSummary eng db (dateParam eng args.period1Start 0) (dateParam eng args.period1End 86400000))
      (periodSummary eng db (dateParam eng args.period2Start 0) (dateParam eng args.period2End 86400000))
  | .unknown _ => .error

/-! ## Date parsing (`parseDate`, `src/parser.js`) -/

/-- Milliseconds in a day. -/
def msPerDay : ℤ := 86400000

/-- The largest time value a Date can hold, in milliseconds from the epoch. -/
def maxTime : ℤ := 8640000000000000

/-- A Date object as its time value: `none` is the Invalid Date. -/
abbrev JsDate := Option ℤ

/-- The constructor `new Date(t)` for an integral number of milliseconds
(TimeClip): out of range gives the Invalid Date. -/
def timeClip (t : ℤ) : JsDate := if -maxTime ≤ t ∧ t ≤ maxTime then some t else none

/-- The function `Math.round` on a finite number: the nearest integer, halves
rounded up. -/
def mathRound (x : ℚ) : ℤ := ⌊x + 1 / 2⌋

/-- An argument of `parseDate`: a Date object or another value. -/
inductive DateArg where
  | date (d : JsDate) : DateArg
  | val (v : JsVal) : DateArg

/-- The function `parseDate` of `src/parser.js`; `dateParse` is the string
constructor `new Date(s)` and `now` the value of `new Date()`. -/
def parseDate (dateParse : Str → JsDate) (now : ℤ) : DateArg → JsDate
  | .date d => d
  | .val (.num q) => timeClip (mathRound ((q - 25569) * 86400 * 1000))
  | .val (.str s) => dateParse s
  | .val _ => some now

/-- The day number (days from 1970-01-01) of the calendar day `y-m-d` of the
proleptic Gregorian calendar, `m` from 1 to 12. -/
def daysFromCivil (y m d : ℤ) : ℤ :=
  let y1 := if m ≤ 2 then y - 1 else y
  let era := y1 / 400
  let yoe := y1 - era * 400
  let doy := (153 * (if m > 2 then m - 3 else m + 9) + 2) / 5 + d - 1
  let doe := yoe * 365 + yoe / 4 - yoe / 100 + doy
  era * 146097 + doe - 719468

/-- The calendar day (year, month, day) of a day number. -/
def civilFromDays (z : ℤ) : ℤ × ℤ × ℤ :=
  let z1 := z + 719468
  let era := z1 / 146097
  let doe := z1 - era * 146097
  let yoe := (doe - doe / 1460 + doe / 36524 - doe / 146096) / 365
  let doy := doe - (365 * yoe + yoe / 4 - yoe / 100)
  let mp := (5 * doy + 2) / 153
  let d := doy - (153 * mp + 2) / 5 + 1
  let m := if mp < 10 then mp + 3 else mp - 9
  (if m ≤ 2 then yoe + era * 400 + 1 else yoe + era * 400, m, d)

/-- The value of `new Date("YYYY-MM-DD")` for the ISO date string of the
calendar day `y-m-d`: UTC midnight of that day. -/
def dateFromIsoDay (y m d : ℤ) : JsDate := timeClip (daysFromCivil y m d * msPerDay)

/-! ## Sequences of store operations -/

/-- A request that writes to the store. -/
inductive Op where
  | save (bills : List Bill) : Op
  | deleteAll : Op
  | tag (id : Str) (tagNames : List Str) : Op
  | batchMerchant (merchantName : Str) (tagNames : List Str) : Op
  | autoApply : Op

/-- The database after one request. -/
def step (eng : Engine) (db : Db) : Op → Db
  | .save bills => (postBills db bills).1
  | .deleteAll => deleteBills db
  | .tag id tagNames => (postBillTags eng db id tagNames).1
  | .batchMerchant merchantName tagNames => (postBatchMerchant eng db merchantName tagNames).1
  | .autoApply => (postAutoApply eng db).1

/-- The database after a sequence of requests. -/
def run (eng : Engine) (db : Db) (ops : List Op) : Db := ops.foldl (step eng) db

/-! ## Sample inputs -/

/-- A dayjs that accepts exactly the texts that start with a digit, at a
fixed instant. -/
def sampleDayjs (s : Str) : Option DayjsVal :=
  match s with
  | c :: _ => if isDigit c then some { valueOf := 1704103200000, dateStr := "2024-01-01".toList, hour := 10 }
              else none
  | [] => none

/-- A sample environment. -/
def sampleEnv : Env :=
  { numToString := fun _ => "0".toList, dayjs := sampleDayjs,
    now := fun i => 1700000000000 + i, random := fun _ => 1 / 2 }

/-- An expense row of amount 35.00. -/
def sampleRowExpense : Row :=
  [("交易时间".toList, .str "2024/01/01 10:00:00".toList), ("交易分类".toList, .str "餐饮".toList),
   ("交易对方".toList, .str "面馆".toList), ("商品说明".toList, .str "午餐".toList),
   ("收/支".toList, .str "支出".toList), ("金额".toList, .str "35.00".toList),
   ("交易订单号".toList, .str "A1".toList)]

/-- An expense row of amount zero. -/
def sampleRowZero : Row :=
  [("交易时间".toList, .str "2024/01/02 11:00:00".toList), ("交易分类".toList, .str "餐饮".toList),
   ("交易对方".toList, .str "面馆".toList), ("商品说明".toList, .str "赠品".toList),
   ("收/支".toList, .str "支出".toList), ("金额".toList, .str "0.00".toList),
   ("交易订单号".toList, .str "A2".toList)]

/-- A sheet (Alipay layout) with the two sample rows. -/
def sampleSheet : Sheet :=
  { raw := [[.str "支付宝交易记录明细查询".toList]],
    json := fun _ => [sampleRowExpense, sampleRowZero] }

/-- A sample server environment. -/
def sampleEngine : Engine :=
  { clock := 1704103200000, now := 1704103200000, dateParse := fun _ => none,
    getHours := fun _ => some 10, getDay := fun _ => some 1, toNumber := fun _ => .nan,
    sqlNumText := fun _ => "0".toList, sqlTextNum := fun _ => 0 }

/-- A sample bill with the given id, counterparty, direction, amount and status. -/
def mkBill (id peer type : String) (amount : ℚ) (status : JsVal) : Bill :=
  { id := .str id.toList, platform := .str "alipay".toList, time := .num 1704103200000,
    date_str := .str "2024-01-01".toList, hour := .num 10, category := .str "餐饮".toList,
    peer := .str peer.toList, item := .str "午餐".toList, amount := .num amount,
    type := .str type.toList, method := .str "手动导入".toList, status := status }

/-- The row that `mkBill` binds once its status is `status`. -/
def mkRow (id peer type : String) (amount : ℚ) (status : String) : TxRow :=
  { id := .text id.toList, platform := .text "alipay".toList, time := .num 1704103200000,
    date_str := .text "2024-01-01".toList, hour := .num 10, category := .text "餐饮".toList,
    peer := .text peer.toList, item := .text "午餐".toList, amount := .num amount,
    type := .text type.toList, method := .text "手动导入".toList, status := .text status.toList }

/-- An expense bill of id A1. -/
def billLunch : Bill := mkBill "A1" "面馆" "支出" 35 .undefined

/-- A later bill with the same id A1 and other fields. -/
def billLunchAgain : Bill := mkBill "A1" "面馆" "支出" 36 (.str "交易成功".toList)

/-- A bill of id A1 whose counterparty is an internal wallet. -/
def billWallet : Bill := mkBill "A1" "余额宝" "支出" 35 .undefined

/-- A bill of amount zero. -/
def billZero : Bill := mkBill "Z0" "面馆" "支出" 0 .undefined

/-- A bill without the property `id`. -/
def billNoId : Bill := { billLunch with id := .undefined }

/-- The store after saving the bill A1 and tagging it with the one name `a,b`. -/
def dbCommaTag : Db :=
  run sampleEngine Db.empty [.save [billLunch], .tag "A1".toList ["a,b".toList]]

/-! ## The client-side audits (`src/main.js`) -/

/-- A transaction as the dashboard holds it (an element of the reply of
`GET /api/bills`), with the fields the audits read. -/
structure Txn where
  id : Str
  peer : Str
  category : Str
  amount : ℚ
  time : ℤ
  deriving DecidableEq

/-- The text of `x.toFixed(0)` for a number below 10^21 in absolute value: the
sign, then the decimal digits of the nearest integer (halves rounded up in
absolute value). -/
def toFixed0 (x : ℚ) : Str :=
  (if x < 0 then ['-'] else []) ++ Nat.toDigits 10 ⌊|x| + 1 / 2⌋.toNat

/-- The grouping key of `runSubscriptionAudit`: the template
`peer-amount.toFixed(0)`. -/
def subKey (d : Txn) : Str := d.peer ++ ['-'] ++ toFixed0 d.amount

/-- The quotient `diffDays` of `runSubscriptionAudit` for two consecutive
transactions of the sorted group. -/
def diffDays (earlier later : Txn) : ℚ :=
  ((later.time - earlier.time : ℤ) : ℚ) / (1000 * 3600 * 24)

/-- The loop of `runSubscriptionAudit` over the sorted group: whether some
consecutive pair has `diffDays >= 25 && diffDays <= 35`. -/
def hasMonthlyGap : List Txn → Bool
  | a :: b :: rest =>
    (decide (25 ≤ diffDays a b) && decide (diffDays a b ≤ 35)) || hasMonthlyGap (b :: rest)
  | _ => false

/-- An element of `groups` in `runSubscriptionAudit`. -/
structure SubGroup where
  name : Str
  amount : ℚ
  items : List Txn
  deriving DecidableEq

/-- The callback of `map` in `runSubscriptionAudit`, for the items of one
group: `none` is the JavaScript `null`. -/
def subscriptionOf (items : List Txn) : Option SubGroup :=
  if items.length < 2 then none
  else if hasMonthlyGap (sortBy (fun a b => decide (a.time ≤ b.time)) items) then
    items.head?.map (fun first => { name := first.peer, amount := first.amount, items := items })
  else none

/-- The list `groups` computed by `runSubscriptionAudit`: the data grouped by
key, each group mapped, the nulls removed (`compact`). -/
def runSubscriptionAudit (data : List Txn) : List SubGroup :=
  (groupBy subKey data).filterMap (fun g => subscriptionOf g.2)

/-! ## More sample inputs -/

/-- The Date constructor of Node on a string, in the time zone UTC+8, for the
two date-only forms: the ISO form `YYYY-MM-DD` is UTC midnight, the form
`YYYY/MM/DD` is local midnight; every other text is an Invalid Date here. -/
def nodeDateShanghai (s : Str) : JsDate :=
  match s with
  | [y1, y2, y3, y4, sep1, m1, m2, sep2, d1, d2] =>
    if ([y1, y2, y3, y4, m1, m2, d1, d2].all isDigit) && sep1 == sep2 then
      if sep1 == '-' then
        timeClip (daysFromCivil (digitsValue [y1, y2, y3, y4]) (digitsValue [m1, m2])
          (digitsValue [d1, d2]) * msPerDay)
      else if sep1 == '/' then
        timeClip (daysFromCivil (digitsValue [y1, y2, y3, y4]) (digitsValue [m1, m2])
          (digitsValue [d1, d2]) * msPerDay - 8 * 3600000)
      else none
    else none
  | _ => none

/-- A subscription charged to Netflix, `days` days after the first of January 2024. -/
def txnNetflix (id : String) (days : ℤ) : Txn :=
  { id := id.toList, peer := "Netflix".toList, category := "娱乐".toList, amount := 68,
    time := 1704067200000 + days * 86400000 }

/-! ## Associations by name, and the constraints of the tag tables -/

/-- The associations of the store as pairs of a transaction id and a tag
name: each row of `transaction_tags` joined with its tag. -/
def assocNames (db : Db) : List (SqlVal × Str) :=
  db.transaction_tags.filterMap (fun tt =>
    (db.tags.find? (fun t => t.id == tt.tag_id)).map (fun t => (tt.transaction_id, t.name)))

/-- The constraints that the schema puts on the tag tables: tag names are
unique, tag ids are unique and not above the AUTOINCREMENT counter, and every
association refers to a tag. -/
def TagsWF (db : Db) : Prop :=
  (db.tags.map (fun t => t.name)).Nodup ∧
  (db.tags.map (fun t => t.id)).Nodup ∧
  (∀ t ∈ db.tags, t.id ≤ db.tagSeq) ∧
  (∀ tt ∈ db.transaction_tags, ∃ t ∈ db.tags, t.id = tt.tag_id)

/-- A server environment in which every stored time falls at hour 23 on a
Saturday. -/
def engineSaturdayNight : Engine :=
  { sampleEngine with getHours := fun _ => some 23, getDay := fun _ => some 6 }

/-- The nine tag names of the rule engine, in rule order. -/
def ruleTags : List Str :=
  ["小额".toList, "重要决策".toList, "深夜消费".toList, "周末".toList, "习惯性".toList,
   "健康".toList, "投资自己".toList, "社交".toList, "必要".toList]

/-- A store with a coffee purchase A1 and a shadow transaction W1. -/
def dbCoffeeAndWallet : Db :=
  run sampleEngine Db.empty
    [.save [mkBill "A1" "瑞幸咖啡" "支出" 10 .undefined, mkBill "W1" "余额宝" "支出" 100 .undefined]]

/-! ## Low-value repeat spending on the client (`runLatteAudit`) -/

/-- The filter of `runLatteAudit`: `d.amount > 0 && d.amount < 50`. -/
def isLowValue (d : Txn) : Bool := decide (0 < d.amount) && decide (d.amount < 50)

/-- The grouping key of `runLatteAudit`: the template `peer-category`. -/
def latteKey (d : Txn) : Str := d.peer ++ ['-'] ++ d.category

/-- An element of `groups` in `runLatteAudit`. -/
structure LatteGroup where
  name : Str
  cat : Str
  count : ℕ
  total : ℚ
  avg : ℚ
  deriving DecidableEq

/-- The callback of `map` in `runLatteAudit`, for the items of one group. -/
def latteOf (items : List Txn) : Option LatteGroup :=
  items.head?.map (fun first =>
    { name := first.peer, cat := first.category, count := items.length,
      total := (items.map (fun d => d.amount)).sum,
      avg := (items.map (fun d => d.amount)).sum / (items.length : ℚ) })

/-- The list `groups` computed by `runLatteAudit`: the low-value transactions
grouped by key, each group summarised, the groups of fewer than three items
dropped, the rest ordered by total, largest first. -/
def runLatteAudit (data : List Txn) : List LatteGroup :=
  sortBy (fun a b => decide (b.total ≤ a.total))
    (((groupBy latteKey (data.filter isLowValue)).filterMap (fun g => latteOf g.2)).filter
      (fun g => decide (3 ≤ g.count)))

/-! ## From the extraction to the bulk save (`handleFileUpload`) -/

/-- The JSON text of a number, read back: NaN and the infinities become `null`. -/
def jsonNum : JsNum → JsVal
  | .fin q => .num q
  | _ => .null

/-- An extracted record after `JSON.stringify` and the parse of the server:
the record has no property `status`. -/
def toBill (b : BillRecord) : Bill :=
  { id := .str b.id, platform := .str b.platform, time := .num b.time,
    date_str := .str b.date_str, hour := .num b.hour, category := b.category, peer := b.peer,
    item := b.item, amount := jsonNum b.amount, type := b.type, method := .str b.method,
    status := .undefined }

/-- The body that `handleFileUpload` posts: the records of every file, in
order, concatenated. -/
def uploadBody (files : List (Env × Sheet)) : List Bill :=
  ((files.map (fun f => extractBills f.1 f.2)).flatten).map toBill

/-! ## Tag statistics (`GET /api/tags`) -/

/-- A row of the reply of `GET /api/tags`. -/
structure TagStat where
  id : ℕ
  name : Str
  color : Str
  count : ℕ
  totalAmount : SqlVal
  deriving DecidableEq

/-- The rows of the two LEFT JOINs of `GET /api/tags`: each tag with each of
its associations (or none), each association with each non-shadow transaction
of its id (or none). -/
def tagJoinRows (db : Db) : List (TagRow × Option TtRow × Option TxRow) :=
  (db.tags.map (fun t =>
    match db.transaction_tags.filter (fun tt => tt.tag_id == t.id) with
    | [] => [(t, none, none)]
    | tts =>
      (tts.map (fun tt =>
        match db.transactions.filter (fun tr => sqlEq tt.transaction_id tr.id && notShadow tr) with
        | [] => [(t, some tt, none)]
        | trs => trs.map (fun tr => (t, some tt, some tr)))).flatten)).flatten

/-- The route `GET /api/tags`: the join rows grouped by tag id, with
`COUNT(tt.transaction_id)` and `COALESCE(SUM(tr.amount), 0)`, ordered by
`totalAmount` descending. -/
def getTags (eng : Engine) (db : Db) : List TagStat :=
  sortBy (fun a b => sqlLe b.totalAmount a.totalAmount)
    ((groupBy (fun j : TagRow × Option TtRow × Option TxRow => j.1.id) (tagJoinRows db)).filterMap
      (fun g => g.2.head?.map (fun first =>
        { id := first.1.id, name := first.1.name, color := first.1.color,
          count := (g.2.filter (fun j =>
            match j.2.1 with
            | some tt => tt.transaction_id != .null
            | none => false)).length,
          totalAmount :=
            match sqlSum eng (g.2.map (fun j =>
              match j.2.2 with
              | some tr => tr.amount
              | none => .null)) with
            | .null => .num 0
            | v => v })))

/-! ## Further sample inputs -/

/-- A low-value purchase with the given counterparty and category. -/
def txnSmall (id peer category : String) (amount : ℚ) : Txn :=
  { id := id.toList, peer := peer.toList, category := category.toList, amount := amount,
    time := 1704067200000 }

/-- A printer of non-negative numbers with at most one decimal: the digits of
the integer part, then the point and the decimal when there is one. -/
def printOneDecimal (q : ℚ) : Str :=
  Nat.toDigits 10 ⌊q⌋.toNat ++
    (if q = ⌊q⌋ then [] else '.' :: Nat.toDigits 10 ⌊(q - ⌊q⌋) * 10⌋.toNat)

/-- An environment whose clock and random generator return the same values at
every call. -/
def envFrozenClock : Env :=
  { numToString := printOneDecimal, dayjs := sampleDayjs,
    now := fun _ => 1700000000000, random := fun _ => 1 / 2 }

/-- An expense row of amount 35.00 without the order number. -/
def sampleRowNoId : Row :=
  [("交易时间".toList, .str "2024/01/01 10:00:00".toList), ("交易对方".toList, .str "面馆".toList),
   ("收/支".toList, .str "支出".toList), ("金额".toList, .str "35.00".toList)]

/-- An expense row of amount 20.00 without the order number. -/
def sampleRowNoId2 : Row :=
  [("交易时间".toList, .str "2024/01/01 10:00:00".toList), ("交易对方".toList, .str "书店".toList),
   ("收/支".toList, .str "支出".toList), ("金额".toList, .str "20.00".toList)]

/-- A sheet of the two rows without order number. -/
def sheetTwoNoId : Sheet :=
  { raw := [[.str "支付宝交易记录明细查询".toList]], json := fun _ => [sampleRowNoId, sampleRowNoId2] }

/-- A transfer row of amount 200.00. -/
def sampleRowTransfer : Row :=
  [("交易时间".toList, .str "2024/01/01 10:00:00".toList), ("交易分类".toList, .str "转账".toList),
   ("交易对方".toList, .str "张三".toList), ("商品说明".toList, .str "转账".toList),
   ("收/支".toList, .str "转账".toList), ("金额".toList, .str "200.00".toList),
   ("交易订单号".toList, .str "T1".toList)]

/-- A sheet of the transfer row. -/
def sheetTransfer : Sheet :=
  { raw := [[.str "支付宝交易记录明细查询".toList]], json := fun _ => [sampleRowTransfer] }

/-- The sample expense row without the direction column. -/
def sampleRowNoDirection : Row :=
  [("交易时间".toList, .str "2024/01/01 10:00:00".toList), ("交易对方".toList, .str "面馆".toList),
   ("金额".toList, .str "35.00".toList), ("交易订单号".toList, .str "A7".toList)]

/-- A sheet of the row without the direction column. -/
def sheetNoDirection : Sheet :=
  { raw := [[.str "支付宝交易记录明细查询".toList]], json := fun _ => [sampleRowNoDirection] }

/-- The store in which the coffee purchase A1 carries the tags of auto-apply. -/
def dbTaggedCoffee : Db := (postAutoApply sampleEngine dbCoffeeAndWallet).1

/-- The store in which the shadow transaction W1 carries the tag `x`, given by hand. -/
def dbTaggedShadow : Db :=
  (postBillTags sampleEngine dbCoffeeAndWallet "W1".toList ["x".toList]).1

/-- The sample server environment with a printer of numbers that gives the
decimal digits of the integer part. -/
def engineDecimal : Engine :=
  { sampleEngine with sqlNumText := fun q => Nat.toDigits 10 ⌊q⌋.toNat }

/-- A store with two charges of the same merchant and amount, 20 days apart. -/
def dbTwentyDays : Db :=
  run sampleEngine Db.empty
    [.save [{ mkBill "N1" "Netflix" "支出" 68 .undefined with time := .num 1704067200000 },
            { mkBill "N2" "Netflix" "支出" 68 .undefined with time := .num 1705795200000 }]]

/-- A store with the counterparties `abc` and `xyz`. -/
def dbAbcXyz : Db :=
  run sampleEngine Db.empty
    [.save [mkBill "Q1" "abc" "支出" 12 .undefined, mkBill "Q2" "xyz" "支出" 15 .undefined]]

/-- A transaction with the given counterparty and amount, `days` days after
the first of January 2024. -/
def txnCharge (id peer : String) (amount : ℚ) (days : ℤ) : Txn :=
  { id := id.toList, peer := peer.toList, category := "娱乐".toList, amount := amount,
    time := 1704067200000 + days * 86400000 }

/-- The arguments of `queryTransactions` with every property omitted. -/
def queryNone : QueryArgs :=
  { merchant := none, category := none, minAmount := none, maxAmount := none,
    startDate := none, endDate := none, limit := none }

end MyFinance

/-! # Theorems -/

namespace MyFinance

/-! ## Extraction -/

theorem reduceOption_filter_keepBill (l : List (Option BillRecord)) :
    (l.filter keepBill).reduceOption =
      l.reduceOption.filter (fun b => b.amount.isPos && isExpenseOrTransfer b.type) := by
  induction l with
  | nil => rfl
  | cons a rest ih =>
    cases a with
    | none => simpa [List.filter_cons, keepBill, List.reduceOption_cons_of_none] using ih
    | some b =>
      by_cases h : (b.amount.isPos && isExpenseOrTransfer b.type) = true
      · simp [List.filter_cons, keepBill, h, List.reduceOption_cons_of_some, ih]
      · simp [List.filter_cons, keepBill, h, List.reduceOption_cons_of_some, ih]

theorem isExpenseOrTransfer_iff (ty : JsVal) :
    isExpenseOrTransfer ty = true ↔ ty = .str "支出".toList ∨ ty = .str "转账".toList := by
  simp [isExpenseOrTransfer]

theorem extractBills_eq_filter (env : Env) (sheet : Sheet) :
    extractBills env sheet =
      ((sheet.json (detect sheet).2.range).enum.filterMap
          (fun ir => mapRow env (detect sheet).1 (detect sheet).2 ir.1 ir.2)).filter
        (fun b => b.amount.isPos && isExpenseOrTransfer b.type) := by
  simp only [extractBills]
  rw [reduceOption_filter_keepBill]
  simp [List.reduceOption, List.filterMap_map, Function.comp_def]

theorem extractBills_mem_kept {env : Env} {sheet : Sheet} {b : BillRecord}
    (hb : b ∈ extractBills env sheet) :
    b.amount.isPos = true ∧ (b.type = .str "支出".toList ∨ b.type = .str "转账".toList) := by
  rw [extractBills_eq_filter, List.mem_filter] at hb
  have h2 := hb.2
  simp only [Bool.and_eq_true] at h2
  exact ⟨h2.1, (isExpenseOrTransfer_iff _).1 h2.2⟩

/-- Claim C1. `extractBills` returns exactly the mapped rows, in sheet order,
whose time cell is present (truthy) and parses to a valid date, whose parsed
amount is positive and whose direction is expense or transfer; every returned
record has a positive amount; a sheet with one valid expense row of amount
35.00 and one zero-amount row yields exactly one record, of amount 35. -/
theorem extractBills_exactly_valid_rows (env : Env) (sheet : Sheet) :
    (extractBills env sheet =
      ((sheet.json (detect sheet).2.range).enum.filterMap
          (fun ir => mapRow env (detect sheet).1 (detect sheet).2 ir.1 ir.2)).filter
        (fun b => b.amount.isPos && isExpenseOrTransfer b.type)) ∧
    (∀ (platform : Str) (cfg : Cfg) (i : ℕ) (r : Row) (b : BillRecord),
      mapRow env platform cfg i r = some b ↔
        (r.get cfg.time).truthy = true ∧
        ∃ d, env.dayjs (replaceSlash ((r.get cfg.time).toStr env.numToString)) = some d ∧
          b = { id := ((r.get cfg.id).orElse (.num (env.now i + env.random i))).toStr env.numToString,
                platform := platform, time := d.valueOf, date_str := d.dateStr, hour := d.hour,
                category := (r.get cfg.cat).orElse (.str "其它".toList),
                peer := (r.get cfg.peer).orElse (.str "未知".toList),
                item := (r.get cfg.item).orElse (.str "/".toList),
                amount := inlineAmount env.numToString (r.get cfg.amt),
                type := (r.get cfg.type).orElse (.str "支出".toList),
                method := "手动导入".toList }) ∧
    (∀ b ∈ extractBills env sheet,
      b.amount.isPos = true ∧ (b.type = .str "支出".toList ∨ b.type = .str "转账".toList)) ∧
    (∀ r1 r2 : Row, sheet.json (detect sheet).2.range = [r1, r2] →
      (r1.get (detect sheet).2.time).truthy = true →
      (env.dayjs (replaceSlash ((r1.get (detect sheet).2.time).toStr env.numToString))).isSome = true →
      r1.get (detect sheet).2.amt = .str "35.00".toList →
      r1.get (detect sheet).2.type = .str "支出".toList →
      inlineAmount env.numToString (r2.get (detect sheet).2.amt) = .fin 0 →
      ∃ b, extractBills env sheet = [b] ∧ b.amount = .fin 35 ∧ b.type = .str "支出".toList) := by
  have hmain := extractBills_eq_filter env sheet
  have hmap : ∀ (platform : Str) (cfg : Cfg) (i : ℕ) (r : Row) (b : BillRecord),
      mapRow env platform cfg i r = some b ↔
        (r.get cfg.time).truthy = true ∧
        ∃ d, env.dayjs (replaceSlash ((r.get cfg.time).toStr env.numToString)) = some d ∧
          b = { id := ((r.get cfg.id).orElse (.num (env.now i + env.random i))).toStr env.numToString,
                platform := platform, time := d.valueOf, date_str := d.dateStr, hour := d.hour,
                category := (r.get cfg.cat).orElse (.str "其它".toList),
                peer := (r.get cfg.peer).orElse (.str "未知".toList),
                item := (r.get cfg.item).orElse (.str "/".toList),
                amount := inlineAmount env.numToString (r.get cfg.amt),
                type := (r.get cfg.type).orElse (.str "支出".toList),
                method := "手动导入".toList } := by
    intro platform cfg i r b
    unfold mapRow
    by_cases ht : (r.get cfg.time).truthy = true
    · cases hd : env.dayjs (replaceSlash ((r.get cfg.time).toStr env.numToString)) with
      | none => simp [ht, hd]
      | some d =>
        simp only [ht, hd, Bool.not_true, Bool.false_eq_true, if_false, Option.some.injEq, true_and]
        constructor
        · intro h; exact ⟨d, rfl, h.symm⟩
        · rintro ⟨d1, hd1, hb⟩; cases hd1; exact hb.symm
    · simp [ht]
  refine ⟨hmain, hmap, ?_, ?_⟩
  · intro b hb
    exact extractBills_mem_kept hb
  · intro r1 r2 hrows ht hd hamt hty hzero
    obtain ⟨d, hd⟩ := Option.isSome_iff_exists.1 hd
    have h35 : inlineAmount env.numToString (JsVal.str "35.00".toList) = .fin 35 := by
      have hp : (parseFloat (stripAmount "35.00".toList)).orZero = .fin 35 := by decide!
      exact hp
    have hm2 : ∀ b, mapRow env (detect sheet).1 (detect sheet).2 1 r2 = some b →
        (b.amount.isPos && isExpenseOrTransfer b.type) = false := by
      intro b hb
      obtain ⟨_, d2, _, rfl⟩ := (hmap _ _ _ _ _).1 hb
      have h0 : (JsNum.fin 0).isPos = false := by decide
      simp only [hzero, h0, Bool.false_and]
    rw [hmain, hrows]
    have hm1 := (hmap (detect sheet).1 (detect sheet).2 0 r1 _).2 ⟨ht, d, hd, rfl⟩
    have hty1 : (r1.get (detect sheet).2.type).orElse (.str "支出".toList) = .str "支出".toList := by
      rw [hty]; decide
    obtain ⟨b1, hb1, hamt1, htyb1⟩ : ∃ b1, mapRow env (detect sheet).1 (detect sheet).2 0 r1 = some b1 ∧
        b1.amount = .fin 35 ∧ b1.type = .str "支出".toList :=
      ⟨_, hm1, by simp only [hamt, h35], hty1⟩
    have hk1 : (b1.amount.isPos && isExpenseOrTransfer b1.type) = true := by
      rw [hamt1, htyb1]; decide
    refine ⟨b1, ?_, hamt1, htyb1⟩
    simp only [List.enum, List.enumFrom_cons, List.enumFrom_nil, List.filterMap_cons,
      List.filterMap_nil, hb1]
    cases h2 : mapRow env (detect sheet).1 (detect sheet).2 (0 + 1) r2 with
    | none => simp [List.filter_cons, hk1]
    | some b2 =>
      have hk2 := hm2 b2 (by simpa using h2)
      simp [List.filter_cons, hk1, hk2]

/-- Witness of `extractBills_exactly_valid_rows`: the sample sheet has one
expense row of amount 35.00 and one zero-amount row, and yields one record. -/
theorem extractBills_exactly_valid_rows_witness :
    ∃ b, extractBills sampleEnv sampleSheet = [b] ∧ b.amount = .fin 35 ∧
      b.type = .str "支出".toList :=
  (extractBills_exactly_valid_rows sampleEnv sampleSheet).2.2.2 sampleRowExpense sampleRowZero
    (by decide) (by decide) (by decide) (by decide) (by decide) (by decide!)

/-! ## Amount parsing -/

theorem stripAmount_idem (s : Str) : stripAmount (stripAmount s) = stripAmount s := by
  simp [stripAmount, List.filter_filter]

theorem stripAmount_eq_filter (s : Str) :
    stripAmount s = s.filter (fun c => decide (c ≠ '¥' ∧ c ≠ ',' ∧ c ≠ ' ')) := by
  unfold stripAmount
  congr 1
  funext c
  by_cases h1 : c = '¥' <;> by_cases h2 : c = ',' <;> by_cases h3 : c = ' ' <;> simp [h1, h2, h3]

/-- Claim C9. For every string, `parseAmount` gives the same number on the
string and on the string with every yen sign, comma and space removed;
`parseAmount("¥1,234.50")` is 1234.50; the inline amount parsing of
`extractBills` has the same property. -/
theorem parseAmount_ignores_glyphs (s : Str) :
    parseAmount (.str s) =
        parseAmount (.str (s.filter (fun c => decide (c ≠ '¥' ∧ c ≠ ',' ∧ c ≠ ' ')))) ∧
    parseAmount (.str "¥1,234.50".toList) = .fin (12345 / 10) ∧
    parseAmount (.str "¥1,234.50".toList) = parseAmount (.str "1234.50".toList) ∧
    (∀ numToString : ℚ → Str,
      inlineAmount numToString (.str s) =
        inlineAmount numToString
          (.str (s.filter (fun c => decide (c ≠ '¥' ∧ c ≠ ',' ∧ c ≠ ' ')))) ∧
      inlineAmount numToString (.str "¥1,234.50".toList) = .fin (12345 / 10)) := by
  have hval : (parseFloat (stripAmount "¥1,234.50".toList)).orZero = .fin (12345 / 10) := by decide!
  refine ⟨?_, hval, by decide!, fun numToString => ⟨?_, hval⟩⟩
  · rw [← stripAmount_eq_filter]
    simp only [parseAmount, stripAmount_idem]
  · rw [← stripAmount_eq_filter]
    simp only [inlineAmount, JsVal.toStr, stripAmount_idem]

/-! ## The bulk save -/

theorem insertLoop_cons (db : Db) (bill : Bill) (rest : List Bill) :
    insertLoop db (bill :: rest) =
      (bindBill (classify bill)).bind (fun row => insertLoop (insertOrReplace db row) rest) := by
  cases h : bindBill (classify bill) <;> simp [insertLoop, insertOne, h]

theorem insertLoop_append (db : Db) (pre post : List Bill) :
    insertLoop db (pre ++ post) = (insertLoop db pre).bind (fun d => insertLoop d post) := by
  induction pre generalizing db with
  | nil => simp [insertLoop]
  | cons b rest ih =>
    rw [List.cons_append, insertLoop_cons, insertLoop_cons]
    cases h : bindBill (classify b) with
    | none => simp
    | some row => simp [ih]

theorem insertLoop_eq_none_iff (db : Db) (bills : List Bill) :
    insertLoop db bills = none ↔ ∃ bill ∈ bills, bindBill (classify bill) = none := by
  induction bills generalizing db with
  | nil => simp [insertLoop]
  | cons b rest ih =>
    rw [insertLoop_cons]
    cases h : bindBill (classify b) with
    | none => simp [h]
    | some row => simp [h, ih]

theorem postBills_of_some {db db1 : Db} {bills : List Bill} (h : insertLoop db bills = some db1) :
    postBills db bills = (db1, .ok bills.length) := by
  simp [postBills, insertMany, atomically, h]

theorem postBills_of_none {db : Db} {bills : List Bill} (h : insertLoop db bills = none) :
    postBills db bills = (db, .error) := by
  simp [postBills, insertMany, atomically, h]

theorem mem_insertOrReplace {db : Db} {row x : TxRow} :
    x ∈ (insertOrReplace db row).transactions ↔
      (x ∈ db.transactions ∧ sqlEq x.id row.id = false) ∨ x = row := by
  simp [insertOrReplace, List.mem_filter]

theorem insertLoop_mem_origin {db db1 : Db} {bills : List Bill}
    (h : insertLoop db bills = some db1) {x : TxRow} (hx : x ∈ db1.transactions) :
    x ∈ db.transactions ∨ ∃ bill ∈ bills, bindBill (classify bill) = some x := by
  induction bills generalizing db with
  | nil =>
    simp only [insertLoop, Option.some.injEq] at h
    subst h
    exact Or.inl hx
  | cons b rest ih =>
    rw [insertLoop_cons] at h
    cases hb : bindBill (classify b) with
    | none => simp [hb] at h
    | some row =>
      simp only [hb, Option.some_bind] at h
      rcases ih h with h1 | ⟨bill, hbill, hrow⟩
      · rcases mem_insertOrReplace.1 h1 with ⟨h2, _⟩ | h2
        · exact Or.inl h2
        · exact Or.inr ⟨b, List.mem_cons_self _ _, by rw [hb, h2]⟩
      · exact Or.inr ⟨bill, List.mem_cons_of_mem _ hbill, hrow⟩

theorem insertLoop_frame {db db1 : Db} {bills : List Bill}
    (h : insertLoop db bills = some db1) {x : TxRow} (hx : x ∈ db.transactions)
    (hfree : ∀ bill ∈ bills, ∀ row, bindBill (classify bill) = some row → sqlEq x.id row.id = false) :
    x ∈ db1.transactions := by
  induction bills generalizing db with
  | nil =>
    simp only [insertLoop, Option.some.injEq] at h
    subst h
    exact hx
  | cons b rest ih =>
    rw [insertLoop_cons] at h
    cases hb : bindBill (classify b) with
    | none => simp [hb] at h
    | some row =>
      simp only [hb, Option.some_bind] at h
      refine ih h (mem_insertOrReplace.2 (Or.inl ⟨hx, hfree b (List.mem_cons_self _ _) row hb⟩)) ?_
      intro bill hbill r hr
      exact hfree bill (List.mem_cons_of_mem _ hbill) r hr

theorem postBills_mem_origin (db : Db) (bills : List Bill) {x : TxRow}
    (hx : x ∈ (postBills db bills).1.transactions) :
    x ∈ db.transactions ∨ ∃ bill ∈ bills, bindBill (classify bill) = some x := by
  cases h : insertLoop db bills with
  | none =>
    rw [postBills_of_none h] at hx
    exact Or.inl hx
  | some db1 =>
    rw [postBills_of_some h] at hx
    exact insertLoop_mem_origin h hx

theorem bindBill_fields {bill : Bill} {row : TxRow} (h : bindBill bill = some row) :
    bind bill.id = some row.id ∧ bind bill.platform = some row.platform ∧
    bind bill.time = some row.time ∧ bind bill.date_str = some row.date_str ∧
    bind bill.hour = some row.hour ∧ bind bill.category = some row.category ∧
    bind bill.peer = some row.peer ∧ bind bill.item = some row.item ∧
    bind bill.amount = some row.amount ∧ bind bill.type = some row.type ∧
    bind bill.method = some row.method ∧ bind bill.status = some row.status := by
  unfold bindBill at h
  obtain ⟨v1, h1, h⟩ := Option.bind_eq_some.1 h
  obtain ⟨v2, h2, h⟩ := Option.bind_eq_some.1 h
  obtain ⟨v3, h3, h⟩ := Option.bind_eq_some.1 h
  obtain ⟨v4, h4, h⟩ := Option.bind_eq_some.1 h
  obtain ⟨v5, h5, h⟩ := Option.bind_eq_some.1 h
  obtain ⟨v6, h6, h⟩ := Option.bind_eq_some.1 h
  obtain ⟨v7, h7, h⟩ := Option.bind_eq_some.1 h
  obtain ⟨v8, h8, h⟩ := Option.bind_eq_some.1 h
  obtain ⟨v9, h9, h⟩ := Option.bind_eq_some.1 h
  obtain ⟨v10, h10, h⟩ := Option.bind_eq_some.1 h
  obtain ⟨v11, h11, h⟩ := Option.bind_eq_some.1 h
  obtain ⟨v12, h12, h⟩ := Option.bind_eq_some.1 h
  cases h
  exact ⟨h1, h2, h3, h4, h5, h6, h7, h8, h9, h10, h11, h12⟩

theorem bindBill_status {bill : Bill} {row : TxRow} (h : bindBill bill = some row) :
    bind bill.status = some row.status :=
  (bindBill_fields h).2.2.2.2.2.2.2.2.2.2.2

theorem bindBill_id {bill : Bill} {row : TxRow} (h : bindBill bill = some row) :
    bind bill.id = some row.id :=
  (bindBill_fields h).1

theorem bindBill_amount {bill : Bill} {row : TxRow} (h : bindBill bill = some row) :
    bind bill.amount = some row.amount :=
  (bindBill_fields h).2.2.2.2.2.2.2.2.1

theorem testAny_append (ks ls : List Str) (s : Str) :
    testAny (ks ++ ls) s = (testAny ks s || testAny ls s) := by
  simp [testAny, List.any_append]

theorem regexTest_append (ks ls : List Str) (v : JsVal) :
    regexTest (ks ++ ls) v = (regexTest ks v || regexTest ls v) := by
  cases v <;> simp [regexTest, testAny_append]

/-- Claim C2. Every row that a bulk save puts in the table is the row of a
classified bill of the batch; the bill is internal exactly when its direction
contains one of 转账, 还款, 提现, 充值 or its counterparty one of 余额宝, 零钱通, 理财,
余利宝, 理财通, 信用卡, whatever its amount and its source status; the stored status
of an internal bill is shadow, that of another bill is its source status when
that is present (truthy) and 成功 when it is absent. -/
theorem stored_status_classified (db : Db) (bills : List Bill) :
    (∀ row ∈ (postBills db bills).1.transactions,
      row ∈ db.transactions ∨ ∃ bill ∈ bills, bindBill (classify bill) = some row) ∧
    (∀ bill : Bill,
      isInternal bill =
        (regexTest ["转账".toList, "还款".toList, "提现".toList, "充值".toList] bill.type ||
         regexTest ["余额宝".toList, "零钱通".toList, "理财".toList, "余利宝".toList, "理财通".toList,
           "信用卡".toList] bill.peer)) ∧
    (∀ (bill : Bill) (amount status : JsVal),
      isInternal { bill with amount := amount, status := status } = isInternal bill) ∧
    (∀ (bill : Bill) (row : TxRow), bindBill (classify bill) = some row →
      (isInternal bill = true → row.status = .text "shadow".toList) ∧
      (isInternal bill = false → bill.status.truthy = true → bind bill.status = some row.status) ∧
      (isInternal bill = false → bill.status.truthy = false → row.status = .text "成功".toList)) := by
  refine ⟨fun row hrow => postBills_mem_origin db bills hrow, ?_, ?_, ?_⟩
  · intro bill
    have h := regexTest_append walletWords creditWords bill.peer
    simp only [walletWords, creditWords, List.cons_append, List.nil_append] at h
    simp only [isInternal, movementWords, walletWords, creditWords, h, Bool.or_assoc]
  · intro bill amount status
    rfl
  · intro bill row h
    have hst := bindBill_status h
    refine ⟨?_, ?_, ?_⟩
    · intro hi
      simp only [classify, hi, if_true, bind, Option.some.injEq] at hst
      exact hst.symm
    · intro hi ht
      simpa only [classify, hi, JsVal.orElse, ht, if_true, Bool.false_eq_true, if_false] using hst
    · intro hi ht
      simp only [classify, hi, JsVal.orElse, ht, Bool.false_eq_true, if_false, bind,
        Option.some.injEq] at hst
      exact hst.symm

/-- Witness of `stored_status_classified`: the bill A1 paid to 余额宝 binds to
a row of status shadow, and the bill A1 paid to a noodle shop, which carries no
status, to a row of status 成功. -/
theorem stored_status_classified_witness :
    (mkRow "A1" "余额宝" "支出" 35 "shadow").status = .text "shadow".toList ∧
    (mkRow "A1" "面馆" "支出" 35 "成功").status = .text "成功".toList :=
  ⟨((stored_status_classified Db.empty [billWallet]).2.2.2 billWallet
      (mkRow "A1" "余额宝" "支出" 35 "shadow") (by decide!)).1 (by decide),
   ((stored_status_classified Db.empty [billLunch]).2.2.2 billLunch
      (mkRow "A1" "面馆" "支出" 35 "成功") (by decide!)).2.2 (by decide) (by decide)⟩

/-! ## Tagging never writes the table of transactions -/

theorem getOrCreateTag_transactions (eng : Engine) (db : Db) (tagName : Str) :
    (getOrCreateTag eng db tagName).1.transactions = db.transactions := by
  unfold getOrCreateTag
  cases db.tags.find? (fun t => t.name == tagName) <;> rfl

theorem insertTt_transactions {eng : Engine} {db db1 : Db} {txId : SqlVal} {tagId : ℕ}
    (h : insertTt eng db txId tagId = some db1) : db1.transactions = db.transactions := by
  unfold insertTt at h
  split_ifs at h <;> simp only [Option.some.injEq] at h <;> subst h <;> rfl

theorem addTagsLoop_transactions {eng : Engine} {txId : SqlVal} {db db1 : Db} {names : List Str}
    (h : addTagsLoop eng txId db names = some db1) : db1.transactions = db.transactions := by
  induction names generalizing db with
  | nil =>
    simp only [addTagsLoop, Option.some.injEq] at h
    subst h; rfl
  | cons n rest ih =>
    simp only [addTagsLoop] at h
    cases hi : insertTt eng (getOrCreateTag eng db n).1 txId (getOrCreateTag eng db n).2 with
    | none => simp [hi] at h
    | some d =>
      simp only [hi] at h
      rw [ih h, insertTt_transactions hi, getOrCreateTag_transactions]

theorem tagEach_transactions {eng : Engine} {tagId : ℕ} {db db1 : Db} {ids : List SqlVal}
    (h : tagEach eng tagId db ids = some db1) : db1.transactions = db.transactions := by
  induction ids generalizing db with
  | nil =>
    simp only [tagEach, Option.some.injEq] at h
    subst h; rfl
  | cons a rest ih =>
    simp only [tagEach] at h
    cases hi : insertTt eng db a tagId with
    | none => simp [hi] at h
    | some d =>
      simp only [hi] at h
      rw [ih h, insertTt_transactions hi]

theorem batchAddLoop_transactions {eng : Engine} {ids : List SqlVal} {db db1 : Db}
    {names : List Str} (h : batchAddLoop eng ids db names = some db1) :
    db1.transactions = db.transactions := by
  induction names generalizing db with
  | nil =>
    simp only [batchAddLoop, Option.some.injEq] at h
    subst h; rfl
  | cons n rest ih =>
    simp only [batchAddLoop] at h
    cases hi : tagEach eng (getOrCreateTag eng db n).2 (getOrCreateTag eng db n).1 ids with
    | none => simp [hi] at h
    | some d =>
      simp only [hi] at h
      rw [ih h, tagEach_transactions hi, getOrCreateTag_transactions]

theorem autoApplyLoop_transactions {eng : Engine} {db db1 : Db} {txs : List TxRow}
    (h : autoApplyLoop eng db txs = some db1) : db1.transactions = db.transactions := by
  induction txs generalizing db with
  | nil =>
    simp only [autoApplyLoop, Option.some.injEq] at h
    subst h; rfl
  | cons t rest ih =>
    simp only [autoApplyLoop] at h
    cases hi : addTagsLoop eng t.id db (autoTagTransaction eng t) with
    | none => simp [hi] at h
    | some d =>
      simp only [hi] at h
      rw [ih h, addTagsLoop_transactions hi]

theorem atomically_transactions (db : Db) (body : Db → Option Db)
    (h : ∀ db1, body db = some db1 → db1.transactions = db.transactions) :
    (atomically db body).1.transactions = db.transactions := by
  unfold atomically
  cases hb : body db with
  | none => rfl
  | some db1 => exact h db1 hb

theorem postBillTags_transactions (eng : Engine) (db : Db) (id : Str) (names : List Str) :
    (postBillTags eng db id names).1.transactions = db.transactions :=
  atomically_transactions db _ (fun _ h => addTagsLoop_transactions h)

theorem postBatchMerchant_transactions (eng : Engine) (db : Db) (m : Str) (names : List Str) :
    (postBatchMerchant eng db m names).1.transactions = db.transactions :=
  atomically_transactions db _ (fun _ h => batchAddLoop_transactions h)

theorem postAutoApply_transactions (eng : Engine) (db : Db) :
    (postAutoApply eng db).1.transactions = db.transactions :=
  atomically_transactions db _ (fun _ h => autoApplyLoop_transactions h)

/-- An invariant of the table of transactions that holds of the empty table
and that every save preserves holds after every sequence of requests. -/
theorem run_invariant (eng : Engine) (P : List TxRow → Prop) (hnil : P [])
    (ops : List Op) (db : Db) (h0 : P db.transactions)
    (hsave : ∀ d bills, Op.save bills ∈ ops → P d.transactions →
      P (postBills d bills).1.transactions) :
    P (run eng db ops).transactions := by
  induction ops generalizing db with
  | nil => exact h0
  | cons op rest ih =>
    simp only [run, List.foldl_cons]
    refine ih _ ?_ (fun d bills hm => hsave d bills (List.mem_cons_of_mem _ hm))
    cases op with
    | save bills => exact hsave db bills (List.mem_cons_self _ _) h0
    | deleteAll => exact hnil
    | tag id names => simpa only [step, postBillTags_transactions] using h0
    | batchMerchant m names => simpa only [step, postBatchMerchant_transactions] using h0
    | autoApply => simpa only [step, postAutoApply_transactions] using h0

/-! ## Upsert by id -/

theorem sqlEq_self_of_ne_null {a : SqlVal} (h : a ≠ .null) : sqlEq a a = true := by
  cases a <;> simp [sqlEq] at h ⊢

theorem bind_ne_null {v : JsVal} {x : SqlVal} (hv : v ≠ .null) (h : bind v = some x) :
    x ≠ .null := by
  cases v <;> simp [bind] at h hv ⊢ <;> subst h <;> simp

theorem classify_id (bill : Bill) : (classify bill).id = bill.id := by
  unfold classify
  split_ifs <;> rfl

theorem classify_amount (bill : Bill) : (classify bill).amount = bill.amount := by
  unfold classify
  split_ifs <;> rfl

theorem insertOrReplace_filter_id (db : Db) (row : TxRow) (h : row.id ≠ .null) :
    (insertOrReplace db row).transactions.filter (fun x => decide (x.id = row.id)) = [row] := by
  simp only [insertOrReplace, List.filter_append, List.filter_filter]
  have h1 : db.transactions.filter
      (fun x => decide (x.id = row.id) && !sqlEq x.id row.id) = [] := by
    rw [List.filter_eq_nil_iff]
    intro x _
    by_cases hx : x.id = row.id
    · simp [hx, sqlEq_self_of_ne_null h]
    · simp [hx]
  rw [h1]
  simp

theorem insertLoop_normal_form (bills : List Bill) :
    ∀ (db db1 : Db), insertLoop db bills = some db1 →
      ∃ e1, insertLoop Db.empty bills = some e1 ∧
        db1.transactions =
          db.transactions.filter (fun x => bills.all (fun b =>
            match bindBill (classify b) with
            | some r => !sqlEq x.id r.id
            | none => true)) ++ e1.transactions := by
  induction bills using List.reverseRecOn with
  | nil =>
    intro db db1 h
    simp only [insertLoop, Option.some.injEq] at h
    subst h
    exact ⟨Db.empty, rfl, by simp [Db.empty]⟩
  | append_singleton bills b ih =>
    intro db db2 h
    rw [insertLoop_append] at h
    cases h1 : insertLoop db bills with
    | none => simp [h1] at h
    | some db1 =>
      simp only [h1, Option.some_bind, insertLoop_cons] at h
      cases hb : bindBill (classify b) with
      | none => simp [hb] at h
      | some r =>
        simp only [hb, Option.some_bind, insertLoop, Option.some.injEq] at h
        subst h
        obtain ⟨e1, he1, htx⟩ := ih db db1 h1
        refine ⟨insertOrReplace e1 r, ?_, ?_⟩
        · rw [insertLoop_append, he1, Option.some_bind, insertLoop_cons, hb]
          simp [insertLoop]
        · simp only [insertOrReplace, htx, List.filter_append, List.filter_filter,
            List.all_append, List.all_cons, List.all_nil, hb, Bool.and_true, List.append_assoc]
          congr 1
          apply List.filter_congr
          intro x _
          rw [Bool.and_comm]

theorem insertLoop_empty_rows {bills : List Bill} {e1 : Db}
    (h : insertLoop Db.empty bills = some e1) {x : TxRow} (hx : x ∈ e1.transactions) :
    ∃ bill ∈ bills, bindBill (classify bill) = some x := by
  rcases insertLoop_mem_origin h hx with h1 | h1
  · simp [Db.empty] at h1
  · exact h1

theorem postBills_twice (db : Db) (bills : List Bill) (hid : ∀ bill ∈ bills, bill.id ≠ .null) :
    (postBills (postBills db bills).1 bills).1.transactions =
      (postBills db bills).1.transactions := by
  cases h1 : insertLoop db bills with
  | none => simp only [postBills_of_none h1]
  | some db1 =>
    have hall : ¬ ∃ bill ∈ bills, bindBill (classify bill) = none := by
      rw [← insertLoop_eq_none_iff db bills, h1]; simp
    cases h2 : insertLoop db1 bills with
    | none => exact absurd ((insertLoop_eq_none_iff db1 bills).1 h2) hall
    | some db2 =>
      rw [postBills_of_some h1, postBills_of_some h2]
      obtain ⟨e1, he1, htx1⟩ := insertLoop_normal_form bills db db1 h1
      obtain ⟨e2, he2, htx2⟩ := insertLoop_normal_form bills db1 db2 h2
      rw [he1] at he2
      cases he2
      show db2.transactions = db1.transactions
      rw [htx2, htx1, List.filter_append, List.filter_filter]
      have hnil : e1.transactions.filter (fun x => bills.all (fun b =>
            match bindBill (classify b) with
            | some r => !sqlEq x.id r.id
            | none => true)) = [] := by
        rw [List.filter_eq_nil_iff]
        intro x hx
        obtain ⟨bill, hbill, hrow⟩ := insertLoop_empty_rows he1 hx
        have hxid : x.id ≠ .null := by
          have := bindBill_id hrow
          rw [classify_id] at this
          exact bind_ne_null (hid bill hbill) this
        simp only [List.all_eq_true, not_forall, Bool.not_eq_true]
        exact ⟨bill, hbill, by simp [hrow, sqlEq_self_of_ne_null hxid]⟩
      rw [hnil, List.append_nil]
      congr 1
      apply List.filter_congr
      intro x _
      simp

theorem insertOrReplace_pairwise {db : Db} (row : TxRow)
    (h : db.transactions.Pairwise (fun a b => sqlEq a.id b.id = false)) :
    (insertOrReplace db row).transactions.Pairwise (fun a b => sqlEq a.id b.id = false) := by
  simp only [insertOrReplace]
  rw [List.pairwise_append]
  refine ⟨h.sublist (List.filter_sublist _), List.pairwise_singleton _ _, ?_⟩
  intro a ha b hb
  simp only [List.mem_singleton] at hb
  subst hb
  simpa using (List.mem_filter.1 ha).2

theorem insertLoop_pairwise {bills : List Bill} {db db1 : Db}
    (h : insertLoop db bills = some db1)
    (hp : db.transactions.Pairwise (fun a b => sqlEq a.id b.id = false)) :
    db1.transactions.Pairwise (fun a b => sqlEq a.id b.id = false) := by
  induction bills generalizing db with
  | nil =>
    simp only [insertLoop, Option.some.injEq] at h
    subst h; exact hp
  | cons b rest ih =>
    rw [insertLoop_cons] at h
    cases hb : bindBill (classify b) with
    | none => simp [hb] at h
    | some row =>
      simp only [hb, Option.some_bind] at h
      exact ih h (insertOrReplace_pairwise row hp)

theorem postBills_pairwise (db : Db) (bills : List Bill)
    (hp : db.transactions.Pairwise (fun a b => sqlEq a.id b.id = false)) :
    (postBills db bills).1.transactions.Pairwise (fun a b => sqlEq a.id b.id = false) := by
  cases h : insertLoop db bills with
  | none => rw [postBills_of_none h]; exact hp
  | some db1 => rw [postBills_of_some h]; exact insertLoop_pairwise h hp

theorem eq_of_sqlEq {a b : SqlVal} (h : sqlEq a b = true) : a = b := by
  simp only [sqlEq, Bool.and_eq_true, beq_iff_eq] at h
  exact h.2

theorem insertLoop_id_stays {bills : List Bill} {db db1 : Db}
    (h : insertLoop db bills = some db1) {x : TxRow} (hx : x ∈ db.transactions) :
    ∃ y ∈ db1.transactions, y.id = x.id := by
  induction bills generalizing db x with
  | nil =>
    simp only [insertLoop, Option.some.injEq] at h
    subst h; exact ⟨x, hx, rfl⟩
  | cons b rest ih =>
    rw [insertLoop_cons] at h
    cases hb : bindBill (classify b) with
    | none => simp [hb] at h
    | some row =>
      simp only [hb, Option.some_bind] at h
      cases hc : sqlEq x.id row.id with
      | false => exact ih h (mem_insertOrReplace.2 (Or.inl ⟨hx, hc⟩))
      | true =>
        obtain ⟨y, hy, hyid⟩ := ih h (mem_insertOrReplace.2 (Or.inr rfl) : row ∈ _)
        exact ⟨y, hy, by rw [hyid, eq_of_sqlEq hc]⟩

theorem insertLoop_split {db db1 : Db} {pre post : List Bill} {bill : Bill}
    (h : insertLoop db (pre ++ bill :: post) = some db1) :
    ∃ d row, bindBill (classify bill) = some row ∧
      insertLoop (insertOrReplace d row) post = some db1 := by
  rw [insertLoop_append] at h
  cases h1 : insertLoop db pre with
  | none => simp [h1] at h
  | some d =>
    simp only [h1, Option.some_bind, insertLoop_cons] at h
    cases hb : bindBill (classify bill) with
    | none => simp [hb] at h
    | some row =>
      simp only [hb, Option.some_bind] at h
      exact ⟨d, row, rfl, h⟩

/-- Claim C3. Upsert by id is idempotent and the last writer wins: after
saving a bill and then a second bill with the same id, exactly one row has that
id and it is the row of the second bill; saving a batch twice leaves the table
of transactions as saving it once; after any sequence of requests no two
stored rows share an id. (An id is a value other than null: SQLite does not
treat NULL keys as equal.) -/
theorem upsert_idempotent_last_writer_wins (eng : Engine) :
    (∀ (db : Db) (b1 b2 : Bill) (r1 r2 : TxRow),
      bindBill (classify b1) = some r1 → bindBill (classify b2) = some r2 →
      r1.id = r2.id → r2.id ≠ .null →
      (postBills (postBills db [b1]).1 [b2]).1.transactions.filter
        (fun x => decide (x.id = r2.id)) = [r2]) ∧
    (∀ (db : Db) (bills : List Bill), (∀ bill ∈ bills, bill.id ≠ .null) →
      (postBills (postBills db bills).1 bills).1.transactions =
        (postBills db bills).1.transactions) ∧
    (∀ ops : List Op,
      (run eng Db.empty ops).transactions.Pairwise (fun a b => a.id = b.id → a.id = .null)) := by
  refine ⟨?_, fun db bills hid => postBills_twice db bills hid, ?_⟩
  · intro db b1 b2 r1 r2 h1 h2 _ hnull
    have e1 : postBills db [b1] = (insertOrReplace db r1, .ok 1) :=
      postBills_of_some (by rw [insertLoop_cons, h1]; rfl)
    have e2 : postBills (insertOrReplace db r1) [b2] =
        (insertOrReplace (insertOrReplace db r1) r2, .ok 1) :=
      postBills_of_some (by rw [insertLoop_cons, h2]; rfl)
    rw [e1, e2]
    exact insertOrReplace_filter_id _ r2 hnull
  · intro ops
    have h := run_invariant eng (fun t => t.Pairwise (fun a b => sqlEq a.id b.id = false))
      List.Pairwise.nil ops Db.empty List.Pairwise.nil
      (fun d bills _ hp => postBills_pairwise d bills hp)
    refine h.imp ?_
    intro a b hab heq
    by_contra hn
    rw [← heq, sqlEq_self_of_ne_null hn] at hab
    exact Bool.noConfusion hab

/-- Witness of `upsert_idempotent_last_writer_wins`: the bill A1 saved, then
saved again with another amount and status. -/
theorem upsert_idempotent_last_writer_wins_witness :
    (postBills (postBills Db.empty [billLunch]).1 [billLunchAgain]).1.transactions.filter
        (fun x => decide (x.id = (mkRow "A1" "面馆" "支出" 36 "交易成功").id)) =
      [mkRow "A1" "面馆" "支出" 36 "交易成功"] ∧
    (postBills (postBills Db.empty [billLunch, billZero]).1 [billLunch, billZero]).1.transactions =
      (postBills Db.empty [billLunch, billZero]).1.transactions :=
  ⟨(upsert_idempotent_last_writer_wins sampleEngine).1 Db.empty billLunch billLunchAgain
      (mkRow "A1" "面馆" "支出" 35 "成功") (mkRow "A1" "面馆" "支出" 36 "交易成功")
      (by decide!) (by decide!) rfl (by decide),
   (upsert_idempotent_last_writer_wins sampleEngine).2.1 Db.empty [billLunch, billZero]
      (by decide)⟩

/-- Counterexample to claim C5 as stated: from the empty store, one bulk save
of a bill of amount zero leaves a row whose amount is zero. -/
theorem stored_amount_zero_counterexample :
    (run sampleEngine Db.empty [.save [billZero]]).transactions.map (fun row => row.amount) =
      [.num 0] := by
  decide!

/-- Claim C5, amended. Every record that `extractBills` returns has a positive
amount; the bulk save stores the amount it is given, so from the empty store,
after any sequence of requests whose saved bills all have a positive amount,
every stored row has a positive amount. -/
theorem stored_amount_positive (eng : Engine) :
    (∀ (env : Env) (sheet : Sheet), ∀ b ∈ extractBills env sheet, b.amount.isPos = true) ∧
    (∀ ops : List Op,
      (∀ bills, Op.save bills ∈ ops → ∀ bill ∈ bills, ∃ q : ℚ, 0 < q ∧ bill.amount = .num q) →
      ∀ row ∈ (run eng Db.empty ops).transactions, ∃ q : ℚ, 0 < q ∧ row.amount = .num q) := by
  refine ⟨fun env sheet b hb => (extractBills_mem_kept hb).1, ?_⟩
  intro ops hops
  refine run_invariant eng (fun t => ∀ row ∈ t, ∃ q : ℚ, 0 < q ∧ row.amount = .num q)
    (by simp) ops Db.empty (by simp [Db.empty]) ?_
  intro d bills hmem hd row hrow
  rcases postBills_mem_origin d bills hrow with h | ⟨bill, hbill, hb⟩
  · exact hd row h
  · obtain ⟨q, hq, hamt⟩ := hops bills hmem bill hbill
    have := bindBill_amount hb
    rw [classify_amount, hamt] at this
    simp only [bind, Option.some.injEq] at this
    exact ⟨q, hq, this.symm⟩

/-- Witness of `stored_amount_positive`: a save, a clear and a second save of
bills of amount 35. -/
theorem stored_amount_positive_witness :
    ∀ row ∈ (run sampleEngine Db.empty
        [.save [billLunch], .deleteAll, .save [billLunch, billWallet], .autoApply]).transactions,
      ∃ q : ℚ, 0 < q ∧ row.amount = .num q :=
  (stored_amount_positive sampleEngine).2
    [.save [billLunch], .deleteAll, .save [billLunch, billWallet], .autoApply]
    (by
      intro bills hb bill hbill
      simp only [List.mem_cons, Op.save.injEq, List.mem_singleton, List.not_mem_nil, or_false,
        false_or, reduceCtorEq] at hb
      rcases hb with rfl | rfl
      · simp only [List.mem_singleton] at hbill
        subst hbill
        exact ⟨35, by norm_num, rfl⟩
      · simp only [List.mem_cons, List.mem_singleton, List.not_mem_nil, or_false] at hbill
        rcases hbill with rfl | rfl
        · exact ⟨35, by norm_num, rfl⟩
        · exact ⟨35, by norm_num, rfl⟩)

/-- Counterexample to claim C6 as stated: the row A1 is stored with status
shadow; a later bulk save that carries the id A1 leaves it with status 成功. -/
theorem status_changed_by_resave_counterexample :
    (postBills Db.empty [billWallet]).1.transactions.map (fun row => (row.id, row.status)) =
      [(.text "A1".toList, .text "shadow".toList)] ∧
    (postBills (postBills Db.empty [billWallet]).1 [billLunch]).1.transactions.map
        (fun row => (row.id, row.status)) =
      [(.text "A1".toList, .text "成功".toList)] := by
  constructor <;> decide!

/-- Claim C6, amended. The status of a stored transaction changes only when a
bulk save carries its id (the row is then replaced by the classified bill) or
the table is cleared: manual tagging, merchant batch tagging and auto-apply
leave the table of transactions unchanged, a bulk save keeps every row whose
id no bill of the batch carries, and every row it leaves is an old row or the
row of a classified bill of the batch. -/
theorem status_changes_only_by_replacement (eng : Engine) (db : Db) :
    (∀ (id : Str) (tagNames : List Str),
      (postBillTags eng db id tagNames).1.transactions = db.transactions) ∧
    (∀ (merchantName : Str) (tagNames : List Str),
      (postBatchMerchant eng db merchantName tagNames).1.transactions = db.transactions) ∧
    (postAutoApply eng db).1.transactions = db.transactions ∧
    (∀ (bills : List Bill) (row : TxRow), row ∈ db.transactions →
      (∀ bill ∈ bills, ∀ r, bindBill (classify bill) = some r → sqlEq row.id r.id = false) →
      row ∈ (postBills db bills).1.transactions) ∧
    (∀ (bills : List Bill) (row : TxRow), row ∈ (postBills db bills).1.transactions →
      row ∈ db.transactions ∨ ∃ bill ∈ bills, bindBill (classify bill) = some row) := by
  refine ⟨postBillTags_transactions eng db, postBatchMerchant_transactions eng db,
    postAutoApply_transactions eng db, ?_, fun bills row h => postBills_mem_origin db bills h⟩
  intro bills row hrow hfree
  cases h : insertLoop db bills with
  | none => rw [postBills_of_none h]; exact hrow
  | some db1 => rw [postBills_of_some h]; exact insertLoop_frame h hrow hfree

/-- Witness of `status_changes_only_by_replacement`: the shadow row A1 is
still stored, with its status, after a bulk save of the bill Z0. -/
theorem status_changes_only_by_replacement_witness :
    mkRow "A1" "余额宝" "支出" 35 "shadow" ∈
      (postBills (postBills Db.empty [billWallet]).1 [billZero]).1.transactions :=
  (status_changes_only_by_replacement sampleEngine (postBills Db.empty [billWallet]).1).2.2.2.1
    [billZero] (mkRow "A1" "余额宝" "支出" 35 "shadow") (by decide!)
    (by
      intro bill hbill r hr
      simp only [List.mem_singleton] at hbill
      subst hbill
      have h0 : bindBill (classify billZero) = some (mkRow "Z0" "面馆" "支出" 0 "成功") := by decide!
      rw [h0] at hr
      cases hr
      decide)

/-- Claim C7. The bulk save is all or nothing: when the insert of some bill of
the batch throws (as for a bill without id), the database is left as it was
and the reply is the single error; when no insert throws, the reply counts the
batch, every bill that no later bill of the batch overwrites is stored as its
classified row, and the id of every bill is the id of a stored row. -/
theorem bulk_save_all_or_nothing (db : Db) (bills : List Bill) :
    ((∃ bill ∈ bills, bindBill (classify bill) = none) → postBills db bills = (db, .error)) ∧
    (∀ bill : Bill, bill.id = .undefined → bindBill (classify bill) = none) ∧
    ((∀ bill ∈ bills, bindBill (classify bill) ≠ none) →
      (postBills db bills).2 = .ok bills.length ∧
      (∀ (pre post : List Bill) (bill : Bill) (row : TxRow), bills = pre ++ bill :: post →
        bindBill (classify bill) = some row →
        (∀ later ∈ post, ∀ r, bindBill (classify later) = some r → sqlEq row.id r.id = false) →
        row ∈ (postBills db bills).1.transactions) ∧
      (∀ bill ∈ bills, ∀ row, bindBill (classify bill) = some row →
        ∃ stored ∈ (postBills db bills).1.transactions, stored.id = row.id)) := by
  refine ⟨fun h => postBills_of_none ((insertLoop_eq_none_iff db bills).2 h), ?_, ?_⟩
  · intro bill hid
    have : (classify bill).id = .undefined := by rw [classify_id, hid]
    unfold bindBill
    rw [this]
    rfl
  · intro hall
    cases h : insertLoop db bills with
    | none =>
      obtain ⟨bill, hbill, hnone⟩ := (insertLoop_eq_none_iff db bills).1 h
      exact absurd hnone (hall bill hbill)
    | some db1 =>
      rw [postBills_of_some h]
      refine ⟨rfl, ?_, ?_⟩
      · intro pre post bill row hsplit hrow hlater
        subst hsplit
        obtain ⟨d, row1, hrow1, hrest⟩ := insertLoop_split h
        rw [hrow] at hrow1
        cases hrow1
        exact insertLoop_frame hrest (mem_insertOrReplace.2 (Or.inr rfl)) hlater
      · intro bill hbill row hrow
        obtain ⟨pre, post, hsplit⟩ := List.append_of_mem hbill
        subst hsplit
        obtain ⟨d, row1, hrow1, hrest⟩ := insertLoop_split h
        rw [hrow] at hrow1
        cases hrow1
        exact insertLoop_id_stays hrest (mem_insertOrReplace.2 (Or.inr rfl))

/-- Witness of `bulk_save_all_or_nothing`: a batch whose second bill has no
id leaves the store as it was; a batch of two bills that bind is stored. -/
theorem bulk_save_all_or_nothing_witness :
    postBills (postBills Db.empty [billWallet]).1 [billZero, billNoId] =
      ((postBills Db.empty [billWallet]).1, .error) ∧
    (postBills Db.empty [billLunch, billZero]).2 = .ok 2 ∧
    mkRow "Z0" "面馆" "支出" 0 "成功" ∈ (postBills Db.empty [billLunch, billZero]).1.transactions :=
  ⟨(bulk_save_all_or_nothing (postBills Db.empty [billWallet]).1 [billZero, billNoId]).1
      ⟨billNoId, by simp, by decide!⟩,
   ((bulk_save_all_or_nothing Db.empty [billLunch, billZero]).2.2 (by decide!)).1,
   ((bulk_save_all_or_nothing Db.empty [billLunch, billZero]).2.2 (by decide!)).2.1
      [billLunch] [] billZero (mkRow "Z0" "面馆" "支出" 0 "成功") rfl (by decide!)
      (by intro later h; cases h)⟩

/-! ## The tool executors -/

theorem notShadow_iff (r : TxRow) :
    notShadow r = decide (r.status ≠ .text "shadow".toList) := by
  unfold notShadow
  generalize "shadow".toList = w
  cases r.status with
  | null => simp
  | num q => simp
  | text s => by_cases h : s = w <;> simp [h]

theorem filter_absorbs_shadow (p : TxRow → Bool) (hp : ∀ r, p r = true → notShadow r = true)
    (t : List TxRow) :
    (t.filter (fun r => decide (r.status ≠ .text "shadow".toList))).filter p = t.filter p := by
  rw [List.filter_filter]
  apply List.filter_congr
  intro r _
  cases h : p r with
  | false => simp
  | true =>
    have := hp r h
    rw [notShadow_iff] at this
    rw [this]
    rfl

/-- Claim C4. Every tool executor excludes shadow transactions: its result on
a store equals its result on the store with every row of status shadow removed. -/
theorem tools_exclude_shadow (eng : Engine) (db : Db) (call : ToolCall) :
    executeTool eng db call =
      executeTool eng
        { db with transactions :=
            db.transactions.filter (fun r => decide (r.status ≠ .text "shadow".toList)) } call := by
  cases call with
  | queryTransactions args =>
    simp only [executeTool]
    rw [filter_absorbs_shadow (queryWhere eng args)]
    intro r hr
    simp only [queryWhere, Bool.and_eq_true] at hr
    exact hr.1.1.1.1.1.1
  | getStatistics args =>
    simp only [executeTool]
    rw [filter_absorbs_shadow (fun r => notShadow r && inPeriod eng args.period r)]
    intro r hr
    simp only [Bool.and_eq_true] at hr
    exact hr.1
  | getTopMerchants args =>
    simp only [executeTool]
    rw [filter_absorbs_shadow notShadow (fun _ h => h)]
  | analyzeLatteFactors =>
    simp only [executeTool]
    rw [filter_absorbs_shadow (fun r => sqlLt r.amount (.num 50) && notShadow r)]
    intro r hr
    simp only [Bool.and_eq_true] at hr
    exact hr.2
  | detectSubscriptions =>
    simp only [executeTool]
    rw [filter_absorbs_shadow notShadow (fun _ h => h)]
  | comparePeriods args =>
    have hp : ∀ start stop : SqlVal,
        periodSummary eng
          { db with transactions :=
              db.transactions.filter (fun r => decide (r.status ≠ .text "shadow".toList)) }
          start stop = periodSummary eng db start stop := by
      intro start stop
      simp only [periodSummary]
      rw [filter_absorbs_shadow (fun r => sqlGe r.time start && sqlLt r.time stop && notShadow r)]
      intro r hr
      simp only [Bool.and_eq_true] at hr
      exact hr.2
    simp only [executeTool, hp]
  | unknown name => rfl

theorem yoe_bounds (doe : ℤ) (h0 : 0 ≤ doe) (h1 : doe ≤ 146096) :
    0 ≤ (doe - doe / 1460 + doe / 36524 - doe / 146096) / 365 ∧
    (doe - doe / 1460 + doe / 36524 - doe / 146096) / 365 ≤ 399 := by
  have hb : doe / 36524 = 0 ∨ doe / 36524 = 1 ∨ doe / 36524 = 2 ∨ doe / 36524 = 3 ∨ doe / 36524 = 4 := by omega
  rcases hb with hb | hb | hb | hb | hb <;> omega

theorem doy_bounds (doe yoe : ℤ) (h0 : 0 ≤ doe) (h1 : doe ≤ 146096)
    (hy : yoe = (doe - doe / 1460 + doe / 36524 - doe / 146096) / 365) :
    0 ≤ doe - (365 * yoe + yoe / 4 - yoe / 100) ∧
    doe - (365 * yoe + yoe / 4 - yoe / 100) ≤ 365 := by
  subst hy
  have hE : ∃ e, doe / 1460 = e ∧ 0 ≤ e ∧ e ≤ 100 := ⟨_, rfl, by omega, by omega⟩
  obtain ⟨e, hE, he0, he1⟩ := hE
  rw [hE]
  have hlo : 1460 * e ≤ doe := by omega
  have hhi : doe ≤ 1460 * e + 1459 := by omega
  clear hE
  interval_cases e <;>
    first
    | omega
    | (have hb : doe / 36524 = 0 ∨ doe / 36524 = 1 ∨ doe / 36524 = 2 ∨ doe / 36524 = 3 ∨
          doe / 36524 = 4 := by omega
       rcases hb with hb | hb | hb | hb | hb <;> omega)

theorem civil_of_parts (era yoe doy : ℤ) (hy0 : 0 ≤ yoe) (hy1 : yoe ≤ 399)
    (hd0 : 0 ≤ doy) (hd1 : doy ≤ 365) :
    daysFromCivil
      (if (if (5 * doy + 2) / 153 < 10 then (5 * doy + 2) / 153 + 3 else (5 * doy + 2) / 153 - 9) ≤ 2
        then yoe + era * 400 + 1 else yoe + era * 400)
      (if (5 * doy + 2) / 153 < 10 then (5 * doy + 2) / 153 + 3 else (5 * doy + 2) / 153 - 9)
      (doy - (153 * ((5 * doy + 2) / 153) + 2) / 5 + 1) =
    era * 146097 + (yoe * 365 + yoe / 4 - yoe / 100 + doy) - 719468 := by
  simp only [daysFromCivil]
  split_ifs <;> omega

theorem daysFromCivil_civilFromDays (z : ℤ) :
    daysFromCivil (civilFromDays z).1 (civilFromDays z).2.1 (civilFromDays z).2.2 = z := by
  have hd0 : 0 ≤ z + 719468 - (z + 719468) / 146097 * 146097 := by omega
  have hd1 : z + 719468 - (z + 719468) / 146097 * 146097 ≤ 146096 := by omega
  have hy := yoe_bounds _ hd0 hd1
  have hd := doy_bounds _ _ hd0 hd1 rfl
  simp only [civilFromDays]
  rw [civil_of_parts _ _ _ hy.1 hy.2 hd.1 hd.2]
  omega

/-! ## Date parsing -/

theorem mathRound_intCast (k : ℤ) : mathRound (k : ℚ) = k := by
  unfold mathRound
  rw [Int.floor_int_add]
  have : ⌊(1 / 2 : ℚ)⌋ = 0 := by
    rw [Int.floor_eq_iff]
    norm_num
  rw [this, add_zero]

/-- Claim C10. For every integer serial `n` whose day lies in the range of a
Date (100 000 000 days on either side of the epoch, which contains every
spreadsheet serial), `parseDate(n)` is the instant (n − 25569) × 86 400 000 ms:
UTC midnight of the calendar day n − 25569 days after 1970-01-01, which is the
value of constructing the date from the ISO string of that day. -/
theorem parseDate_serial_utc_midnight (dateParse : Str → JsDate) (now : ℤ) (n : ℤ)
    (hlo : -100000000 ≤ n - 25569) (hhi : n - 25569 ≤ 100000000) :
    parseDate dateParse now (.val (.num (n : ℚ))) = some ((n - 25569) * 86400000) ∧
    parseDate dateParse now (.val (.num (n : ℚ))) =
      dateFromIsoDay (civilFromDays (n - 25569)).1 (civilFromDays (n - 25569)).2.1
        (civilFromDays (n - 25569)).2.2 ∧
    (∀ y m d : ℤ, daysFromCivil y m d = n - 25569 →
      parseDate dateParse now (.val (.num (n : ℚ))) = dateFromIsoDay y m d) := by
  have hcast : (((n : ℚ) - 25569) * 86400 * 1000) = (((n - 25569) * 86400000 : ℤ) : ℚ) := by
    push_cast
    ring
  have hval : parseDate dateParse now (.val (.num (n : ℚ))) = some ((n - 25569) * 86400000) := by
    simp only [parseDate, hcast, mathRound_intCast, timeClip, maxTime]
    rw [if_pos]
    constructor <;> omega
  have hiso : ∀ y m d : ℤ, daysFromCivil y m d = n - 25569 →
      dateFromIsoDay y m d = some ((n - 25569) * 86400000) := by
    intro y m d h
    simp only [dateFromIsoDay, h, timeClip, maxTime, msPerDay]
    rw [if_pos]
    constructor <;> omega
  refine ⟨hval, ?_, fun y m d h => by rw [hval, hiso y m d h]⟩
  rw [hval, hiso _ _ _ (daysFromCivil_civilFromDays _)]

/-- Witness of `parseDate_serial_utc_midnight`: the serial 45292 is
2024-01-01T00:00:00Z. -/
theorem parseDate_serial_utc_midnight_witness :
    parseDate (fun _ => none) 0 (.val (.num ((45292 : ℤ) : ℚ))) = some 1704067200000 ∧
    civilFromDays (45292 - 25569) = (2024, 1, 1) :=
  ⟨(parseDate_serial_utc_midnight (fun _ => none) 0 45292 (by decide) (by decide)).1,
   by decide⟩

/-! ## Reading all bills -/

/-- Claim C8, evaluated where it fails: the transaction A1 carries exactly one
tag, named `a,b`, and `getAll` returns it with the two tags `a` and `b`. -/
theorem getAll_splits_tag_name_at_comma :
    dbCommaTag.tags.map (fun t => t.name) = ["a,b".toList] ∧
    joinedTagNames dbCommaTag (.text "A1".toList) = ["a,b".toList] ∧
    (getAll dbCommaTag).map (fun o => (o.row.id, o.tags)) =
      [(.text "A1".toList, ["a".toList, "b".toList])] := by
  refine ⟨?_, ?_, ?_⟩ <;> decide!

/-! ## The tag rules -/

theorem mem_dedupFirst {a : Str} {l : List Str} : a ∈ dedupFirst l ↔ a ∈ l := by
  induction l with
  | nil => simp [dedupFirst]
  | cons b rest ih =>
    simp only [dedupFirst, List.mem_cons, List.mem_filter, ih]
    by_cases h : a = b
    · simp [h]
    · simp [h]

theorem nodup_dedupFirst (l : List Str) : (dedupFirst l).Nodup := by
  induction l with
  | nil => simp [dedupFirst]
  | cons b rest ih =>
    simp only [dedupFirst, List.nodup_cons, List.mem_filter]
    refine ⟨?_, ih.sublist (List.filter_sublist _)⟩
    simp

theorem mem_ite_singleton {c : Bool} {a x : Str} :
    a ∈ (if c = true then [x] else []) ↔ c = true ∧ a = x := by
  cases c <;> simp

/-- Membership in the result of `autoTagTransaction`, rule by rule. -/
theorem mem_autoTagTransaction (eng : Engine) (tx : TxRow) (t : Str) :
    t ∈ autoTagTransaction eng tx ↔
      ((toNumber eng tx.amount.toJs).lt (.fin 50) = true ∧ t = "小额".toList) ∨
      (((JsNum.fin 500).lt (toNumber eng tx.amount.toJs) ||
          toNumber eng tx.amount.toJs == .fin 500) = true ∧ t = "重要决策".toList) ∨
      ((((eng.getHours tx.time).any (fun h => 22 ≤ h)) ||
          ((eng.getHours tx.time).any (fun h => h ≤ 6))) = true ∧ t = "深夜消费".toList) ∨
      ((eng.getDay tx.time == some 0 || eng.getDay tx.time == some 6) = true ∧
          t = "周末".toList) ∨
      (regexTest ["咖啡".toList, "奶茶".toList, "茶饮".toList, "饮品".toList]
          (tx.peer.toJs.orElse (.str [])) = true ∧ t = "习惯性".toList) ∨
      (regexTest ["健身".toList, "瑜伽".toList, "游泳".toList, "跑步".toList, "运动".toList]
          (tx.peer.toJs.orElse (.str [])) = true ∧ t = "健康".toList) ∨
      (regexTest ["书店".toList, "课程".toList, "培训".toList, "教育".toList, "学习".toList]
          (tx.peer.toJs.orElse (.str [])) = true ∧ t = "投资自己".toList) ∨
      (regexTest ["餐厅".toList, "聚餐".toList, "火锅".toList, "烧烤".toList, "KTV".toList,
          "电影".toList, "酒吧".toList] (tx.peer.toJs.orElse (.str [])) = true ∧
          t = "社交".toList) ∨
      (regexTest ["超市".toList, "菜市场".toList, "生鲜".toList]
          (tx.peer.toJs.orElse (.str [])) = true ∧ t = "必要".toList) := by
  unfold autoTagTransaction
  rw [mem_dedupFirst]
  simp only [List.mem_append, mem_ite_singleton, or_assoc]

theorem isPrefixOf_iff {p s : Str} : isPrefixOf p s = true ↔ p <+: s := by
  induction p generalizing s with
  | nil => simp [isPrefixOf]
  | cons a p ih =>
    cases s with
    | nil => simp [isPrefixOf]
    | cons b s =>
      simp only [isPrefixOf, Bool.and_eq_true, beq_iff_eq, ih, List.cons_prefix_cons]

theorem includes_iff {s p : Str} : includes s p = true ↔ p <:+: s := by
  induction s with
  | nil =>
    simp only [includes, isPrefixOf_iff, List.prefix_nil, List.infix_nil]
  | cons c rest ih =>
    simp only [includes, Bool.or_eq_true, isPrefixOf_iff, ih, List.infix_cons_iff]

theorem regexTest_str_iff (ks : List Str) (s : Str) :
    regexTest ks (.str s) = true ↔ ∃ k ∈ ks, k <:+: s := by
  simp [regexTest, testAny, JsVal.toStr, includes_iff]

theorem merchant_of_text (s : Str) : (SqlVal.text s).toJs.orElse (.str []) = .str s := by
  cases s <;> simp [SqlVal.toJs, JsVal.orElse, JsVal.truthy]

theorem regexTest_nil_str (ks : List Str) (h : ∀ k ∈ ks, k ≠ []) : regexTest ks (.str []) = false := by
  rw [Bool.eq_false_iff]
  intro ht
  obtain ⟨k, hk, hin⟩ := (regexTest_str_iff ks []).1 ht
  exact h k hk (List.infix_nil.1 hin)

theorem lt_fifty_not_ge (x : JsNum) (h : x.lt (.fin 50) = true) :
    ((JsNum.fin 500).lt x || x == .fin 500) = false := by
  cases x with
  | nan => simp [JsNum.lt]
  | inf b => cases b <;> simp_all [JsNum.lt]
  | fin q =>
    simp only [JsNum.lt, decide_eq_true_eq] at h
    have h1 : ¬ (500 : ℚ) < q := by linarith
    have h2 : q ≠ 500 := by intro h3; rw [h3] at h; norm_num at h
    simp [JsNum.lt, h1, h2]

/-- Counterexample to claim C13 as stated: at amount 10, hour 23, Saturday,
the merchant `XX Coffee` gets the three other tags and not 习惯性. -/
theorem autoTag_english_coffee_counterexample :
    autoTagTransaction engineSaturdayNight (mkRow "T1" "XX Coffee" "支出" 10 "成功") =
      ["小额".toList, "深夜消费".toList, "周末".toList] := by
  decide!

/-- Claim C13, amended. For a transaction with amount 10, a time falling at
hour 23 on a Saturday and the merchant `XX咖啡` (the habitual rule matches the
words 咖啡, 奶茶, 茶饮, 饮品, not the English word), `autoTagTransaction` returns
a list that contains 小额, 深夜消费, 周末 and 习惯性. -/
theorem autoTag_coffee_saturday_night (eng : Engine) (tx : TxRow)
    (hamount : tx.amount = .num 10) (hhour : eng.getHours tx.time = some 23)
    (hday : eng.getDay tx.time = some 6) (hpeer : tx.peer = .text "XX咖啡".toList) :
    "小额".toList ∈ autoTagTransaction eng tx ∧ "深夜消费".toList ∈ autoTagTransaction eng tx ∧
    "周末".toList ∈ autoTagTransaction eng tx ∧ "习惯性".toList ∈ autoTagTransaction eng tx := by
  have h1 : (toNumber eng tx.amount.toJs).lt (.fin 50) = true := by
    rw [hamount]
    simp only [SqlVal.toJs, toNumber, JsNum.lt, decide_eq_true_eq]
    norm_num
  have h5 : regexTest ["咖啡".toList, "奶茶".toList, "茶饮".toList, "饮品".toList]
      (tx.peer.toJs.orElse (.str [])) = true := by
    rw [hpeer]
    decide
  refine ⟨?_, ?_, ?_, ?_⟩
  · exact (mem_autoTagTransaction eng tx _).2 (Or.inl ⟨h1, rfl⟩)
  · refine (mem_autoTagTransaction eng tx _).2 (Or.inr (Or.inr (Or.inl ⟨?_, rfl⟩)))
    rw [hhour]; rfl
  · refine (mem_autoTagTransaction eng tx _).2 (Or.inr (Or.inr (Or.inr (Or.inl ⟨?_, rfl⟩))))
    rw [hday]; rfl
  · exact (mem_autoTagTransaction eng tx _).2
      (Or.inr (Or.inr (Or.inr (Or.inr (Or.inl ⟨h5, rfl⟩)))))

/-- Witness of `autoTag_coffee_saturday_night`. -/
theorem autoTag_coffee_saturday_night_witness :
    "小额".toList ∈ autoTagTransaction engineSaturdayNight (mkRow "T1" "XX咖啡" "支出" 10 "成功") ∧
    "深夜消费".toList ∈ autoTagTransaction engineSaturdayNight (mkRow "T1" "XX咖啡" "支出" 10 "成功") ∧
    "周末".toList ∈ autoTagTransaction engineSaturdayNight (mkRow "T1" "XX咖啡" "支出" 10 "成功") ∧
    "习惯性".toList ∈ autoTagTransaction engineSaturdayNight (mkRow "T1" "XX咖啡" "支出" 10 "成功") :=
  autoTag_coffee_saturday_night engineSaturdayNight (mkRow "T1" "XX咖啡" "支出" 10 "成功")
    rfl rfl rfl rfl

/-- Claim C14. The result of `autoTagTransaction` contains 小额 exactly when
amount < 50 and 重要决策 exactly when amount ≥ 500 (the comparisons of
JavaScript on the stored amount; on a numeric amount, those of the rationals),
and no transaction receives both. -/
theorem autoTag_amount_rules (eng : Engine) (tx : TxRow) :
    ("小额".toList ∈ autoTagTransaction eng tx ↔
      (toNumber eng tx.amount.toJs).lt (.fin 50) = true) ∧
    ("重要决策".toList ∈ autoTagTransaction eng tx ↔
      ((JsNum.fin 500).lt (toNumber eng tx.amount.toJs) ||
        toNumber eng tx.amount.toJs == .fin 500) = true) ∧
    ¬ ("小额".toList ∈ autoTagTransaction eng tx ∧ "重要决策".toList ∈ autoTagTransaction eng tx) ∧
    (∀ q : ℚ, tx.amount = .num q →
      ("小额".toList ∈ autoTagTransaction eng tx ↔ q < 50) ∧
      ("重要决策".toList ∈ autoTagTransaction eng tx ↔ 500 ≤ q)) := by
  have hs : "小额".toList ∈ autoTagTransaction eng tx ↔
      (toNumber eng tx.amount.toJs).lt (.fin 50) = true := by
    rw [mem_autoTagTransaction]; simp
  have hl : "重要决策".toList ∈ autoTagTransaction eng tx ↔
      ((JsNum.fin 500).lt (toNumber eng tx.amount.toJs) ||
        toNumber eng tx.amount.toJs == .fin 500) = true := by
    rw [mem_autoTagTransaction]; simp
  refine ⟨hs, hl, ?_, ?_⟩
  · rintro ⟨h1, h2⟩
    have := lt_fifty_not_ge _ (hs.1 h1)
    rw [hl.1 h2] at this
    exact Bool.noConfusion this
  · intro q hq
    constructor
    · rw [hs, hq]
      simp only [SqlVal.toJs, toNumber, JsNum.lt, decide_eq_true_eq]
    · rw [hl, hq]
      simp only [SqlVal.toJs, toNumber, JsNum.lt, decide_eq_true_eq, Bool.or_eq_true, beq_iff_eq,
        JsNum.fin.injEq]
      constructor
      · rintro (h | h)
        · exact le_of_lt h
        · exact le_of_eq h.symm
      · intro h
        rcases lt_or_eq_of_le h with h1 | h1
        · exact Or.inl h1
        · exact Or.inr h1.symm

/-- Witness of `autoTag_amount_rules`: the amounts 10 and 500. -/
theorem autoTag_amount_rules_witness :
    "小额".toList ∈ autoTagTransaction sampleEngine (mkRow "T1" "面馆" "支出" 10 "成功") ∧
    "重要决策".toList ∈ autoTagTransaction sampleEngine (mkRow "T2" "面馆" "支出" 500 "成功") :=
  ⟨((autoTag_amount_rules sampleEngine (mkRow "T1" "面馆" "支出" 10 "成功")).2.2.2 10 rfl).1.2
      (by norm_num),
   ((autoTag_amount_rules sampleEngine (mkRow "T2" "面馆" "支出" 500 "成功")).2.2.2 500 rfl).2.2
      (by norm_num)⟩

/-- Claim C15. The result of `autoTagTransaction` contains 深夜消费 exactly when
the hour of the transaction's time is at least 22 or at most 6, and 周末
exactly when the weekday of its time is Saturday (6) or Sunday (0). -/
theorem autoTag_time_rules (eng : Engine) (tx : TxRow) :
    ("深夜消费".toList ∈ autoTagTransaction eng tx ↔
      ∃ h, eng.getHours tx.time = some h ∧ (22 ≤ h ∨ h ≤ 6)) ∧
    ("周末".toList ∈ autoTagTransaction eng tx ↔
      eng.getDay tx.time = some 6 ∨ eng.getDay tx.time = some 0) := by
  constructor
  · rw [mem_autoTagTransaction]
    cases eng.getHours tx.time with
    | none => simp
    | some h => simp
  · rw [mem_autoTagTransaction]
    cases eng.getDay tx.time with
    | none => simp
    | some d => simp [or_comm]

/-- Claim C17. `autoTagTransaction` is a function of the time, the counterparty
and the amount of the transaction only; its result has no duplicate and only
names among the nine rule tags. -/
theorem autoTag_deterministic_nodup (eng : Engine) (tx : TxRow) :
    (∀ tx2 : TxRow, tx2.time = tx.time → tx2.peer = tx.peer → tx2.amount = tx.amount →
      autoTagTransaction eng tx2 = autoTagTransaction eng tx) ∧
    (autoTagTransaction eng tx).Nodup ∧
    (∀ t ∈ autoTagTransaction eng tx, t ∈ ruleTags) := by
  refine ⟨?_, nodup_dedupFirst _, ?_⟩
  · intro tx2 ht hp ha
    simp only [autoTagTransaction, ht, hp, ha]
  · intro t ht
    rw [mem_autoTagTransaction] at ht
    simp only [ruleTags, List.mem_cons, List.mem_singleton, List.not_mem_nil, or_false]
    rcases ht with h | h | h | h | h | h | h | h | h
    all_goals simp [h.2]

/-- Witness of `autoTag_deterministic_nodup`: two rows that differ in id,
direction and status get the same tags. -/
theorem autoTag_deterministic_nodup_witness :
    autoTagTransaction sampleEngine (mkRow "T9" "XX咖啡" "转账" 10 "shadow") =
      autoTagTransaction sampleEngine (mkRow "T1" "XX咖啡" "支出" 10 "成功") :=
  (autoTag_deterministic_nodup sampleEngine (mkRow "T1" "XX咖啡" "支出" 10 "成功")).1
    (mkRow "T9" "XX咖啡" "转账" 10 "shadow") rfl rfl rfl

theorem mem_autoTag_family (eng : Engine) (tx : TxRow) (s : Str) (hpeer : tx.peer = .text s) :
    ("习惯性".toList ∈ autoTagTransaction eng tx ↔
      ∃ k ∈ ["咖啡".toList, "奶茶".toList, "茶饮".toList, "饮品".toList], k <:+: s) ∧
    ("健康".toList ∈ autoTagTransaction eng tx ↔
      ∃ k ∈ ["健身".toList, "瑜伽".toList, "游泳".toList, "跑步".toList, "运动".toList], k <:+: s) ∧
    ("投资自己".toList ∈ autoTagTransaction eng tx ↔
      ∃ k ∈ ["书店".toList, "课程".toList, "培训".toList, "教育".toList, "学习".toList], k <:+: s) ∧
    ("社交".toList ∈ autoTagTransaction eng tx ↔
      ∃ k ∈ ["餐厅".toList, "聚餐".toList, "火锅".toList, "烧烤".toList, "KTV".toList,
        "电影".toList, "酒吧".toList], k <:+: s) ∧
    ("必要".toList ∈ autoTagTransaction eng tx ↔
      ∃ k ∈ ["超市".toList, "菜市场".toList, "生鲜".toList], k <:+: s) := by
  refine ⟨?_, ?_, ?_, ?_, ?_⟩ <;>
    (rw [mem_autoTagTransaction, hpeer, merchant_of_text, ← regexTest_str_iff]; simp)

theorem autoTag_family_of_empty (eng : Engine) (tx : TxRow)
    (hm : tx.peer.toJs.orElse (.str []) = .str []) :
    "习惯性".toList ∉ autoTagTransaction eng tx ∧ "健康".toList ∉ autoTagTransaction eng tx ∧
    "投资自己".toList ∉ autoTagTransaction eng tx ∧ "社交".toList ∉ autoTagTransaction eng tx ∧
    "必要".toList ∉ autoTagTransaction eng tx := by
  refine ⟨?_, ?_, ?_, ?_, ?_⟩ <;>
    (rw [mem_autoTagTransaction, hm]; simp; decide)

/-- Claim C16. For each of the five keyword families, the result of
`autoTagTransaction` contains the tag of the family exactly when the
counterparty name contains one of the keywords of the family as a substring
(the comparison is on characters, so it is case-sensitive); a transaction with
no counterparty (NULL or the empty name) receives none of these tags. -/
theorem autoTag_keyword_rules (eng : Engine) (tx : TxRow) :
    (∀ s : Str, tx.peer = .text s →
      ("习惯性".toList ∈ autoTagTransaction eng tx ↔
        ∃ k ∈ ["咖啡".toList, "奶茶".toList, "茶饮".toList, "饮品".toList], k <:+: s) ∧
      ("健康".toList ∈ autoTagTransaction eng tx ↔
        ∃ k ∈ ["健身".toList, "瑜伽".toList, "游泳".toList, "跑步".toList, "运动".toList],
          k <:+: s) ∧
      ("投资自己".toList ∈ autoTagTransaction eng tx ↔
        ∃ k ∈ ["书店".toList, "课程".toList, "培训".toList, "教育".toList, "学习".toList],
          k <:+: s) ∧
      ("社交".toList ∈ autoTagTransaction eng tx ↔
        ∃ k ∈ ["餐厅".toList, "聚餐".toList, "火锅".toList, "烧烤".toList, "KTV".toList,
          "电影".toList, "酒吧".toList], k <:+: s) ∧
      ("必要".toList ∈ autoTagTransaction eng tx ↔
        ∃ k ∈ ["超市".toList, "菜市场".toList, "生鲜".toList], k <:+: s)) ∧
    (tx.peer = .null ∨ tx.peer = .text [] →
      "习惯性".toList ∉ autoTagTransaction eng tx ∧ "健康".toList ∉ autoTagTransaction eng tx ∧
      "投资自己".toList ∉ autoTagTransaction eng tx ∧ "社交".toList ∉ autoTagTransaction eng tx ∧
      "必要".toList ∉ autoTagTransaction eng tx) := by
  refine ⟨fun s hs => mem_autoTag_family eng tx s hs, ?_⟩
  intro h
  apply autoTag_family_of_empty
  rcases h with h | h <;> rw [h] <;> rfl

/-- Witness of `autoTag_keyword_rules`: the name `欢乐KTV` gets 社交 and the name
`欢乐ktv` does not. -/
theorem autoTag_keyword_rules_witness :
    "社交".toList ∈ autoTagTransaction sampleEngine (mkRow "T1" "欢乐KTV" "支出" 80 "成功") ∧
    "社交".toList ∉ autoTagTransaction sampleEngine (mkRow "T2" "欢乐ktv" "支出" 80 "成功") :=
  ⟨((autoTag_keyword_rules sampleEngine (mkRow "T1" "欢乐KTV" "支出" 80 "成功")).1
      "欢乐KTV".toList rfl).2.2.2.1.2 ⟨"KTV".toList, by simp, by decide⟩,
   fun h => absurd
     (((autoTag_keyword_rules sampleEngine (mkRow "T2" "欢乐ktv" "支出" 80 "成功")).1
        "欢乐ktv".toList rfl).2.2.2.1.1 h) (by decide)⟩

/-! ## Sorting and grouping -/

theorem sortBy_eq_insertionSort {α : Type} (before : α → α → Bool) (l : List α) :
    sortBy before l = List.insertionSort (fun a b => before a b = true) l := by
  have hins : ∀ (a : α) (l : List α),
      insertBy before a l = List.orderedInsert (fun a b => before a b = true) a l := by
    intro a l
    induction l with
    | nil => rfl
    | cons b rest ih => simp only [insertBy, List.orderedInsert, ih]
  induction l with
  | nil => rfl
  | cons a rest ih => simp only [sortBy, List.insertionSort, ih, hins]

theorem sortBy_perm {α : Type} (before : α → α → Bool) (l : List α) :
    (sortBy before l).Perm l := by
  rw [sortBy_eq_insertionSort]
  exact List.perm_insertionSort _ l

theorem sortBy_sorted {α : Type} (before : α → α → Bool)
    (htotal : ∀ a b, before a b = true ∨ before b a = true)
    (htrans : ∀ a b c, before a b = true → before b c = true → before a c = true)
    (l : List α) : (sortBy before l).Sorted (fun a b => before a b = true) := by
  rw [sortBy_eq_insertionSort]
  haveI : IsTotal α (fun a b => before a b = true) := ⟨htotal⟩
  haveI : IsTrans α (fun a b => before a b = true) := ⟨htrans⟩
  exact List.sorted_insertionSort _ l

theorem groupBy_append_singleton {α κ : Type} [DecidableEq κ] (key : α → κ) (l : List α) (a : α) :
    groupBy key (l ++ [a]) = addToGroups key a (groupBy key l) := by
  simp [groupBy, List.foldl_append]

theorem addToGroups_of_not_mem {α κ : Type} [DecidableEq κ] (key : α → κ) (a : α)
    (gs : List (κ × List α)) (h : key a ∉ gs.map Prod.fst) :
    addToGroups key a gs = gs ++ [(key a, [a])] := by
  induction gs with
  | nil => rfl
  | cons g rest ih =>
    simp only [List.map_cons, List.mem_cons, not_or] at h
    have hne : ¬ g.1 = key a := fun e => h.1 e.symm
    simp only [addToGroups, hne, if_false, ih h.2, List.cons_append]

theorem addToGroups_of_mem {α κ : Type} [DecidableEq κ] (key : α → κ) (a : α)
    (gs : List (κ × List α)) (hnd : (gs.map Prod.fst).Nodup) (h : key a ∈ gs.map Prod.fst) :
    addToGroups key a gs = gs.map (fun g => if g.1 = key a then (g.1, g.2 ++ [a]) else g) := by
  induction gs with
  | nil => simp at h
  | cons g rest ih =>
    simp only [List.map_cons, List.nodup_cons] at hnd
    by_cases hg : g.1 = key a
    · have hrest : rest.map (fun g => if g.1 = key a then (g.1, g.2 ++ [a]) else g) = rest := by
        conv_rhs => rw [← List.map_id rest]
        apply List.map_congr_left
        intro x hx
        have : x.1 ≠ key a := by
          intro e
          exact hnd.1 (by rw [hg, ← e]; exact List.mem_map_of_mem _ hx)
        simp [this]
      simp only [addToGroups, hg, if_true, List.map_cons, hrest]
    · simp only [List.map_cons, List.mem_cons] at h
      have h2 : key a ∈ rest.map Prod.fst := by
        rcases h with h | h
        · exact absurd h.symm hg
        · exact h
      simp only [addToGroups, hg, if_false, List.map_cons, ih hnd.2 h2]

/-- The groups of `groupBy`: the keys are distinct, every key of the list has
its group, and the group of a key holds exactly the elements of that key, in
the order of the list. -/
theorem groupBy_spec {α κ : Type} [DecidableEq κ] (key : α → κ) (l : List α) :
    ((groupBy key l).map Prod.fst).Nodup ∧
    (∀ a ∈ l, key a ∈ (groupBy key l).map Prod.fst) ∧
    (∀ g ∈ groupBy key l, g.2 = l.filter (fun a => decide (key a = g.1)) ∧ g.2 ≠ []) := by
  induction l using List.reverseRecOn with
  | nil => simp [groupBy]
  | append_singleton l a ih =>
    obtain ⟨hnd, hcov, hgrp⟩ := ih
    rw [groupBy_append_singleton]
    by_cases hmem : key a ∈ (groupBy key l).map Prod.fst
    · rw [addToGroups_of_mem key a _ hnd hmem]
      have hfst : ((groupBy key l).map
          (fun g => if g.1 = key a then (g.1, g.2 ++ [a]) else g)).map Prod.fst =
          (groupBy key l).map Prod.fst := by
        rw [List.map_map]
        apply List.map_congr_left
        intro g _
        by_cases hg : g.1 = key a <;> simp [hg]
      refine ⟨by rw [hfst]; exact hnd, ?_, ?_⟩
      · intro b hb
        rw [hfst]
        rcases List.mem_append.1 hb with hb | hb
        · exact hcov b hb
        · simp only [List.mem_singleton] at hb
          rw [hb]; exact hmem
      · intro g hg
        obtain ⟨g0, hg0, rfl⟩ := List.mem_map.1 hg
        obtain ⟨h1, h2⟩ := hgrp g0 hg0
        by_cases hk : g0.1 = key a
        · simp only [hk, if_true, List.filter_append]
          refine ⟨?_, by simp⟩
          rw [h1, hk]
          simp
        · simp only [hk, if_false, List.filter_append]
          refine ⟨?_, h2⟩
          rw [h1]
          have : ¬ key a = g0.1 := fun e => hk e.symm
          simp [this]
    · rw [addToGroups_of_not_mem key a _ hmem]
      refine ⟨?_, ?_, ?_⟩
      · rw [List.map_append, List.nodup_append]
        refine ⟨hnd, by simp, ?_⟩
        intro k hk hk2
        simp only [List.map_cons, List.map_nil, List.mem_singleton] at hk2
        exact hmem (hk2 ▸ hk)
      · intro b hb
        rw [List.map_append, List.mem_append]
        rcases List.mem_append.1 hb with hb | hb
        · exact Or.inl (hcov b hb)
        · simp only [List.mem_singleton] at hb
          right; simp [hb]
      · intro g hg
        rcases List.mem_append.1 hg with hg | hg
        · obtain ⟨h1, h2⟩ := hgrp g hg
          refine ⟨?_, h2⟩
          have : ¬ key a = g.1 := by
            intro e
            exact hmem (e ▸ List.mem_map_of_mem _ hg)
          rw [List.filter_append, h1]
          simp [this]
        · simp only [List.mem_singleton] at hg
          subst hg
          refine ⟨?_, by simp⟩
          have hnil : l.filter (fun b => decide (key b = key a)) = [] := by
            rw [List.filter_eq_nil_iff]
            intro b hb
            simp only [decide_eq_true_eq]
            intro e
            exact hmem (e ▸ hcov b hb)
          simp [List.filter_append, hnil]

/-! ## Subscription detection on the client -/

theorem diffDays_in_window (a b : Txn) :
    (decide (25 ≤ diffDays a b) && decide (diffDays a b ≤ 35)) = true ↔
      25 * msPerDay ≤ b.time - a.time ∧ b.time - a.time ≤ 35 * msPerDay := by
  have hpos : (0 : ℚ) < 1000 * 3600 * 24 := by norm_num
  simp only [Bool.and_eq_true, decide_eq_true_eq, diffDays, le_div_iff₀ hpos, div_le_iff₀ hpos,
    msPerDay]
  constructor
  · rintro ⟨h1, h2⟩
    constructor
    · have : ((25 * 86400000 : ℤ) : ℚ) ≤ ((b.time - a.time : ℤ) : ℚ) := by
        push_cast; push_cast at h1; linarith
      exact_mod_cast this
    · have : ((b.time - a.time : ℤ) : ℚ) ≤ ((35 * 86400000 : ℤ) : ℚ) := by
        push_cast; push_cast at h2; linarith
      exact_mod_cast this
  · rintro ⟨h1, h2⟩
    have h1q : ((25 * 86400000 : ℤ) : ℚ) ≤ ((b.time - a.time : ℤ) : ℚ) := by exact_mod_cast h1
    have h2q : ((b.time - a.time : ℤ) : ℚ) ≤ ((35 * 86400000 : ℤ) : ℚ) := by exact_mod_cast h2
    constructor
    · push_cast at h1q ⊢; linarith
    · push_cast at h2q ⊢; linarith

theorem hasMonthlyGap_iff (l : List Txn) :
    hasMonthlyGap l = true ↔
      ∃ pre a b post, l = pre ++ a :: b :: post ∧
        25 * msPerDay ≤ b.time - a.time ∧ b.time - a.time ≤ 35 * msPerDay := by
  induction l with
  | nil => simp [hasMonthlyGap]
  | cons a rest ih =>
    cases rest with
    | nil =>
      simp only [hasMonthlyGap, Bool.false_eq_true, false_iff]
      rintro ⟨pre, x, y, post, h, _⟩
      have := congrArg List.length h
      simp at this
      omega
    | cons b rest =>
      simp only [hasMonthlyGap, Bool.or_eq_true, diffDays_in_window, ih]
      constructor
      · rintro (h | ⟨pre, x, y, post, h, hw⟩)
        · exact ⟨[], a, b, rest, rfl, h⟩
        · exact ⟨a :: pre, x, y, post, by rw [h]; rfl, hw⟩
      · rintro ⟨pre, x, y, post, h, hw⟩
        cases pre with
        | nil =>
          simp only [List.nil_append, List.cons.injEq] at h
          obtain ⟨rfl, rfl, _⟩ := h
          exact Or.inl hw
        | cons p pre =>
          simp only [List.cons_append, List.cons.injEq] at h
          exact Or.inr ⟨pre, x, y, post, h.2, hw⟩

theorem subscriptionOf_eq_some_iff (items : List Txn) (out : SubGroup) :
    subscriptionOf items = some out ↔
      2 ≤ items.length ∧
      hasMonthlyGap (sortBy (fun a b => decide (a.time ≤ b.time)) items) = true ∧
      ∃ first rest, items = first :: rest ∧
        out = { name := first.peer, amount := first.amount, items := items } := by
  unfold subscriptionOf
  by_cases hlen : items.length < 2
  · simp only [hlen, if_true]
    constructor
    · intro h; cases h
    · rintro ⟨h, _⟩; omega
  · by_cases hgap : hasMonthlyGap (sortBy (fun a b => decide (a.time ≤ b.time)) items) = true
    · cases items with
      | nil => simp at hlen
      | cons first rest =>
        simp only [hlen, if_false, hgap, if_true, List.head?_cons, Option.map_some',
          Option.some.injEq, true_and]
        constructor
        · intro h
          exact ⟨by simp at hlen ⊢; omega, first, rest, rfl, h.symm⟩
        · rintro ⟨_, f, r, h, hout⟩
          cases h
          exact hout.symm
    · rw [if_neg hlen, if_neg hgap]
      constructor
      · intro h; cases h
      · rintro ⟨_, h, _⟩; exact absurd h hgap

theorem subscriptionOf_isSome_iff (items : List Txn) :
    (∃ out, subscriptionOf items = some out ∧ out.items = items) ↔
      2 ≤ items.length ∧
      hasMonthlyGap (sortBy (fun a b => decide (a.time ≤ b.time)) items) = true := by
  constructor
  · rintro ⟨out, h, _⟩
    have := (subscriptionOf_eq_some_iff items out).1 h
    exact ⟨this.1, this.2.1⟩
  · rintro ⟨h1, h2⟩
    cases items with
    | nil => simp at h1
    | cons first rest =>
      exact ⟨_, (subscriptionOf_eq_some_iff _ _).2 ⟨h1, h2, first, rest, rfl, rfl⟩, rfl⟩

theorem subscription_flagged_iff (data : List Txn) (g : Str × List Txn)
    (hg : g ∈ groupBy subKey data) :
    (∃ out ∈ runSubscriptionAudit data, out.items = g.2) ↔
      2 ≤ g.2.length ∧
      hasMonthlyGap (sortBy (fun a b => decide (a.time ≤ b.time)) g.2) = true := by
  constructor
  · rintro ⟨out, hout, hitems⟩
    simp only [runSubscriptionAudit, List.mem_filterMap] at hout
    obtain ⟨g2, _, hsome⟩ := hout
    have h := (subscriptionOf_eq_some_iff g2.2 out).1 hsome
    obtain ⟨h1, h2, first, rest, hfr, hdef⟩ := h
    have : g2.2 = g.2 := by rw [← hitems, hdef]
    rw [← this]
    exact ⟨h1, h2⟩
  · intro h
    obtain ⟨out, hsome, hitems⟩ := (subscriptionOf_isSome_iff g.2).2 h
    exact ⟨out, by
      simp only [runSubscriptionAudit, List.mem_filterMap]
      exact ⟨g, hg, hsome⟩, hitems⟩

theorem pair_not_monthly (a b : Txn)
    (h : |b.time - a.time| = 20 * msPerDay ∨ |b.time - a.time| = 40 * msPerDay) :
    hasMonthlyGap (sortBy (fun x y => decide (x.time ≤ y.time)) [a, b]) = false := by
  rw [Bool.eq_false_iff]
  intro hgap
  simp only [msPerDay] at h
  have habs := abs_cases (b.time - a.time)
  by_cases hab : a.time ≤ b.time
  · have hs : sortBy (fun x y => decide (x.time ≤ y.time)) [a, b] = [a, b] := by
      simp [sortBy, insertBy, hab]
    rw [hs] at hgap
    simp only [hasMonthlyGap, Bool.or_false, diffDays_in_window, msPerDay] at hgap
    omega
  · have hs : sortBy (fun x y => decide (x.time ≤ y.time)) [a, b] = [b, a] := by
      simp [sortBy, insertBy, hab]
    rw [hs] at hgap
    simp only [hasMonthlyGap, Bool.or_false, diffDays_in_window, msPerDay] at hgap
    omega

/-- The subscription audit per key: `runSubscriptionAudit` flags the group of
a key exactly when the group has at least two transactions and, in the group
sorted by time, some two consecutive transactions are between 25 and 35 days
apart, bounds included; a group of two transactions 20 or 40 days apart is not
flagged. A group here is the list of the transactions of one key
`peer-amount.toFixed(0)`, in data order, and every element of the result is a
flagged group; which transactions share a key is the subject of
`runSubscriptionAudit_merges_distinct_pairs`. -/
theorem subscription_audit_flags_monthly_gap (data : List Txn) :
    (∀ g ∈ groupBy subKey data,
      g.2 = data.filter (fun d => decide (subKey d = g.1)) ∧
      (sortBy (fun a b => decide (a.time ≤ b.time)) g.2).Perm g.2 ∧
      (sortBy (fun a b => decide (a.time ≤ b.time)) g.2).Sorted (fun a b => a.time ≤ b.time) ∧
      ((∃ out ∈ runSubscriptionAudit data, out.items = g.2) ↔
        2 ≤ g.2.length ∧
        ∃ pre a b post, sortBy (fun a b => decide (a.time ≤ b.time)) g.2 = pre ++ a :: b :: post ∧
          25 * msPerDay ≤ b.time - a.time ∧ b.time - a.time ≤ 35 * msPerDay)) ∧
    (∀ out ∈ runSubscriptionAudit data, ∃ g ∈ groupBy subKey data, out.items = g.2) ∧
    (∀ (a b : Txn), ∀ g ∈ groupBy subKey data, g.2 = [a, b] →
      (|b.time - a.time| = 20 * msPerDay ∨ |b.time - a.time| = 40 * msPerDay) →
      ¬ ∃ out ∈ runSubscriptionAudit data, out.items = g.2) := by
  refine ⟨?_, ?_, ?_⟩
  · intro g hg
    refine ⟨((groupBy_spec subKey data).2.2 g hg).1, sortBy_perm _ _, ?_, ?_⟩
    · have := sortBy_sorted (fun a b : Txn => decide (a.time ≤ b.time))
        (fun a b => by simpa using le_total a.time b.time)
        (fun a b c h1 h2 => by
          simp only [decide_eq_true_eq] at h1 h2 ⊢
          exact le_trans h1 h2) g.2
      exact this.imp (fun h => by simpa using h)
    · rw [subscription_flagged_iff data g hg, hasMonthlyGap_iff]
  · intro out hout
    simp only [runSubscriptionAudit, List.mem_filterMap] at hout
    obtain ⟨g, hg, hsome⟩ := hout
    obtain ⟨_, _, first, rest, _, hdef⟩ := (subscriptionOf_eq_some_iff g.2 out).1 hsome
    exact ⟨g, hg, by rw [hdef]⟩
  · intro a b g hg hab hdays hflag
    have h := (subscription_flagged_iff data g hg).1 hflag
    rw [hab, pair_not_monthly a b hdays] at h
    exact Bool.noConfusion h.2

/-- Witness of `subscription_audit_flags_monthly_gap`: two charges of the same
merchant and amount 30 days apart are flagged, 20 days apart they are not. -/
theorem subscription_audit_flags_monthly_gap_witness :
    (∃ out ∈ runSubscriptionAudit [txnNetflix "a" 0, txnNetflix "b" 30],
      out.items = [txnNetflix "a" 0, txnNetflix "b" 30]) ∧
    ¬ ∃ out ∈ runSubscriptionAudit [txnNetflix "a" 0, txnNetflix "b" 20],
      out.items = [txnNetflix "a" 0, txnNetflix "b" 20] :=
  ⟨(((subscription_audit_flags_monthly_gap [txnNetflix "a" 0, txnNetflix "b" 30]).1
      ("Netflix-68".toList, [txnNetflix "a" 0, txnNetflix "b" 30]) (by decide!)).2.2.2).2
      ⟨by decide, [], txnNetflix "a" 0, txnNetflix "b" 30, [], by decide!, by decide, by decide⟩,
   (subscription_audit_flags_monthly_gap [txnNetflix "a" 0, txnNetflix "b" 20]).2.2
      (txnNetflix "a" 0) (txnNetflix "b" 20)
      ("Netflix-68".toList, [txnNetflix "a" 0, txnNetflix "b" 20]) (by decide!) rfl
      (Or.inl (by decide))⟩

/-- Claim C20, at an input where the code departs from it. The transaction
of counterparty `a-` and amount 5 and the transaction of counterparty `a` and
amount -5, 30 days later, have different counterparties and different rounded
amounts, so each group of merchant and rounded amount has one transaction; both
have the key `a--5`, and `runSubscriptionAudit` flags them as one group, named
`a-`, of amount 5. -/
theorem runSubscriptionAudit_merges_distinct_pairs :
    (txnCharge "1" "a-" 5 0).peer ≠ (txnCharge "2" "a" (-5) 30).peer ∧
    toFixed0 (txnCharge "1" "a-" 5 0).amount = "5".toList ∧
    toFixed0 (txnCharge "2" "a" (-5) 30).amount = "-5".toList ∧
    subKey (txnCharge "1" "a-" 5 0) = "a--5".toList ∧
    subKey (txnCharge "2" "a" (-5) 30) = "a--5".toList ∧
    ([txnCharge "1" "a-" 5 0, txnCharge "2" "a" (-5) 30].filter
      (fun d => decide (d.peer = "a-".toList ∧ toFixed0 d.amount = "5".toList))).length = 1 ∧
    ([txnCharge "1" "a-" 5 0, txnCharge "2" "a" (-5) 30].filter
      (fun d => decide (d.peer = "a".toList ∧ toFixed0 d.amount = "-5".toList))).length = 1 ∧
    (txnCharge "2" "a" (-5) 30).time - (txnCharge "1" "a-" 5 0).time = 30 * msPerDay ∧
    runSubscriptionAudit [txnCharge "1" "a-" 5 0, txnCharge "2" "a" (-5) 30] =
      [{ name := "a-".toList, amount := 5,
         items := [txnCharge "1" "a-" 5 0, txnCharge "2" "a" (-5) 30] }] := by
  decide!

/-! ## Slashes and unparsable dates -/

theorem replaceSlash_idem (s : Str) : replaceSlash (replaceSlash s) = replaceSlash s := by
  simp only [replaceSlash, List.map_map]
  apply List.map_congr_left
  intro c _
  by_cases h : c = '/' <;> simp [h]

theorem replaceSlash_truthy (s : Str) :
    (JsVal.str (replaceSlash s)).truthy = (JsVal.str s).truthy := by
  cases s <;> simp [replaceSlash, JsVal.truthy]

/-- Counterexample to claim C11 as stated: with the Date constructor of Node in
the time zone UTC+8, `parseDate` gives different instants on `2024/01/05`
(local midnight) and on the same text with hyphens (UTC midnight). -/
theorem parseDate_slash_counterexample :
    parseDate nodeDateShanghai 0 (.val (.str "2024/01/05".toList)) = some 1704384000000 ∧
    replaceSlash "2024/01/05".toList = "2024-01-05".toList ∧
    parseDate nodeDateShanghai 0 (.val (.str (replaceSlash "2024/01/05".toList))) =
      some 1704412800000 := by
  refine ⟨?_, ?_, ?_⟩ <;> decide!

/-- Claim C11, amended. `extractBills` replaces every slash of the time text by
a hyphen before it parses it: two rows that differ only in that the time of one
is the time of the other with its slashes replaced are mapped to the same
record, so `YYYY/MM/DD HH:mm:ss` and `YYYY-MM-DD HH:mm:ss` yield the same
timestamp there. `parseDate` passes a string to the Date constructor as it is. -/
theorem extractBills_normalises_slashes (env : Env) (platform : Str) (cfg : Cfg) (i : ℕ)
    (r1 r2 : Row) (s : Str)
    (ht1 : r1.get cfg.time = .str s) (ht2 : r2.get cfg.time = .str (replaceSlash s))
    (hid : r1.get cfg.id = r2.get cfg.id) (hcat : r1.get cfg.cat = r2.get cfg.cat)
    (hpeer : r1.get cfg.peer = r2.get cfg.peer) (hitem : r1.get cfg.item = r2.get cfg.item)
    (hamt : r1.get cfg.amt = r2.get cfg.amt) (htype : r1.get cfg.type = r2.get cfg.type) :
    mapRow env platform cfg i r1 = mapRow env platform cfg i r2 ∧
    replaceSlash "2024/01/05 10:00:00".toList = "2024-01-05 10:00:00".toList ∧
    (∀ (dateParse : Str → JsDate) (now : ℤ),
      parseDate dateParse now (.val (.str s)) = dateParse s) := by
  refine ⟨?_, by decide, fun _ _ => rfl⟩
  simp only [mapRow, ht1, ht2, hid, hcat, hpeer, hitem, hamt, htype, JsVal.toStr,
    replaceSlash_idem, replaceSlash_truthy]

/-- Witness of `extractBills_normalises_slashes`: the sample expense row and
the same row with hyphens in its time. -/
theorem extractBills_normalises_slashes_witness :
    mapRow sampleEnv "alipay".toList alipayCfg 0 sampleRowExpense =
      mapRow sampleEnv "alipay".toList alipayCfg 0
        (("交易时间".toList, .str "2024-01-01 10:00:00".toList) :: sampleRowExpense) :=
  (extractBills_normalises_slashes sampleEnv "alipay".toList alipayCfg 0 sampleRowExpense
    (("交易时间".toList, .str "2024-01-01 10:00:00".toList) :: sampleRowExpense)
    "2024/01/01 10:00:00".toList (by decide) (by decide) (by decide) (by decide) (by decide)
    (by decide) (by decide) (by decide)).1

/-- Claim C12, evaluated where it fails: on a string that is not a date
`parseDate` returns the Invalid Date of the Date constructor, and on a serial
out of the range of a Date as well; the current instant is returned only for a
value that is neither a Date, a number nor a string. -/
theorem parseDate_invalid_on_bad_string :
    parseDate nodeDateShanghai 1704103200000 (.val (.str "not a date".toList)) = none ∧
    parseDate nodeDateShanghai 1704103200000 (.val (.num 1000000000000)) = none ∧
    parseDate nodeDateShanghai 1704103200000 (.val .undefined) = some 1704103200000 := by
  refine ⟨?_, ?_, ?_⟩ <;> decide!

/-! ## Tagging -/

theorem find?_key_of_mem {α β : Type} [BEq β] [LawfulBEq β] (f : α → β) {l : List α} {a : α}
    (hnd : (l.map f).Nodup) (ha : a ∈ l) : l.find? (fun x => f x == f a) = some a := by
  induction l with
  | nil => simp at ha
  | cons b rest ih =>
    simp only [List.map_cons, List.nodup_cons] at hnd
    by_cases hb : f b = f a
    · rcases List.mem_cons.1 ha with h | h
      · subst h; simp
      · exact absurd (hb ▸ List.mem_map_of_mem f h) hnd.1
    · rcases List.mem_cons.1 ha with h | h
      · subst h; exact absurd rfl hb
      · rw [List.find?_cons_of_neg _ (by simpa using hb)]
        exact ih hnd.2 h

theorem find?_id_of_tag {db : Db} (hwf : TagsWF db) {tag : TagRow} (h : tag ∈ db.tags) :
    db.tags.find? (fun t => t.id == tag.id) = some tag :=
  find?_key_of_mem (fun t : TagRow => t.id) hwf.2.1 h

theorem find?_name_of_tag {db : Db} (hwf : TagsWF db) {tag : TagRow} (h : tag ∈ db.tags) :
    db.tags.find? (fun t => t.name == tag.name) = some tag :=
  find?_key_of_mem (fun t : TagRow => t.name) hwf.1 h

theorem mem_assocNames {db : Db} {p : SqlVal × Str} :
    p ∈ assocNames db ↔
      ∃ tt ∈ db.transaction_tags, ∃ tag, db.tags.find? (fun t => t.id == tt.tag_id) = some tag ∧
        p = (tt.transaction_id, tag.name) := by
  simp only [assocNames, List.mem_filterMap, Option.map_eq_some']
  constructor
  · rintro ⟨tt, htt, tag, hf, hp⟩
    exact ⟨tt, htt, tag, hf, hp.symm⟩
  · rintro ⟨tt, htt, tag, hf, hp⟩
    exact ⟨tt, htt, tag, hf, hp.symm⟩

theorem find?_append_of_isSome {α : Type} (p : α → Bool) (l extra : List α) {a : α}
    (h : l.find? p = some a) : (l ++ extra).find? p = some a := by
  rw [List.find?_append, h]; rfl

/-- Adding tags at the end of the table keeps the associations by name, when
every association refers to a tag. -/
theorem assocNames_append_tags {db : Db} (hwf : TagsWF db) (extra : List TagRow) :
    assocNames { db with tags := db.tags ++ extra } = assocNames db := by
  simp only [assocNames]
  apply List.filterMap_congr
  intro tt htt
  obtain ⟨t, ht, hid⟩ := hwf.2.2.2 tt htt
  have := find?_id_of_tag hwf ht
  rw [hid] at this
  rw [find?_append_of_isSome _ _ _ this, this]

theorem getOrCreateTag_spec (eng : Engine) {db : Db} (hwf : TagsWF db) (n : Str) :
    TagsWF (getOrCreateTag eng db n).1 ∧
    (getOrCreateTag eng db n).1.transactions = db.transactions ∧
    (getOrCreateTag eng db n).1.transaction_tags = db.transaction_tags ∧
    (∃ tag ∈ (getOrCreateTag eng db n).1.tags,
      tag.id = (getOrCreateTag eng db n).2 ∧ tag.name = n) ∧
    (∀ tag ∈ db.tags, tag ∈ (getOrCreateTag eng db n).1.tags) ∧
    assocNames (getOrCreateTag eng db n).1 = assocNames db := by
  unfold getOrCreateTag
  cases hf : db.tags.find? (fun t => t.name == n) with
  | some tag =>
    have hmem := List.mem_of_find?_eq_some hf
    have hname : tag.name = n := by simpa using List.find?_some hf
    exact ⟨hwf, rfl, rfl, ⟨tag, hmem, rfl, hname⟩, fun _ h => h, rfl⟩
  | none =>
    have hnone : ∀ t ∈ db.tags, t.name ≠ n := by
      intro t ht
      have := List.find?_eq_none.1 hf t ht
      simpa using this
    obtain ⟨h1, h2, h3, h4⟩ := hwf
    refine ⟨⟨?_, ?_, ?_, ?_⟩, rfl, rfl, ?_, ?_, ?_⟩
    · simp only [List.map_append, List.map_cons, List.map_nil]
      rw [List.nodup_append]
      refine ⟨h1, by simp, ?_⟩
      intro x hx hx2
      simp only [List.mem_singleton] at hx2
      obtain ⟨t, ht, rfl⟩ := List.mem_map.1 hx
      exact hnone t ht hx2
    · simp only [List.map_append, List.map_cons, List.map_nil]
      rw [List.nodup_append]
      refine ⟨h2, by simp, ?_⟩
      intro x hx hx2
      simp only [List.mem_singleton] at hx2
      obtain ⟨t, ht, rfl⟩ := List.mem_map.1 hx
      have := h3 t ht
      omega
    · intro t ht
      simp only [List.mem_append, List.mem_singleton] at ht
      rcases ht with ht | ht
      · have := h3 t ht
        show t.id ≤ db.tagSeq + 1
        omega
      · subst ht
        exact le_refl _
    · intro tt htt
      obtain ⟨t, ht, hid⟩ := h4 tt htt
      exact ⟨t, List.mem_append_left _ ht, hid⟩
    · exact ⟨_, List.mem_append_right _ (List.mem_singleton_self _), rfl, rfl⟩
    · intro tag ht
      exact List.mem_append_left _ ht
    · exact assocNames_append_tags ⟨h1, h2, h3, h4⟩ _

theorem insertTt_spec (eng : Engine) {db : Db} (hwf : TagsWF db) {tag : TagRow}
    (htag : tag ∈ db.tags) (txId : SqlVal)
    (hfk : txId = .null ∨ ∃ r ∈ db.transactions, sqlEq r.id txId = true) :
    ∃ db1, insertTt eng db txId tag.id = some db1 ∧ TagsWF db1 ∧ db1.tags = db.tags ∧
      db1.transactions = db.transactions ∧
      (∀ p, p ∈ assocNames db1 ↔ p ∈ assocNames db ∨ p = (txId, tag.name)) := by
  unfold insertTt
  by_cases hex : db.transaction_tags.any
      (fun tt => sqlEq tt.transaction_id txId && tt.tag_id == tag.id) = true
  · rw [if_pos hex]
    refine ⟨db, rfl, hwf, rfl, rfl, ?_⟩
    intro p
    constructor
    · exact Or.inl
    · rintro (h | h)
      · exact h
      · obtain ⟨tt, htt, hc⟩ := List.any_eq_true.1 hex
        simp only [Bool.and_eq_true, beq_iff_eq] at hc
        rw [h, mem_assocNames]
        refine ⟨tt, htt, tag, ?_, ?_⟩
        · rw [hc.2]; exact find?_id_of_tag hwf htag
        · rw [eq_of_sqlEq hc.1]
  · rw [if_neg hex]
    have hfk2 : ¬ ((txId != .null && !db.transactions.any (fun r => sqlEq r.id txId)) = true) := by
      rcases hfk with h | ⟨r, hr, hrid⟩
      · simp [h]
      · have : db.transactions.any (fun r => sqlEq r.id txId) = true :=
          List.any_eq_true.2 ⟨r, hr, hrid⟩
        simp [this]
    rw [if_neg hfk2]
    refine ⟨_, rfl, ?_, rfl, rfl, ?_⟩
    · obtain ⟨h1, h2, h3, h4⟩ := hwf
      refine ⟨h1, h2, h3, ?_⟩
      intro tt htt
      simp only [List.mem_append, List.mem_singleton] at htt
      rcases htt with htt | htt
      · exact h4 tt htt
      · subst htt
        exact ⟨tag, htag, rfl⟩
    · intro p
      simp only [assocNames, List.filterMap_append, List.mem_append, List.filterMap_cons,
        List.filterMap_nil, find?_id_of_tag hwf htag, Option.map_some', List.mem_singleton]

/-- One iteration of the loops that tag: the tag of the name is looked up or
created, then associated. -/
theorem tagStep_spec (eng : Engine) {db : Db} (hwf : TagsWF db) (txId : SqlVal)
    (hfk : txId = .null ∨ ∃ r ∈ db.transactions, sqlEq r.id txId = true) (n : Str) :
    ∃ db1, insertTt eng (getOrCreateTag eng db n).1 txId (getOrCreateTag eng db n).2 = some db1 ∧
      TagsWF db1 ∧ db1.transactions = db.transactions ∧
      (∀ tag ∈ db.tags, tag ∈ db1.tags) ∧ (∃ tag ∈ db1.tags, tag.name = n) ∧
      (∀ p, p ∈ assocNames db1 ↔ p ∈ assocNames db ∨ p = (txId, n)) := by
  obtain ⟨hwf1, htx1, _, ⟨tag, htag, hid, hname⟩, hkeep, hassoc⟩ := getOrCreateTag_spec eng hwf n
  have hfk1 : txId = .null ∨
      ∃ r ∈ (getOrCreateTag eng db n).1.transactions, sqlEq r.id txId = true := by
    rw [htx1]; exact hfk
  obtain ⟨db1, hins, hwf2, htags, htx2, hmem⟩ := insertTt_spec eng hwf1 htag txId hfk1
  refine ⟨db1, by rw [← hid]; exact hins, hwf2, by rw [htx2, htx1], ?_, ?_, ?_⟩
  · intro t ht
    rw [htags]; exact hkeep t ht
  · exact ⟨tag, by rw [htags]; exact htag, hname⟩
  · intro p
    rw [hmem, hassoc, hname]

theorem addTagsLoop_spec (eng : Engine) (txId : SqlVal) (names : List Str) :
    ∀ {db : Db}, TagsWF db →
      (txId = .null ∨ ∃ r ∈ db.transactions, sqlEq r.id txId = true) →
      ∃ db1, addTagsLoop eng txId db names = some db1 ∧ TagsWF db1 ∧
        db1.transactions = db.transactions ∧
        (∀ tag ∈ db.tags, tag ∈ db1.tags) ∧ (∀ n ∈ names, ∃ tag ∈ db1.tags, tag.name = n) ∧
        (∀ p, p ∈ assocNames db1 ↔ p ∈ assocNames db ∨ ∃ n ∈ names, p = (txId, n)) := by
  induction names with
  | nil =>
    intro db hwf _
    exact ⟨db, rfl, hwf, rfl, fun _ h => h, by simp, by simp⟩
  | cons n rest ih =>
    intro db hwf hfk
    obtain ⟨d1, hstep, hwf1, htx1, hkeep1, ⟨tag, htag, hname⟩, hassoc1⟩ :=
      tagStep_spec eng hwf txId hfk n
    have hfk1 : txId = .null ∨ ∃ r ∈ d1.transactions, sqlEq r.id txId = true := by
      rw [htx1]; exact hfk
    obtain ⟨d2, hloop, hwf2, htx2, hkeep2, hnames2, hassoc2⟩ := ih hwf1 hfk1
    refine ⟨d2, ?_, hwf2, by rw [htx2, htx1], fun t ht => hkeep2 t (hkeep1 t ht), ?_, ?_⟩
    · simp only [addTagsLoop, hstep, hloop]
    · intro m hm
      rcases List.mem_cons.1 hm with h | h
      · exact ⟨tag, hkeep2 tag htag, by rw [hname, h]⟩
      · exact hnames2 m h
    · intro p
      rw [hassoc2, hassoc1]
      simp only [List.mem_cons, exists_eq_or_imp, or_assoc]

theorem autoApplyLoop_spec (eng : Engine) (txs : List TxRow) :
    ∀ {db : Db}, TagsWF db →
      (∀ tx ∈ txs, tx.id = .null ∨ ∃ r ∈ db.transactions, sqlEq r.id tx.id = true) →
      ∃ db1, autoApplyLoop eng db txs = some db1 ∧ TagsWF db1 ∧
        db1.transactions = db.transactions ∧
        (∀ tag ∈ db.tags, tag ∈ db1.tags) ∧
        (∀ tx ∈ txs, ∀ n ∈ autoTagTransaction eng tx, ∃ tag ∈ db1.tags, tag.name = n) ∧
        (∀ p, p ∈ assocNames db1 ↔
          p ∈ assocNames db ∨ ∃ tx ∈ txs, ∃ n ∈ autoTagTransaction eng tx, p = (tx.id, n)) := by
  induction txs with
  | nil =>
    intro db hwf _
    exact ⟨db, rfl, hwf, rfl, fun _ h => h, by simp, by simp⟩
  | cons tx rest ih =>
    intro db hwf hfk
    obtain ⟨d1, hstep, hwf1, htx1, hkeep1, hnames1, hassoc1⟩ :=
      addTagsLoop_spec eng tx.id (autoTagTransaction eng tx) hwf
        (hfk tx (List.mem_cons_self _ _))
    have hfk1 : ∀ t ∈ rest, t.id = .null ∨ ∃ r ∈ d1.transactions, sqlEq r.id t.id = true := by
      intro t ht
      rw [htx1]; exact hfk t (List.mem_cons_of_mem _ ht)
    obtain ⟨d2, hloop, hwf2, htx2, hkeep2, hnames2, hassoc2⟩ := ih hwf1 hfk1
    refine ⟨d2, ?_, hwf2, by rw [htx2, htx1], fun t ht => hkeep2 t (hkeep1 t ht), ?_, ?_⟩
    · simp only [autoApplyLoop, hstep, hloop]
    · intro t ht n hn
      rcases List.mem_cons.1 ht with h | h
      · subst h
        obtain ⟨tag, htag, hname⟩ := hnames1 n hn
        exact ⟨tag, hkeep2 tag htag, hname⟩
      · exact hnames2 t h n hn
    · intro p
      rw [hassoc2, hassoc1]
      simp only [List.mem_cons, exists_eq_or_imp, or_assoc]

/-! ## The constraints of the tag tables hold in every reachable store -/

theorem insertTt_wf {eng : Engine} {db db1 : Db} (hwf : TagsWF db) {txId : SqlVal} {tagId : ℕ}
    (htag : ∃ t ∈ db.tags, t.id = tagId) (h : insertTt eng db txId tagId = some db1) :
    TagsWF db1 ∧ db1.tags = db.tags := by
  unfold insertTt at h
  split_ifs at h
  · cases h; exact ⟨hwf, rfl⟩
  · cases h
    obtain ⟨h1, h2, h3, h4⟩ := hwf
    refine ⟨⟨h1, h2, h3, ?_⟩, rfl⟩
    intro tt htt
    simp only [List.mem_append, List.mem_singleton] at htt
    rcases htt with htt | htt
    · exact h4 tt htt
    · subst htt
      exact htag

theorem addTagsLoop_wf {eng : Engine} {txId : SqlVal} {names : List Str} :
    ∀ {db db1 : Db}, TagsWF db → addTagsLoop eng txId db names = some db1 → TagsWF db1 := by
  induction names with
  | nil =>
    intro db db1 hwf h
    simp only [addTagsLoop, Option.some.injEq] at h
    subst h; exact hwf
  | cons n rest ih =>
    intro db db1 hwf h
    simp only [addTagsLoop] at h
    obtain ⟨hwf1, _, _, ⟨tag, htag, hid, _⟩, _, _⟩ := getOrCreateTag_spec eng hwf n
    cases hi : insertTt eng (getOrCreateTag eng db n).1 txId (getOrCreateTag eng db n).2 with
    | none => simp [hi] at h
    | some d =>
      simp only [hi] at h
      exact ih (insertTt_wf hwf1 ⟨tag, htag, hid⟩ hi).1 h

theorem tagEach_wf {eng : Engine} {tagId : ℕ} {ids : List SqlVal} :
    ∀ {db db1 : Db}, TagsWF db → (∃ t ∈ db.tags, t.id = tagId) →
      tagEach eng tagId db ids = some db1 → TagsWF db1 := by
  induction ids with
  | nil =>
    intro db db1 hwf _ h
    simp only [tagEach, Option.some.injEq] at h
    subst h; exact hwf
  | cons a rest ih =>
    intro db db1 hwf htag h
    simp only [tagEach] at h
    cases hi : insertTt eng db a tagId with
    | none => simp [hi] at h
    | some d =>
      simp only [hi] at h
      obtain ⟨hwf1, htags⟩ := insertTt_wf hwf htag hi
      exact ih hwf1 (by rw [htags]; exact htag) h

theorem batchAddLoop_wf {eng : Engine} {ids : List SqlVal} {names : List Str} :
    ∀ {db db1 : Db}, TagsWF db → batchAddLoop eng ids db names = some db1 → TagsWF db1 := by
  induction names with
  | nil =>
    intro db db1 hwf h
    simp only [batchAddLoop, Option.some.injEq] at h
    subst h; exact hwf
  | cons n rest ih =>
    intro db db1 hwf h
    simp only [batchAddLoop] at h
    obtain ⟨hwf1, _, _, ⟨tag, htag, hid, _⟩, _, _⟩ := getOrCreateTag_spec eng hwf n
    cases hi : tagEach eng (getOrCreateTag eng db n).2 (getOrCreateTag eng db n).1 ids with
    | none => simp [hi] at h
    | some d =>
      simp only [hi] at h
      exact ih (tagEach_wf hwf1 ⟨tag, htag, hid⟩ hi) h

theorem autoApplyLoop_wf {eng : Engine} {txs : List TxRow} :
    ∀ {db db1 : Db}, TagsWF db → autoApplyLoop eng db txs = some db1 → TagsWF db1 := by
  induction txs with
  | nil =>
    intro db db1 hwf h
    simp only [autoApplyLoop, Option.some.injEq] at h
    subst h; exact hwf
  | cons t rest ih =>
    intro db db1 hwf h
    simp only [autoApplyLoop] at h
    cases hi : addTagsLoop eng t.id db (autoTagTransaction eng t) with
    | none => simp [hi] at h
    | some d =>
      simp only [hi] at h
      exact ih (addTagsLoop_wf hwf hi) h

theorem atomically_wf (db : Db) (body : Db → Option Db) (hwf : TagsWF db)
    (h : ∀ db1, body db = some db1 → TagsWF db1) : TagsWF (atomically db body).1 := by
  unfold atomically
  cases hb : body db with
  | none => exact hwf
  | some db1 => exact h db1 hb

theorem insertOrReplace_wf {db : Db} (row : TxRow) (hwf : TagsWF db) :
    TagsWF (insertOrReplace db row) := by
  obtain ⟨h1, h2, h3, h4⟩ := hwf
  refine ⟨h1, h2, h3, ?_⟩
  intro tt htt
  simp only [insertOrReplace] at htt
  split_ifs at htt
  · exact h4 tt (List.mem_filter.1 htt).1
  · exact h4 tt htt

theorem insertLoop_wf {bills : List Bill} :
    ∀ {db db1 : Db}, TagsWF db → insertLoop db bills = some db1 → TagsWF db1 := by
  induction bills with
  | nil =>
    intro db db1 hwf h
    simp only [insertLoop, Option.some.injEq] at h
    subst h; exact hwf
  | cons b rest ih =>
    intro db db1 hwf h
    rw [insertLoop_cons] at h
    cases hb : bindBill (classify b) with
    | none => simp [hb] at h
    | some row =>
      simp only [hb, Option.some_bind] at h
      exact ih (insertOrReplace_wf row hwf) h

theorem step_wf (eng : Engine) (db : Db) (op : Op) (hwf : TagsWF db) : TagsWF (step eng db op) := by
  cases op with
  | save bills =>
    simp only [step]
    cases h : insertLoop db bills with
    | none => rw [postBills_of_none h]; exact hwf
    | some db1 => rw [postBills_of_some h]; exact insertLoop_wf hwf h
  | deleteAll =>
    obtain ⟨h1, h2, h3, h4⟩ := hwf
    exact ⟨h1, h2, h3, fun tt htt => h4 tt (List.mem_filter.1 htt).1⟩
  | tag id names => exact atomically_wf db _ hwf (fun _ h => addTagsLoop_wf hwf h)
  | batchMerchant m names => exact atomically_wf db _ hwf (fun _ h => batchAddLoop_wf hwf h)
  | autoApply => exact atomically_wf db _ hwf (fun _ h => autoApplyLoop_wf hwf h)

theorem empty_wf : TagsWF Db.empty := by
  simp [TagsWF, Db.empty]

theorem run_wf (eng : Engine) (ops : List Op) : ∀ {db : Db}, TagsWF db → TagsWF (run eng db ops) := by
  induction ops with
  | nil => intro db h; exact h
  | cons op rest ih =>
    intro db h
    simp only [run, List.foldl_cons]
    exact ih (step_wf eng db op h)

/-! ## Repeating a tag assignment -/

theorem tagStep_noop (eng : Engine) {db : Db} (hwf : TagsWF db) {txId : SqlVal} {n : Str}
    (hnull : txId ≠ .null) (hp : (txId, n) ∈ assocNames db) :
    insertTt eng (getOrCreateTag eng db n).1 txId (getOrCreateTag eng db n).2 = some db := by
  obtain ⟨tt, htt, tag, hfind, hpair⟩ := mem_assocNames.1 hp
  have htag := List.mem_of_find?_eq_some hfind
  have hid : tag.id = tt.tag_id := by simpa using List.find?_some hfind
  simp only [Prod.mk.injEq] at hpair
  have hname := find?_name_of_tag hwf htag
  rw [← hpair.2] at hname
  have hg : getOrCreateTag eng db n = (db, tag.id) := by
    simp only [getOrCreateTag, hname]
  rw [hg]
  simp only [insertTt]
  rw [if_pos]
  apply List.any_eq_true.2
  refine ⟨tt, htt, ?_⟩
  rw [← hpair.1, sqlEq_self_of_ne_null hnull, hid]
  simp

theorem addTagsLoop_noop (eng : Engine) {db : Db} (hwf : TagsWF db) {txId : SqlVal}
    (hnull : txId ≠ .null) (names : List Str) (hp : ∀ n ∈ names, (txId, n) ∈ assocNames db) :
    addTagsLoop eng txId db names = some db := by
  induction names with
  | nil => rfl
  | cons n rest ih =>
    simp only [addTagsLoop, tagStep_noop eng hwf hnull (hp n (List.mem_cons_self _ _))]
    exact ih (fun m hm => hp m (List.mem_cons_of_mem _ hm))

theorem autoApplyLoop_noop (eng : Engine) {db : Db} (hwf : TagsWF db) (txs : List TxRow)
    (hnull : ∀ tx ∈ txs, tx.id ≠ .null)
    (hp : ∀ tx ∈ txs, ∀ n ∈ autoTagTransaction eng tx, (tx.id, n) ∈ assocNames db) :
    autoApplyLoop eng db txs = some db := by
  induction txs with
  | nil => rfl
  | cons tx rest ih =>
    simp only [autoApplyLoop, addTagsLoop_noop eng hwf (hnull tx (List.mem_cons_self _ _)) _
      (hp tx (List.mem_cons_self _ _))]
    exact ih (fun t ht => hnull t (List.mem_cons_of_mem _ ht))
      (fun t ht => hp t (List.mem_cons_of_mem _ ht))

/-! ## Auto-apply -/

theorem autoApply_fk (db : Db) :
    ∀ tx ∈ db.transactions.filter notShadow,
      tx.id = .null ∨ ∃ r ∈ db.transactions, sqlEq r.id tx.id = true := by
  intro tx htx
  by_cases h : tx.id = .null
  · exact Or.inl h
  · exact Or.inr ⟨tx, (List.mem_filter.1 htx).1, sqlEq_self_of_ne_null h⟩

theorem postAutoApply_eq {eng : Engine} {db db1 : Db}
    (h : autoApplyLoop eng db (db.transactions.filter notShadow) = some db1) :
    postAutoApply eng db = (db1, true) := by
  simp [postAutoApply, atomically, h]

theorem notShadow_eq_false_iff (r : TxRow) :
    notShadow r = false ↔ r.status = .text "shadow".toList := by
  rw [notShadow_iff]
  simp

/-- Claim C18. In a store that meets the constraints of the tag tables (as
every reachable store does), auto-apply succeeds and the associations after
it, as pairs of transaction id and tag name, are those before it together with
the pairs (t.id, n) for t a stored non-shadow transaction and n a tag that
`autoTagTransaction` suggests for t: a tag record exists for every such name,
no tag record and no association is removed, the transactions are unchanged,
and a shadow transaction whose id no other transaction carries gains none. -/
theorem autoApply_associations (eng : Engine) (db : Db) (hwf : TagsWF db) :
    (postAutoApply eng db).2 = true ∧
    (postAutoApply eng db).1.transactions = db.transactions ∧
    (∀ p, p ∈ assocNames (postAutoApply eng db).1 ↔
      p ∈ assocNames db ∨
        ∃ t ∈ db.transactions, notShadow t = true ∧
          ∃ n ∈ autoTagTransaction eng t, p = (t.id, n)) ∧
    (∀ t ∈ db.transactions, notShadow t = true → ∀ n ∈ autoTagTransaction eng t,
      ∃ tag ∈ (postAutoApply eng db).1.tags, tag.name = n) ∧
    (∀ tag ∈ db.tags, tag ∈ (postAutoApply eng db).1.tags) ∧
    (∀ s ∈ db.transactions, s.status = .text "shadow".toList →
      (∀ t ∈ db.transactions, notShadow t = true → t.id ≠ s.id) →
      ∀ n, (s.id, n) ∈ assocNames (postAutoApply eng db).1 → (s.id, n) ∈ assocNames db) := by
  obtain ⟨db1, hloop, _, htx, hkeep, hnames, hassoc⟩ :=
    autoApplyLoop_spec eng (db.transactions.filter notShadow) hwf (autoApply_fk db)
  rw [postAutoApply_eq hloop]
  have hassoc2 : ∀ p, p ∈ assocNames db1 ↔
      p ∈ assocNames db ∨
        ∃ t ∈ db.transactions, notShadow t = true ∧
          ∃ n ∈ autoTagTransaction eng t, p = (t.id, n) := by
    intro p
    rw [hassoc]
    simp only [List.mem_filter, and_assoc]
  refine ⟨rfl, htx, hassoc2, ?_, hkeep, ?_⟩
  · intro t ht hns n hn
    exact hnames t (List.mem_filter.2 ⟨ht, hns⟩) n hn
  · intro s _ _ hother n hmem
    rcases (hassoc2 _).1 hmem with h | ⟨t, ht, hns, m, _, hpair⟩
    · exact h
    · simp only [Prod.mk.injEq] at hpair
      exact absurd hpair.1.symm (hother t ht hns)

/-- Witness of `autoApply_associations`: in the store with the coffee purchase
A1 and the shadow transaction W1, auto-apply associates A1 with 习惯性 and W1
with nothing. -/
theorem autoApply_associations_witness :
    ((SqlVal.text "A1".toList, "习惯性".toList) ∈
      assocNames (postAutoApply sampleEngine dbCoffeeAndWallet).1) ∧
    ∀ n, (SqlVal.text "W1".toList, n) ∉
      assocNames (postAutoApply sampleEngine dbCoffeeAndWallet).1 :=
  ⟨((autoApply_associations sampleEngine dbCoffeeAndWallet
      (run_wf sampleEngine _ empty_wf)).2.2.1 _).2
      (Or.inr ⟨mkRow "A1" "瑞幸咖啡" "支出" 10 "成功", by decide!, by decide!,
        "习惯性".toList, by decide!, rfl⟩),
   fun n h => by
     have := (autoApply_associations sampleEngine dbCoffeeAndWallet
       (run_wf sampleEngine _ empty_wf)).2.2.2.2.2
       (mkRow "W1" "余额宝" "支出" 100 "shadow") (by decide!) rfl
       (by
         intro t ht hns
         have hcases : t = mkRow "A1" "瑞幸咖啡" "支出" 10 "成功" ∨
             t = mkRow "W1" "余额宝" "支出" 100 "shadow" := by
           have hl : dbCoffeeAndWallet.transactions =
               [mkRow "A1" "瑞幸咖啡" "支出" 10 "成功", mkRow "W1" "余额宝" "支出" 100 "shadow"] := by
             decide!
           rw [hl] at ht
           simpa using ht
         rcases hcases with rfl | rfl
         · decide
         · exact absurd hns (by decide)) n h
     have hempty : assocNames dbCoffeeAndWallet = [] := by decide!
     rw [hempty] at this
     exact absurd this (List.not_mem_nil _)⟩

/-- Claim C19. Tag assignment is idempotent in a store that meets the
constraints of the tag tables: assigning to a transaction a tag name it already
carries leaves the whole store unchanged; when every transaction has an id, a
second auto-apply leaves the store as the first one left it; and after any
sequence of requests no two tag records share a name. -/
theorem tagging_idempotent (eng : Engine) (db : Db) (hwf : TagsWF db) :
    (∀ id n : Str, (SqlVal.text id, n) ∈ assocNames db →
      postBillTags eng db id [n] = (db, true)) ∧
    ((∀ t ∈ db.transactions, t.id ≠ .null) → ∀ clock : ℤ,
      postAutoApply { eng with clock := clock } (postAutoApply eng db).1 =
        ((postAutoApply eng db).1, true)) ∧
    (∀ ops : List Op, ((run eng db ops).tags.map (fun t => t.name)).Nodup) := by
  refine ⟨?_, ?_, fun ops => (run_wf eng ops hwf).1⟩
  · intro id n hp
    have hn : SqlVal.text id ≠ .null := by simp
    have := addTagsLoop_noop eng hwf hn [n]
      (fun m hm => by rw [List.mem_singleton.1 hm]; exact hp)
    simp [postBillTags, atomically, this]
  · intro hids clock
    obtain ⟨db1, hloop, hwf1, htx, _, _, hassoc⟩ :=
      autoApplyLoop_spec eng (db.transactions.filter notShadow) hwf (autoApply_fk db)
    rw [postAutoApply_eq hloop]
    apply postAutoApply_eq
    rw [htx]
    apply autoApplyLoop_noop _ hwf1
    · intro tx htx2
      exact hids tx (List.mem_filter.1 htx2).1
    · intro tx htx2 n hn
      exact (hassoc _).2 (Or.inr ⟨tx, htx2, n, hn, rfl⟩)

/-- Witness of `tagging_idempotent`: after auto-apply on the store with the
coffee purchase, tagging A1 with 小额 again and running auto-apply again change
nothing. -/
theorem tagging_idempotent_witness :
    postBillTags sampleEngine (postAutoApply sampleEngine dbCoffeeAndWallet).1 "A1".toList
        ["小额".toList] = ((postAutoApply sampleEngine dbCoffeeAndWallet).1, true) ∧
    postAutoApply { sampleEngine with clock := 1704189600000 }
        (postAutoApply sampleEngine dbCoffeeAndWallet).1 =
      ((postAutoApply sampleEngine dbCoffeeAndWallet).1, true) :=
  ⟨(tagging_idempotent sampleEngine (postAutoApply sampleEngine dbCoffeeAndWallet).1
      (run_wf sampleEngine [.save [mkBill "A1" "瑞幸咖啡" "支出" 10 .undefined,
        mkBill "W1" "余额宝" "支出" 100 .undefined], .autoApply] empty_wf)).1
      "A1".toList "小额".toList (by decide!),
   (tagging_idempotent sampleEngine dbCoffeeAndWallet (run_wf sampleEngine _ empty_wf)).2.1
      (by decide!) 1704189600000⟩

/-! ## The order of SQLite values -/

theorem strLe_total (s t : Str) : strLe s t = true ∨ strLe t s = true := by
  induction s generalizing t with
  | nil => left; simp [strLe]
  | cons a s ih =>
    cases t with
    | nil => right; simp [strLe]
    | cons b t =>
      simp only [strLe, Bool.or_eq_true, Bool.and_eq_true, decide_eq_true_eq, beq_iff_eq]
      rcases lt_trichotomy a.toNat b.toNat with h | h | h
      · exact Or.inl (Or.inl h)
      · have hab : a = b := Char.ext (UInt32.ext (by simpa [Char.toNat, UInt32.toNat] using h))
        rcases ih t with h1 | h1
        · exact Or.inl (Or.inr ⟨hab, h1⟩)
        · exact Or.inr (Or.inr ⟨hab.symm, h1⟩)
      · exact Or.inr (Or.inl h)

theorem strLe_trans (s t u : Str) (h1 : strLe s t = true) (h2 : strLe t u = true) :
    strLe s u = true := by
  induction s generalizing t u with
  | nil => simp [strLe]
  | cons a s ih =>
    cases t with
    | nil => simp [strLe] at h1
    | cons b t =>
      cases u with
      | nil => simp [strLe] at h2
      | cons c u =>
        simp only [strLe, Bool.or_eq_true, Bool.and_eq_true, decide_eq_true_eq,
          beq_iff_eq] at h1 h2 ⊢
        rcases h1 with h1 | ⟨hab, h1⟩
        · rcases h2 with h2 | ⟨hbc, _⟩
          · exact Or.inl (lt_trans h1 h2)
          · exact Or.inl (hbc ▸ h1)
        · rcases h2 with h2 | ⟨hbc, h2⟩
          · exact Or.inl (hab ▸ h2)
          · exact Or.inr ⟨hab.trans hbc, ih t u h1 h2⟩

theorem sqlLe_total (a b : SqlVal) : sqlLe a b = true ∨ sqlLe b a = true := by
  cases a <;> cases b <;> simp [sqlLe, le_total, strLe_total]

theorem sqlLe_trans (a b c : SqlVal) (h1 : sqlLe a b = true) (h2 : sqlLe b c = true) :
    sqlLe a c = true := by
  cases a <;> cases b <;> cases c <;> simp_all [sqlLe]
  · exact le_trans h1 h2
  · exact strLe_trans _ _ _ h1 h2

/-! ## Low-value repeat spending -/

theorem isLowValue_iff (d : Txn) : isLowValue d = true ↔ 0 < d.amount ∧ d.amount < 50 := by
  simp [isLowValue]

theorem latteOf_eq_some {items : List Txn} {out : LatteGroup} (h : latteOf items = some out) :
    ∃ first rest, items = first :: rest ∧ out.name = first.peer ∧ out.cat = first.category ∧
      out.count = items.length ∧ out.total = (items.map (fun d => d.amount)).sum ∧
      out.avg = (items.map (fun d => d.amount)).sum / (items.length : ℚ) := by
  cases items with
  | nil => simp [latteOf] at h
  | cons first rest =>
    simp only [latteOf, List.head?_cons, Option.map_some', Option.some.injEq] at h
    subst h
    exact ⟨first, rest, rfl, rfl, rfl, rfl, rfl, rfl⟩

theorem latteOf_ne_nil {items : List Txn} (h : items ≠ []) : ∃ out, latteOf items = some out := by
  cases items with
  | nil => exact absurd rfl h
  | cons first rest => exact ⟨_, rfl⟩

theorem mem_runLatteAudit {data : List Txn} {out : LatteGroup} :
    out ∈ runLatteAudit data ↔
      ∃ g ∈ groupBy latteKey (data.filter isLowValue), latteOf g.2 = some out ∧ 3 ≤ out.count := by
  unfold runLatteAudit
  rw [(sortBy_perm _ _).mem_iff, List.mem_filter, List.mem_filterMap]
  simp only [decide_eq_true_eq]
  constructor
  · rintro ⟨⟨g, hg, hsome⟩, h3⟩
    exact ⟨g, hg, hsome, h3⟩
  · rintro ⟨g, hg, hsome, h3⟩
    exact ⟨⟨g, hg, hsome⟩, h3⟩

theorem latte_group_items (data : List Txn) {g : Str × List Txn}
    (hg : g ∈ groupBy latteKey (data.filter isLowValue)) :
    g.2 = data.filter (fun d => isLowValue d && decide (latteKey d = g.1)) ∧ g.2 ≠ [] ∧
    ∀ d ∈ g.2, latteKey d = g.1 := by
  obtain ⟨h1, h2⟩ := (groupBy_spec latteKey (data.filter isLowValue)).2.2 g hg
  rw [List.filter_filter] at h1
  have h1' : g.2 = data.filter (fun d => isLowValue d && decide (latteKey d = g.1)) := by
    rw [h1]
    apply List.filter_congr
    intro d _
    exact Bool.and_comm _ _
  refine ⟨h1', h2, ?_⟩
  intro d hd
  rw [h1'] at hd
  have h := (List.mem_filter.1 hd).2
  simp only [Bool.and_eq_true, decide_eq_true_eq] at h
  exact h.2

/-- The audit per key: every flagged group is the list of the low-value
transactions of one key, it has at least three of them, its count, total and
average are their number, sum and mean, and its name and category are those of
the first of them; a key is flagged exactly when at least three low-value
transactions have it. -/
theorem runLatteAudit_key_groups (data : List Txn) :
    (∀ out ∈ runLatteAudit data, ∃ first rest,
      first :: rest =
        data.filter (fun d => isLowValue d && decide (latteKey d = latteKey first)) ∧
      out.name = first.peer ∧ out.cat = first.category ∧
      3 ≤ out.count ∧ out.count = (first :: rest).length ∧
      out.total = ((first :: rest).map (fun d => d.amount)).sum ∧
      out.avg = ((first :: rest).map (fun d => d.amount)).sum / (((first :: rest).length : ℕ) : ℚ)) ∧
    (∀ k : Str, (∃ out ∈ runLatteAudit data, out.name ++ ['-'] ++ out.cat = k) ↔
      3 ≤ (data.filter (fun d => isLowValue d && decide (latteKey d = k))).length) ∧
    (runLatteAudit data).Sorted (fun a b => b.total ≤ a.total) := by
  refine ⟨?_, ?_, ?_⟩
  · intro out hout
    obtain ⟨g, hg, hsome, h3⟩ := mem_runLatteAudit.1 hout
    obtain ⟨hitems, _, hkey⟩ := latte_group_items data hg
    obtain ⟨first, rest, hfr, hn, hc, hcount, htotal, havg⟩ := latteOf_eq_some hsome
    have hk : latteKey first = g.1 := hkey first (by rw [hfr]; exact List.mem_cons_self _ _)
    refine ⟨first, rest, ?_, hn, hc, h3, ?_, ?_, ?_⟩
    · rw [hk, ← hfr]; exact hitems
    · rw [hcount, hfr]
    · rw [htotal, hfr]
    · rw [havg, hfr]
  · intro k
    constructor
    · rintro ⟨out, hout, hk⟩
      obtain ⟨g, hg, hsome, h3⟩ := mem_runLatteAudit.1 hout
      obtain ⟨hitems, _, hkey⟩ := latte_group_items data hg
      obtain ⟨first, rest, hfr, hn, hc, hcount, _, _⟩ := latteOf_eq_some hsome
      have hk1 : latteKey first = g.1 := hkey first (by rw [hfr]; exact List.mem_cons_self _ _)
      have hk2 : g.1 = k := by rw [← hk1, ← hk, hn, hc]; rfl
      rw [← hk2, ← hitems, ← hcount]
      exact h3
    · intro h3
      have hne : data.filter (fun d => isLowValue d && decide (latteKey d = k)) ≠ [] := by
        intro h0
        rw [h0] at h3
        simp at h3
      obtain ⟨d, hd⟩ := List.exists_mem_of_ne_nil _ hne
      obtain ⟨hd1, hd2⟩ := List.mem_filter.1 hd
      simp only [Bool.and_eq_true, decide_eq_true_eq] at hd2
      have hcov := (groupBy_spec latteKey (data.filter isLowValue)).2.1 d
        (List.mem_filter.2 ⟨hd1, hd2.1⟩)
      obtain ⟨g, hg, hg1⟩ := List.mem_map.1 hcov
      obtain ⟨hitems, hnil, hkey⟩ := latte_group_items data hg
      have hgk : g.1 = k := by rw [hg1]; exact hd2.2
      obtain ⟨out, hsome⟩ := latteOf_ne_nil hnil
      obtain ⟨first, rest, hfr, hn, hc, hcount, _, _⟩ := latteOf_eq_some hsome
      have hk1 : latteKey first = g.1 := hkey first (by rw [hfr]; exact List.mem_cons_self _ _)
      refine ⟨out, mem_runLatteAudit.2 ⟨g, hg, hsome, ?_⟩, ?_⟩
      · rw [hcount, hitems, hgk]; exact h3
      · rw [hn, hc, ← hgk, ← hk1]; rfl
  · have := sortBy_sorted (fun a b : LatteGroup => decide (b.total ≤ a.total))
      (fun a b => by simpa using le_total b.total a.total)
      (fun a b c h1 h2 => by
        simp only [decide_eq_true_eq] at h1 h2 ⊢
        exact le_trans h2 h1)
      (((groupBy latteKey (data.filter isLowValue)).filterMap (fun g => latteOf g.2)).filter
        (fun g => decide (3 ≤ g.count)))
    exact this.imp (fun h => by simpa using h)

/-- Claim C21, at an input where the code departs from it. The pair of
counterparty `a-b` and category `c` has exactly two transactions with an amount
strictly between 0 and 50, the pair of counterparty `a` and category `b-c` has
one, and `runLatteAudit` flags a group with name `a-b`, category `c`, count 3
and total 30: a pair with only two low-value transactions is flagged, with the
count and total of three. -/
theorem runLatteAudit_flags_pair_of_two :
    ([txnSmall "1" "a-b" "c" 10, txnSmall "2" "a-b" "c" 10, txnSmall "3" "a" "b-c" 10].filter
      (fun d => isLowValue d && decide (d.peer = "a-b".toList ∧ d.category = "c".toList))).length = 2 ∧
    ([txnSmall "1" "a-b" "c" 10, txnSmall "2" "a-b" "c" 10, txnSmall "3" "a" "b-c" 10].filter
      (fun d => isLowValue d && decide (d.peer = "a".toList ∧ d.category = "b-c".toList))).length = 1 ∧
    runLatteAudit [txnSmall "1" "a-b" "c" 10, txnSmall "2" "a-b" "c" 10, txnSmall "3" "a" "b-c" 10] =
      [{ name := "a-b".toList, cat := "c".toList, count := 3, total := 30, avg := 10 }] := by
  decide!

/-- Claim C29, at an input where the code departs from it. The transactions of
counterparty `a-b`, category `c` and of counterparty `a`, category `b-c` have
different counterparties and categories and the same grouping key `a-b-c`, and
the grouping of `runLatteAudit` puts them in one group. -/
theorem latteKey_merges_distinct_pairs :
    (txnSmall "1" "a-b" "c" 10).peer ≠ (txnSmall "3" "a" "b-c" 10).peer ∧
    (txnSmall "1" "a-b" "c" 10).category ≠ (txnSmall "3" "a" "b-c" 10).category ∧
    latteKey (txnSmall "1" "a-b" "c" 10) = "a-b-c".toList ∧
    latteKey (txnSmall "3" "a" "b-c" 10) = "a-b-c".toList ∧
    groupBy latteKey ([txnSmall "1" "a-b" "c" 10, txnSmall "3" "a" "b-c" 10].filter isLowValue) =
      [("a-b-c".toList, [txnSmall "1" "a-b" "c" 10, txnSmall "3" "a" "b-c" 10])] := by
  decide!

/-! ## The tool executors `getStatistics` and `detectSubscriptions` -/

theorem sortBy_total_sorted (rows : List StatRow) :
    (sortBy (fun a b => sqlLe b.total a.total) rows).Sorted
      (fun a b => sqlLe b.total a.total = true) :=
  sortBy_sorted (fun a b : StatRow => sqlLe b.total a.total)
    (fun a b => sqlLe_total b.total a.total)
    (fun _ _ _ h1 h2 => sqlLe_trans _ _ _ h2 h1) rows

theorem groupTotals_spec (eng : Engine) (key : TxRow → SqlVal) (sel : List TxRow) :
    ((groupTotals eng key sel).map (fun row => row.key)).Nodup ∧
    (∀ r ∈ sel, ∃ row ∈ groupTotals eng key sel, row.key = key r) ∧
    (∀ row ∈ groupTotals eng key sel,
      row.total = sqlSum eng ((sel.filter (fun r => decide (key r = row.key))).map (fun r => r.amount)) ∧
      row.count = (sel.filter (fun r => decide (key r = row.key))).length ∧
      1 ≤ row.count) := by
  obtain ⟨hnd, hcov, hgrp⟩ := groupBy_spec key sel
  refine ⟨?_, ?_, ?_⟩
  · have : (groupTotals eng key sel).map (fun row => row.key) = (groupBy key sel).map Prod.fst := by
      simp [groupTotals, List.map_map, Function.comp_def]
    rw [this]
    exact hnd
  · intro r hr
    obtain ⟨g, hg, hg1⟩ := List.mem_map.1 (hcov r hr)
    exact ⟨_, List.mem_map.2 ⟨g, hg, rfl⟩, hg1⟩
  · intro row hrow
    obtain ⟨g, hg, rfl⟩ := List.mem_map.1 hrow
    obtain ⟨h1, h2⟩ := hgrp g hg
    refine ⟨by simp only; rw [h1], by simp only; rw [h1], ?_⟩
    simp only
    exact List.length_pos.2 h2

theorem stats_of_key (eng : Engine) (db : Db) (period : Period) (call : ToolCall)
    (k : TxRow → SqlVal) (column : Str)
    (hexec : executeTool eng db call =
      .stats column (sortBy (fun a b => sqlLe b.total a.total)
        (groupTotals eng k (db.transactions.filter
          (fun r => notShadow r && inPeriod eng period r))))) :
    ∃ column rows,
      executeTool eng db call = .stats column rows ∧
      rows.Sorted (fun a b => sqlLe b.total a.total = true) ∧
      (rows.map (fun row => row.key)).Nodup ∧
      (∀ r ∈ db.transactions, notShadow r = true → inPeriod eng period r = true →
        ∃ row ∈ rows, row.key = k r) ∧
      (∀ row ∈ rows,
        row.total = sqlSum eng (((db.transactions.filter
          (fun r => notShadow r && inPeriod eng period r)).filter (fun r => decide
            (k r = row.key))).map (fun r => r.amount)) ∧
        row.count = ((db.transactions.filter
          (fun r => notShadow r && inPeriod eng period r)).filter (fun r => decide
            (k r = row.key))).length ∧
        1 ≤ row.count) := by
  obtain ⟨hnd, hcov, hrows⟩ := groupTotals_spec eng k
    (db.transactions.filter (fun r => notShadow r && inPeriod eng period r))
  refine ⟨column, _, hexec, sortBy_total_sorted _, ?_, ?_, ?_⟩
  · exact ((sortBy_perm _ _).map _).nodup_iff.2 hnd
  · intro r hr hs hp
    obtain ⟨row, hrow, hkey⟩ := hcov r (List.mem_filter.2 ⟨hr, by simp [hs, hp]⟩)
    exact ⟨row, (sortBy_perm _ _).mem_iff.2 hrow, hkey⟩
  · intro row hrow
    exact hrows row ((sortBy_perm _ _).mem_iff.1 hrow)

/-- Claim C24. With `groupBy` omitted, `getStatistics` returns the error
object, for every period and every store (the statement it builds ends in
`GROUP BY undefined`): the fallback to the date exists in the SELECT list only.
With `groupBy` given, it returns rows and no error: one row per distinct key
among the non-shadow transactions of the period, with the sum and the number of
the transactions of that key, ordered by total descending. -/
theorem getStatistics_omitted_groupBy_is_error (eng : Engine) (db : Db) (period : Period) :
    executeTool eng db (.getStatistics { period := period, groupBy := none }) = .error ∧
    ∀ g : GroupBy, ∃ column rows,
      executeTool eng db (.getStatistics { period := period, groupBy := some g }) =
        .stats column rows ∧
      rows.Sorted (fun a b => sqlLe b.total a.total = true) ∧
      (rows.map (fun row => row.key)).Nodup ∧
      (∀ r ∈ db.transactions, notShadow r = true → inPeriod eng period r = true →
        ∃ row ∈ rows, row.key =
          (match g with
            | .category => r.category
            | .merchant => r.peer
            | .date => r.date_str)) ∧
      (∀ row ∈ rows,
        row.total = sqlSum eng (((db.transactions.filter
          (fun r => notShadow r && inPeriod eng period r)).filter (fun r => decide
            ((match g with
              | .category => r.category
              | .merchant => r.peer
              | .date => r.date_str) = row.key))).map (fun r => r.amount)) ∧
        row.count = ((db.transactions.filter
          (fun r => notShadow r && inPeriod eng period r)).filter (fun r => decide
            ((match g with
              | .category => r.category
              | .merchant => r.peer
              | .date => r.date_str) = row.key))).length ∧
        1 ≤ row.count) := by
  refine ⟨rfl, ?_⟩
  intro g
  cases g with
  | category =>
    exact stats_of_key eng db period _ (fun r => r.category) "category".toList rfl
  | merchant =>
    exact stats_of_key eng db period _ (fun r => r.peer) "merchant".toList rfl
  | date =>
    exact stats_of_key eng db period _ (fun r => r.date_str) "date".toList rfl

theorem sortBy_frequency_sorted (rows : List SubRow) :
    (sortBy (fun a b => decide (b.frequency ≤ a.frequency)) rows).Sorted
      (fun a b => b.frequency ≤ a.frequency) := by
  have := sortBy_sorted (fun a b : SubRow => decide (b.frequency ≤ a.frequency))
    (fun a b => by simpa using le_total b.frequency a.frequency)
    (fun a b c h1 h2 => by
      simp only [decide_eq_true_eq] at h1 h2 ⊢
      exact le_trans h2 h1) rows
  exact this.imp (fun h => by simpa using h)

theorem mem_take_or_full {α : Type} (n : ℕ) (l : List α) (x : α) (hx : x ∈ l) :
    x ∈ l.take n ∨ (l.take n).length = n := by
  by_cases h : l.length ≤ n
  · left
    rw [List.take_of_length_le h]
    exact hx
  · right
    rw [List.length_take]
    omega

/-- Counterexample to claim C22 as stated: the store holds two charges of 68
by Netflix, 20 days apart (1728000000 ms), and `detectSubscriptions` reports the
group, with frequency 2 and the two time values. -/
theorem detectSubscriptions_twenty_days_counterexample :
    dbTwentyDays.transactions.map (fun r => (r.peer, r.amount, r.time)) =
      [(.text "Netflix".toList, .num 68, .num 1704067200000),
       (.text "Netflix".toList, .num 68, .num 1705795200000)] ∧
    (1705795200000 - 1704067200000 : ℤ) = 20 * msPerDay ∧
    executeTool engineDecimal dbTwentyDays .detectSubscriptions =
      .subscriptions [{ peer := .text "Netflix".toList, amount := .num 68, frequency := 2,
                        timestamps := some "1704067200000,1705795200000".toList }] := by
  decide!

/-- Claim C22, amended. `detectSubscriptions` returns rows and no error, at
most 10 of them, ordered by frequency descending; every row is a pair of
counterparty and amount that at least 2 non-shadow transactions have, its
frequency is the number of those transactions and its timestamps are their time
values joined by commas; the days between the occurrences are not examined.
Every pair that at least 2 non-shadow transactions have is reported, unless 10
rows are reported already. -/
theorem detectSubscriptions_reports_repeated_pairs (eng : Engine) (db : Db) :
    ∃ rs, executeTool eng db .detectSubscriptions = .subscriptions rs ∧
      rs.length ≤ 10 ∧
      rs.Sorted (fun a b => b.frequency ≤ a.frequency) ∧
      (∀ r ∈ rs, 2 ≤ r.frequency ∧
        r.frequency = (db.transactions.filter (fun t => notShadow t &&
          decide (t.peer = r.peer ∧ t.amount = r.amount))).length ∧
        r.timestamps = groupConcat ((db.transactions.filter (fun t => notShadow t &&
          decide (t.peer = r.peer ∧ t.amount = r.amount))).filterMap (fun t => sqlText eng t.time))) ∧
      (∀ (p a : SqlVal), 2 ≤ (db.transactions.filter (fun t => notShadow t &&
          decide (t.peer = p ∧ t.amount = a))).length →
        (∃ r ∈ rs, r.peer = p ∧ r.amount = a) ∨ rs.length = 10) := by
  obtain ⟨_, hcov, hgrp⟩ := groupBy_spec (fun r : TxRow => (r.peer, r.amount))
    (db.transactions.filter notShadow)
  have hitems : ∀ g ∈ groupBy (fun r : TxRow => (r.peer, r.amount)) (db.transactions.filter notShadow),
      g.2 = db.transactions.filter (fun t => notShadow t &&
        decide (t.peer = g.1.1 ∧ t.amount = g.1.2)) := by
    intro g hg
    rw [(hgrp g hg).1, List.filter_filter]
    apply List.filter_congr
    intro t _
    rw [Bool.and_comm]
    congr 1
    simp [Prod.ext_iff]
  refine ⟨_, rfl, ?_, ?_, ?_, ?_⟩
  · rw [List.length_take]
    exact Nat.min_le_left _ _
  · exact (sortBy_frequency_sorted _).sublist (List.take_sublist _ _)
  · intro r hr
    have hr1 := (sortBy_perm _ _).mem_iff.1 (List.mem_of_mem_take hr)
    obtain ⟨hr2, h2⟩ := List.mem_filter.1 hr1
    obtain ⟨g, hg, rfl⟩ := List.mem_map.1 hr2
    simp only [decide_eq_true_eq] at h2
    refine ⟨h2, ?_, ?_⟩
    · simp only
      rw [← hitems g hg]
    · simp only
      rw [← hitems g hg]
  · intro p a h2
    have hne : db.transactions.filter (fun t => notShadow t &&
        decide (t.peer = p ∧ t.amount = a)) ≠ [] := by
      intro h0
      rw [h0] at h2
      simp at h2
    obtain ⟨t, ht⟩ := List.exists_mem_of_ne_nil _ hne
    obtain ⟨ht1, ht2⟩ := List.mem_filter.1 ht
    simp only [Bool.and_eq_true, decide_eq_true_eq] at ht2
    obtain ⟨g, hg, hg1⟩ := List.mem_map.1 (hcov t (List.mem_filter.2 ⟨ht1, ht2.1⟩))
    have hgp : g.1 = (p, a) := by rw [hg1, ← ht2.2.1, ← ht2.2.2]
    have hlen : 2 ≤ g.2.length := by
      rw [hitems g hg, hgp]
      exact h2
    have hx : (⟨g.1.1, g.1.2, g.2.length,
        groupConcat (g.2.filterMap (fun r => sqlText eng r.time))⟩ : SubRow) ∈
        sortBy (fun a b : SubRow => decide (b.frequency ≤ a.frequency))
          (((groupBy (fun r : TxRow => (r.peer, r.amount)) (db.transactions.filter notShadow)).map
            (fun g => (⟨g.1.1, g.1.2, g.2.length,
              groupConcat (g.2.filterMap (fun r => sqlText eng r.time))⟩ : SubRow))).filter
            (fun g => decide (2 ≤ g.frequency))) := by
      apply (sortBy_perm _ _).mem_iff.2
      apply List.mem_filter.2
      refine ⟨List.mem_map.2 ⟨g, hg, rfl⟩, ?_⟩
      simpa using hlen
    rcases mem_take_or_full 10 _ _ hx with hin | hfull
    · left
      exact ⟨_, hin, by simp [hgp], by simp [hgp]⟩
    · right
      exact hfull

/-- Witness of `detectSubscriptions_reports_repeated_pairs`: on the store of
the two Netflix charges 20 days apart. -/
theorem detectSubscriptions_reports_repeated_pairs_witness :
    ∃ rs, executeTool engineDecimal dbTwentyDays .detectSubscriptions = .subscriptions rs ∧
      rs.length ≤ 10 :=
  let ⟨rs, h, hlen, _⟩ := detectSubscriptions_reports_repeated_pairs engineDecimal dbTwentyDays
  ⟨rs, h, hlen⟩

/-! ## The tool executor `queryTransactions` -/

theorem anySuffix_iff (f : Str → Bool) (s : Str) :
    anySuffix f s = true ↔ ∃ pre suf, s = pre ++ suf ∧ f suf = true := by
  induction s with
  | nil =>
    simp only [anySuffix]
    constructor
    · intro h
      exact ⟨[], [], rfl, h⟩
    · rintro ⟨pre, suf, hs, hf⟩
      obtain ⟨-, rfl⟩ := List.append_eq_nil.1 hs.symm
      exact hf
  | cons c rest ih =>
    simp only [anySuffix, Bool.or_eq_true, ih]
    constructor
    · rintro (h | ⟨pre, suf, hs, hf⟩)
      · exact ⟨[], c :: rest, rfl, h⟩
      · exact ⟨c :: pre, suf, by rw [hs]; rfl, hf⟩
    · rintro ⟨pre, suf, hs, hf⟩
      cases pre with
      | nil =>
        left
        rw [hs]
        exact hf
      | cons d pre1 =>
        right
        simp only [List.cons_append, List.cons.injEq] at hs
        exact ⟨pre1, suf, hs.2, hf⟩

theorem likeMatch_literal (m : Str) (hm : ∀ c ∈ m, c ≠ '%' ∧ c ≠ '_') (s : Str) :
    likeMatch (m ++ ['%']) s = true ↔ ∃ t u, s = t ++ u ∧ t.map lowerNat = m.map lowerNat := by
  induction m generalizing s with
  | nil =>
    constructor
    · intro _
      exact ⟨[], s, rfl, rfl⟩
    · intro _
      simp only [List.nil_append, likeMatch, beq_self_eq_true, if_true]
      exact (anySuffix_iff _ s).2 ⟨s, [], by simp, rfl⟩
  | cons c m1 ih =>
    have hc := hm c (List.mem_cons_self _ _)
    have hm1 : ∀ d ∈ m1, d ≠ '%' ∧ d ≠ '_' := fun d hd => hm d (List.mem_cons_of_mem _ hd)
    cases s with
    | nil =>
      simp [likeMatch, hc.1]
    | cons d ds =>
      have h1 : (c == '%') = false := beq_eq_false_iff_ne.2 hc.1
      have h2 : (c == '_') = false := beq_eq_false_iff_ne.2 hc.2
      have hstep : likeMatch (c :: m1 ++ ['%']) (d :: ds) =
          ((lowerNat c == lowerNat d) && likeMatch (m1 ++ ['%']) ds) := by
        simp only [List.cons_append, likeMatch, h1, h2, Bool.false_or, Bool.false_eq_true, if_false]
        rfl
      rw [hstep, Bool.and_eq_true, beq_iff_eq, ih hm1]
      constructor
      · rintro ⟨hcd, t, u, hs, ht⟩
        exact ⟨d :: t, u, by rw [hs]; rfl, by simp [ht, hcd]⟩
      · rintro ⟨t, u, hs, ht⟩
        cases t with
        | nil => simp at ht
        | cons e t1 =>
          simp only [List.cons_append, List.cons.injEq] at hs
          simp only [List.map_cons, List.cons.injEq] at ht
          exact ⟨by rw [hs.1]; exact ht.1.symm, t1, u, hs.2, ht.2⟩

/-- The pattern `%m%` for a text `m` without `%` and `_`: the value contains
`m` as a substring, up to the case of ASCII letters. -/
theorem likeMatch_contains (m : Str) (hm : ∀ c ∈ m, c ≠ '%' ∧ c ≠ '_') (s : Str) :
    likeMatch ('%' :: m ++ ['%']) s = true ↔ ∃ t, t <:+: s ∧ t.map lowerNat = m.map lowerNat := by
  have h0 : likeMatch ('%' :: m ++ ['%']) s = anySuffix (likeMatch (m ++ ['%'])) s := by
    simp [likeMatch]
  rw [h0, anySuffix_iff]
  constructor
  · rintro ⟨pre, suf, hs, hf⟩
    obtain ⟨t, u, hsuf, ht⟩ := (likeMatch_literal m hm suf).1 hf
    exact ⟨t, ⟨pre, u, by rw [hs, hsuf, List.append_assoc]⟩, ht⟩
  · rintro ⟨t, ⟨pre, u, hs⟩, ht⟩
    exact ⟨pre, t ++ u, by rw [← hs, List.append_assoc], (likeMatch_literal m hm _).2 ⟨t, u, rfl, ht⟩⟩

theorem optFilter_some {α : Type} {truthy : α → Bool} {cond : α → TxRow → Bool} {a : α}
    {r : TxRow} (h : optFilter (some a) truthy cond r = true) (ht : truthy a = true) :
    cond a r = true := by
  simpa [optFilter, ht] using h

theorem sqlLimit_length {α : Type} {limit : ℚ} {rows rs : List α}
    (h : sqlLimit limit rows = some rs) (h0 : 0 ≤ limit) : (rs.length : ℚ) ≤ limit := by
  unfold sqlLimit at h
  by_cases hok : limit.den = 1 ∧ -(2 : ℚ) ^ 63 < limit ∧ limit < (2 : ℚ) ^ 63
  · have hden := hok.1
    rw [if_pos hok, if_neg (not_lt.2 h0)] at h
    cases h
    have hnum : 0 ≤ limit.num := Rat.num_nonneg.2 h0
    have hlen : (rows.take limit.num.toNat).length ≤ limit.num.toNat := by
      rw [List.length_take]
      exact Nat.min_le_left _ _
    have hz : (((rows.take limit.num.toNat).length : ℕ) : ℤ) ≤ limit.num := by
      have := Int.toNat_of_nonneg hnum
      omega
    have hq : (limit.num : ℚ) = limit := Rat.coe_int_num_of_den_eq_one hden
    rw [← hq]
    exact_mod_cast hz
  · rw [if_neg hok] at h
    cases h

theorem sqlLimit_sublist {α : Type} {limit : ℚ} {rows rs : List α}
    (h : sqlLimit limit rows = some rs) : rs.Sublist rows := by
  unfold sqlLimit at h
  by_cases hok : limit.den = 1 ∧ -(2 : ℚ) ^ 63 < limit ∧ limit < (2 : ℚ) ^ 63
  · rw [if_pos hok] at h
    by_cases hneg : limit < 0
    · rw [if_pos hneg] at h
      cases h
      exact List.Sublist.refl _
    · rw [if_neg hneg] at h
      cases h
      exact List.take_sublist _ _
  · rw [if_neg hok] at h
    cases h

theorem sqlLimit_isSome_iff {α : Type} (limit : ℚ) (rows : List α) :
    (∃ rs, sqlLimit limit rows = some rs) ↔
      limit.den = 1 ∧ -(2 : ℚ) ^ 63 < limit ∧ limit < (2 : ℚ) ^ 63 := by
  unfold sqlLimit
  by_cases hok : limit.den = 1 ∧ -(2 : ℚ) ^ 63 < limit ∧ limit < (2 : ℚ) ^ 63
  · rw [if_pos hok]
    by_cases hneg : limit < 0
    · rw [if_pos hneg]
      exact ⟨fun _ => hok, fun _ => ⟨_, rfl⟩⟩
    · rw [if_neg hneg]
      exact ⟨fun _ => hok, fun _ => ⟨_, rfl⟩⟩
  · rw [if_neg hok]
    constructor
    · rintro ⟨rs, h⟩
      cases h
    · intro h
      exact absurd h hok

theorem queryTransactions_eq_rows {eng : Engine} {db : Db} {args : QueryArgs} {rs : List TxRow}
    (h : executeTool eng db (.queryTransactions args) = .rows rs) :
    sqlLimit (limitOr args.limit 50)
      (sortBy (fun a b => sqlLe b.time a.time) (db.transactions.filter (queryWhere eng args))) =
      some rs := by
  simp only [executeTool] at h
  split at h
  · rename_i rs1 heq
    cases h
    exact heq
  · cases h

/-- Counterexample to claim C23 as stated. With merchant `a_c` the tool returns
the transaction of counterparty `abc`, which does not contain `a_c` (the
underscore of the argument is a wildcard of LIKE); with limit 0 it returns two
rows (a limit of 0 is replaced by 50). -/
theorem queryTransactions_wildcard_limit_counterexample :
    executeTool sampleEngine dbAbcXyz
        (.queryTransactions { queryNone with merchant := some "a_c".toList }) =
      .rows [mkRow "Q1" "abc" "支出" 12 "成功"] ∧
    includes "abc".toList "a_c".toList = false ∧
    executeTool sampleEngine dbAbcXyz (.queryTransactions { queryNone with limit := some 0 }) =
      .rows [mkRow "Q1" "abc" "支出" 12 "成功", mkRow "Q2" "xyz" "支出" 15 "成功"] := by
  decide!

/-- Claim C23, amended. `queryTransactions` returns rows when the limit in
force (`args.limit`, or 50 when it is omitted or 0) is an integer strictly
between -2^63 and 2^63, and the error object otherwise (a limit with a
fractional part, or an integer that does not fit 64 bits, is a datatype
mismatch); with no limit given it returns rows. Every returned row is a stored non-shadow transaction that
satisfies every filter whose argument is truthy (a merchant, category or date
that is the empty text and an amount bound of 0 are not applied): its
counterparty matches the LIKE pattern `%merchant%`, which for a merchant
without `%` and `_` means that it contains the merchant up to the case of ASCII
letters; its category equals `category`; its amount is at least `minAmount` and
at most `maxAmount`; its time is at least the instant of `startDate` and below
the instant of `endDate` plus one day. The rows are ordered by time descending,
and they number at most the limit in force when that is not negative. -/
theorem queryTransactions_rows_satisfy_filters (eng : Engine) (db : Db) (args : QueryArgs) :
    (((limitOr args.limit 50).den = 1 ∧ -(2 : ℚ) ^ 63 < limitOr args.limit 50 ∧
        limitOr args.limit 50 < (2 : ℚ) ^ 63) →
      ∃ rs, executeTool eng db (.queryTransactions args) = .rows rs) ∧
    (¬ ((limitOr args.limit 50).den = 1 ∧ -(2 : ℚ) ^ 63 < limitOr args.limit 50 ∧
        limitOr args.limit 50 < (2 : ℚ) ^ 63) →
      executeTool eng db (.queryTransactions args) = .error) ∧
    (args.limit = none → ∃ rs, executeTool eng db (.queryTransactions args) = .rows rs) ∧
    ∀ rs, executeTool eng db (.queryTransactions args) = .rows rs →
      rs.Sorted (fun a b => sqlLe b.time a.time = true) ∧
      (0 ≤ limitOr args.limit 50 → (rs.length : ℚ) ≤ limitOr args.limit 50) ∧
      (args.limit = none → rs.length ≤ 50) ∧
      ∀ r ∈ rs, r ∈ db.transactions ∧ notShadow r = true ∧
        (∀ m, args.merchant = some m → m ≠ [] →
          sqlLike eng r.peer ('%' :: m ++ ['%']) = true ∧
          ∀ s, r.peer = .text s → (∀ c ∈ m, c ≠ '%' ∧ c ≠ '_') →
            ∃ t, t <:+: s ∧ t.map lowerNat = m.map lowerNat) ∧
        (∀ c, args.category = some c → c ≠ [] → r.category = .text c) ∧
        (∀ q, args.minAmount = some q → q ≠ 0 →
          sqlGe r.amount (.num q) = true ∧ ∀ a, r.amount = .num a → q ≤ a) ∧
        (∀ q, args.maxAmount = some q → q ≠ 0 →
          sqlGe (.num q) r.amount = true ∧ ∀ a, r.amount = .num a → a ≤ q) ∧
        (∀ d, args.startDate = some d → d ≠ [] →
          ∃ t0, eng.dateParse d = some t0 ∧ ∀ t, r.time = .num t → ((t0 : ℤ) : ℚ) ≤ t) ∧
        (∀ d, args.endDate = some d → d ≠ [] →
          ∃ t0, eng.dateParse d = some t0 ∧
            ∀ t, r.time = .num t → t < (((t0 + 86400000 : ℤ)) : ℚ)) := by
  have hrows : ((limitOr args.limit 50).den = 1 ∧ -(2 : ℚ) ^ 63 < limitOr args.limit 50 ∧
        limitOr args.limit 50 < (2 : ℚ) ^ 63) →
      ∃ rs, executeTool eng db (.queryTransactions args) = .rows rs := by
    intro hok
    obtain ⟨rs, hrs⟩ := (sqlLimit_isSome_iff (limitOr args.limit 50)
      (sortBy (fun a b => sqlLe b.time a.time)
        (db.transactions.filter (queryWhere eng args)))).2 hok
    exact ⟨rs, by simp only [executeTool, hrs]⟩
  refine ⟨hrows, ?_, ?_, ?_⟩
  · intro hok
    have hnone : sqlLimit (limitOr args.limit 50)
        (sortBy (fun a b => sqlLe b.time a.time)
          (db.transactions.filter (queryWhere eng args))) = none := by
      unfold sqlLimit
      rw [if_neg hok]
    simp only [executeTool, hnone]
  · intro hno
    apply hrows
    have h50 : limitOr args.limit 50 = 50 := by rw [hno]; rfl
    rw [h50]
    refine ⟨rfl, ?_, ?_⟩ <;> norm_num
  · intro rs hrs
    have hlim := queryTransactions_eq_rows hrs
    have hsub := sqlLimit_sublist hlim
    refine ⟨?_, ?_, ?_, ?_⟩
    · exact (sortBy_sorted (fun a b : TxRow => sqlLe b.time a.time)
        (fun a b => sqlLe_total b.time a.time)
        (fun _ _ _ h1 h2 => sqlLe_trans _ _ _ h2 h1) _).sublist hsub
    · exact sqlLimit_length hlim
    · intro hno
      have h50 : limitOr args.limit 50 = 50 := by rw [hno]; rfl
      have := sqlLimit_length hlim (by rw [h50]; norm_num)
      rw [h50] at this
      exact_mod_cast this
    · intro r hr
      have hmem := (sortBy_perm _ _).mem_iff.1 (hsub.subset hr)
      obtain ⟨hdb, hw⟩ := List.mem_filter.1 hmem
      simp only [queryWhere, Bool.and_eq_true] at hw
      obtain ⟨⟨⟨⟨⟨⟨hs, hm⟩, hc⟩, hmin⟩, hmax⟩, hstart⟩, hend⟩ := hw
      refine ⟨hdb, hs, ?_, ?_, ?_, ?_, ?_, ?_⟩
      · intro m hm1 hne
        rw [hm1] at hm
        have hlike := optFilter_some hm (by cases m <;> simp_all)
        refine ⟨hlike, ?_⟩
        intro s hpeer hwild
        rw [hpeer] at hlike
        exact (likeMatch_contains m hwild s).1 hlike
      · intro c hc1 hne
        rw [hc1] at hc
        have h := optFilter_some hc (by cases c <;> simp_all)
        simp only [sqlEq, Bool.and_eq_true, beq_iff_eq] at h
        exact h.2
      · intro q hq hne
        rw [hq] at hmin
        have h := optFilter_some hmin (by simpa using hne)
        refine ⟨h, ?_⟩
        intro a ha
        rw [ha] at h
        simpa [sqlGe, sqlLe] using h
      · intro q hq hne
        rw [hq] at hmax
        have h := optFilter_some hmax (by simpa using hne)
        refine ⟨h, ?_⟩
        intro a ha
        rw [ha] at h
        simpa [sqlGe, sqlLe] using h
      · intro d hd hne
        rw [hd] at hstart
        have h := optFilter_some hstart (by cases d <;> simp_all)
        cases hp : eng.dateParse d with
        | none => simp [dateParam, hp, sqlGe] at h
        | some t0 =>
          refine ⟨t0, rfl, ?_⟩
          intro t ht
          rw [ht] at h
          simpa [dateParam, hp, sqlGe, sqlLe] using h
      · intro d hd hne
        rw [hd] at hend
        have h := optFilter_some hend (by cases d <;> simp_all)
        cases hp : eng.dateParse d with
        | none => simp [dateParam, hp, sqlLt] at h
        | some t0 =>
          refine ⟨t0, rfl, ?_⟩
          intro t ht
          rw [ht] at h
          simpa [dateParam, hp, sqlLt, sqlLe] using h

/-- Witness of `queryTransactions_rows_satisfy_filters`: the query for the
merchant `abc` on the store of the counterparties `abc` and `xyz` returns rows,
at most 50; the query with the limit 10^30 returns the error object. -/
theorem queryTransactions_rows_satisfy_filters_witness :
    (∃ rs, executeTool sampleEngine dbAbcXyz
        (.queryTransactions { queryNone with merchant := some "abc".toList }) = .rows rs ∧
      rs.length ≤ 50) ∧
    executeTool sampleEngine dbAbcXyz
      (.queryTransactions { queryNone with limit := some ((10 : ℚ) ^ 30) }) = .error :=
  ⟨let h := queryTransactions_rows_satisfy_filters sampleEngine dbAbcXyz
      { queryNone with merchant := some "abc".toList }
    let ⟨rs, hrs⟩ := h.2.2.1 rfl
    ⟨rs, hrs, (h.2.2.2 rs hrs).2.2.1 rfl⟩,
   (queryTransactions_rows_satisfy_filters sampleEngine dbAbcXyz
      { queryNone with limit := some ((10 : ℚ) ^ 30) }).2.1 (by
        intro h
        have h3 : limitOr (some ((10 : ℚ) ^ 30)) 50 = (10 : ℚ) ^ 30 := by
          simp [limitOr]
        have h4 := h.2.2
        change limitOr (some ((10 : ℚ) ^ 30)) 50 < (2 : ℚ) ^ 63 at h4
        rw [h3] at h4
        norm_num at h4)⟩

/-! ## Direction, ids and status of extracted records -/

theorem mapRow_some_fields {env : Env} {platform : Str} {cfg : Cfg} {i : ℕ} {r : Row}
    {b : BillRecord} (h : mapRow env platform cfg i r = some b) :
    b.id = ((r.get cfg.id).orElse (.num (env.now i + env.random i))).toStr env.numToString ∧
    b.amount = inlineAmount env.numToString (r.get cfg.amt) ∧
    b.type = (r.get cfg.type).orElse (.str "支出".toList) := by
  unfold mapRow at h
  by_cases ht : (r.get cfg.time).truthy = true
  · cases hd : env.dayjs (replaceSlash ((r.get cfg.time).toStr env.numToString)) with
    | none => simp [ht, hd] at h
    | some d =>
      simp only [ht, hd, Bool.not_true, Bool.false_eq_true, if_false, Option.some.injEq] at h
      subst h
      exact ⟨rfl, rfl, rfl⟩
  · simp [ht] at h

theorem extractBills_mem_iff {env : Env} {sheet : Sheet} {b : BillRecord} :
    b ∈ extractBills env sheet ↔
      (∃ i r, (i, r) ∈ (sheet.json (detect sheet).2.range).enum ∧
        mapRow env (detect sheet).1 (detect sheet).2 i r = some b) ∧
      b.amount.isPos = true ∧ (b.type = .str "支出".toList ∨ b.type = .str "转账".toList) := by
  rw [extractBills_eq_filter, List.mem_filter, List.mem_filterMap, Bool.and_eq_true,
    isExpenseOrTransfer_iff]
  constructor
  · rintro ⟨⟨⟨i, r⟩, hmem, hmap⟩, hkeep⟩
    exact ⟨⟨i, r, hmem, hmap⟩, hkeep⟩
  · rintro ⟨⟨i, r, hmem, hmap⟩, hkeep⟩
    exact ⟨⟨(i, r), hmem, hmap⟩, hkeep⟩

/-- Counterexample to claim C25 as stated: the row has no direction column
and the amount 35.00, and `extractBills` returns its record, with the direction
`支出`. -/
theorem extractBills_keeps_row_without_direction_counterexample :
    sampleRowNoDirection.get alipayCfg.type = .undefined ∧
    extractBills sampleEnv sheetNoDirection =
      [{ id := "A7".toList, platform := "alipay".toList, time := 1704103200000,
         date_str := "2024-01-01".toList, hour := 10, category := .str "其它".toList,
         peer := .str "面馆".toList, item := .str "/".toList, amount := .fin 35,
         type := .str "支出".toList, method := "手动导入".toList }] := by
  decide!

/-- Claim C25, amended. For a row of the sheet that the callback maps to a
record: a record whose amount is not positive is excluded from the result; a
row whose direction cell is absent or empty (falsy) gets the direction `支出`
and its record is in the result exactly when its amount is positive; a row
with a direction is in the result exactly when its amount is positive and the
direction is `支出` or `转账`. -/
theorem extractBills_direction_defaults_to_expense (env : Env) (sheet : Sheet) (i : ℕ) (r : Row)
    (b : BillRecord) (hmem : (i, r) ∈ (sheet.json (detect sheet).2.range).enum)
    (hmap : mapRow env (detect sheet).1 (detect sheet).2 i r = some b) :
    b.amount = inlineAmount env.numToString (r.get (detect sheet).2.amt) ∧
    (b.amount.isPos = false → b ∉ extractBills env sheet) ∧
    ((r.get (detect sheet).2.type).truthy = false →
      b.type = .str "支出".toList ∧ (b ∈ extractBills env sheet ↔ b.amount.isPos = true)) ∧
    ((r.get (detect sheet).2.type).truthy = true →
      b.type = r.get (detect sheet).2.type ∧
      (b ∈ extractBills env sheet ↔ b.amount.isPos = true ∧
        (r.get (detect sheet).2.type = .str "支出".toList ∨
          r.get (detect sheet).2.type = .str "转账".toList))) := by
  obtain ⟨-, hamt, htype⟩ := mapRow_some_fields hmap
  refine ⟨hamt, ?_, ?_, ?_⟩
  · intro hpos hin
    have := (extractBills_mem_iff.1 hin).2.1
    rw [hpos] at this
    exact Bool.noConfusion this
  · intro hfalsy
    have hty : b.type = .str "支出".toList := by
      rw [htype]
      simp [JsVal.orElse, hfalsy]
    refine ⟨hty, ?_⟩
    rw [extractBills_mem_iff]
    constructor
    · intro h
      exact h.2.1
    · intro h
      exact ⟨⟨i, r, hmem, hmap⟩, h, Or.inl hty⟩
  · intro htruthy
    have hty : b.type = r.get (detect sheet).2.type := by
      rw [htype]
      simp [JsVal.orElse, htruthy]
    refine ⟨hty, ?_⟩
    rw [extractBills_mem_iff, hty]
    constructor
    · intro h
      exact h.2
    · intro h
      exact ⟨⟨i, r, hmem, hmap⟩, h⟩

/-- Witness of `extractBills_direction_defaults_to_expense`: the row without
direction column, of amount 35.00. -/
theorem extractBills_direction_defaults_to_expense_witness :
    ∃ b, mapRow sampleEnv (detect sheetNoDirection).1 (detect sheetNoDirection).2 0
        sampleRowNoDirection = some b ∧
      b.type = .str "支出".toList ∧ b ∈ extractBills sampleEnv sheetNoDirection :=
  ⟨{ id := "A7".toList, platform := "alipay".toList, time := 1704103200000,
     date_str := "2024-01-01".toList, hour := 10, category := .str "其它".toList,
     peer := .str "面馆".toList, item := .str "/".toList, amount := .fin 35,
     type := .str "支出".toList, method := "手动导入".toList },
   by decide!,
   ((extractBills_direction_defaults_to_expense sampleEnv sheetNoDirection 0 sampleRowNoDirection
      _ (by decide!) (by decide!)).2.2.1 (by decide!)).1,
   ((extractBills_direction_defaults_to_expense sampleEnv sheetNoDirection 0 sampleRowNoDirection
      _ (by decide!) (by decide!)).2.2.1 (by decide!)).2.2 (by decide!)⟩

/-- Counterexample to claim C26 as stated: two different rows without order
number, mapped while the clock and the random generator return the same values,
get the same id. -/
theorem extractBills_synthesized_ids_collide_counterexample :
    sampleRowNoId.get alipayCfg.id = .undefined ∧
    sampleRowNoId2.get alipayCfg.id = .undefined ∧
    (extractBills envFrozenClock sheetTwoNoId).map (fun b => (b.id, b.peer)) =
      [("1700000000000.5".toList, .str "面馆".toList),
       ("1700000000000.5".toList, .str "书店".toList)] := by
  decide!

/-- Claim C26, amended. Every record of the result comes from a row of the
sheet; when the row carries a source id (a truthy cell) the record id is the
text of that cell, the cell itself when it is a string; when it carries none,
the id is the printed sum of the clock and the random value of that call. Two
records of rows without source id, of the same or of different calls, have the
same id exactly when the printed sums are the same, so they are distinct only
if the sums of clock and random value differ. -/
theorem extractBills_ids_from_source_or_clock (env : Env) (sheet : Sheet) :
    (∀ b ∈ extractBills env sheet, ∃ i r,
      (i, r) ∈ (sheet.json (detect sheet).2.range).enum ∧
      mapRow env (detect sheet).1 (detect sheet).2 i r = some b ∧
      ((r.get (detect sheet).2.id).truthy = true →
        b.id = (r.get (detect sheet).2.id).toStr env.numToString) ∧
      (∀ s, r.get (detect sheet).2.id = .str s → s ≠ [] → b.id = s) ∧
      ((r.get (detect sheet).2.id).truthy = false →
        b.id = env.numToString (env.now i + env.random i))) ∧
    (∀ (env2 : Env) (p1 p2 : Str) (c1 c2 : Cfg) (i j : ℕ) (r1 r2 : Row) (b1 b2 : BillRecord),
      mapRow env p1 c1 i r1 = some b1 → mapRow env2 p2 c2 j r2 = some b2 →
      (r1.get c1.id).truthy = false → (r2.get c2.id).truthy = false →
      (b1.id = b2.id ↔
        env.numToString (env.now i + env.random i) =
          env2.numToString (env2.now j + env2.random j)) ∧
      (env2.numToString = env.numToString →
        env.now i + env.random i = env2.now j + env2.random j → b1.id = b2.id)) := by
  have hfalsy : ∀ (e : Env) (p : Str) (c : Cfg) (i : ℕ) (r : Row) (b : BillRecord),
      mapRow e p c i r = some b → (r.get c.id).truthy = false →
      b.id = e.numToString (e.now i + e.random i) := by
    intro e p c i r b h hf
    rw [(mapRow_some_fields h).1]
    simp [JsVal.orElse, hf, JsVal.toStr]
  refine ⟨?_, ?_⟩
  · intro b hb
    obtain ⟨⟨i, r, hmem, hmap⟩, -⟩ := extractBills_mem_iff.1 hb
    have hid := (mapRow_some_fields hmap).1
    refine ⟨i, r, hmem, hmap, ?_, ?_, hfalsy _ _ _ _ _ _ hmap⟩
    · intro ht
      rw [hid]
      simp [JsVal.orElse, ht]
    · intro s hs hne
      rw [hid, hs]
      cases s with
      | nil => exact absurd rfl hne
      | cons c rest => simp [JsVal.orElse, JsVal.truthy, JsVal.toStr]
  · intro env2 p1 p2 c1 c2 i j r1 r2 b1 b2 h1 h2 hf1 hf2
    rw [hfalsy _ _ _ _ _ _ h1 hf1, hfalsy _ _ _ _ _ _ h2 hf2]
    refine ⟨Iff.rfl, ?_⟩
    intro hprint hsum
    rw [hprint, hsum]

/-- Witness of `extractBills_ids_from_source_or_clock`: the records of the two
rows without order number, mapped with the same clock and random value, have
the same id. -/
theorem extractBills_ids_from_source_or_clock_witness :
    mapRow envFrozenClock "alipay".toList alipayCfg 0 sampleRowNoId =
      some { id := "1700000000000.5".toList, platform := "alipay".toList, time := 1704103200000,
             date_str := "2024-01-01".toList, hour := 10, category := .str "其它".toList,
             peer := .str "面馆".toList, item := .str "/".toList, amount := .fin 35,
             type := .str "支出".toList, method := "手动导入".toList } ∧
    mapRow envFrozenClock "alipay".toList alipayCfg 1 sampleRowNoId2 =
      some { id := "1700000000000.5".toList, platform := "alipay".toList, time := 1704103200000,
             date_str := "2024-01-01".toList, hour := 10, category := .str "其它".toList,
             peer := .str "书店".toList, item := .str "/".toList, amount := .fin 20,
             type := .str "支出".toList, method := "手动导入".toList } ∧
    ("1700000000000.5".toList = "1700000000000.5".toList ↔
      envFrozenClock.numToString (envFrozenClock.now 0 + envFrozenClock.random 0) =
        envFrozenClock.numToString (envFrozenClock.now 1 + envFrozenClock.random 1)) :=
  ⟨by decide!, by decide!,
   ((extractBills_ids_from_source_or_clock envFrozenClock sheetTwoNoId).2 envFrozenClock
      "alipay".toList "alipay".toList alipayCfg alipayCfg 0 1 sampleRowNoId sampleRowNoId2
      { id := "1700000000000.5".toList, platform := "alipay".toList, time := 1704103200000,
        date_str := "2024-01-01".toList, hour := 10, category := .str "其它".toList,
        peer := .str "面馆".toList, item := .str "/".toList, amount := .fin 35,
        type := .str "支出".toList, method := "手动导入".toList }
      { id := "1700000000000.5".toList, platform := "alipay".toList, time := 1704103200000,
        date_str := "2024-01-01".toList, hour := 10, category := .str "其它".toList,
        peer := .str "书店".toList, item := .str "/".toList, amount := .fin 20,
        type := .str "支出".toList, method := "手动导入".toList }
      (by decide!) (by decide!) (by decide!) (by decide!)).1⟩

/-! ## From the extraction to the store -/

theorem regexTest_movement_transfer :
    regexTest movementWords (.str "转账".toList) = true := by
  decide

theorem isInternal_of_transfer {bill : Bill} (h : bill.type = .str "转账".toList) :
    isInternal bill = true := by
  unfold isInternal
  rw [h, regexTest_movement_transfer]
  rfl

theorem classify_type (bill : Bill) : (classify bill).type = bill.type := by
  unfold classify
  split_ifs <;> rfl

theorem classify_status_of_internal {bill : Bill} (h : isInternal bill = true) :
    (classify bill).status = .str "shadow".toList := by
  unfold classify
  rw [if_pos h]

theorem classify_status_of_not_internal {bill : Bill} (h : isInternal bill = false) :
    (classify bill).status = bill.status.orElse (.str "成功".toList) := by
  unfold classify
  rw [if_neg (by rw [h]; exact Bool.false_ne_true)]

theorem bind_str {s : Str} {x : SqlVal} (h : bind (.str s) = some x) : x = .text s := by
  simp only [bind, Option.some.injEq] at h
  exact h.symm

/-- The row bound from an extracted record: a transfer is stored as shadow, and
a row that is not shadow is an expense with the status `成功`. -/
theorem extracted_row_status {env : Env} {sheet : Sheet} {r : BillRecord}
    (hr : r ∈ extractBills env sheet) {row : TxRow}
    (hrow : bindBill (classify (toBill r)) = some row) :
    row.id = .text r.id ∧
    (r.type = .str "转账".toList → row.status = .text "shadow".toList) ∧
    (row.status ≠ .text "shadow".toList →
      r.type = .str "支出".toList ∧ row.type = .text "支出".toList ∧
      row.status = .text "成功".toList) := by
  obtain ⟨hid, -, -, -, -, -, -, -, -, htype, -, hstatus⟩ := bindBill_fields hrow
  rw [classify_id] at hid
  rw [classify_type] at htype
  have hkept := (extractBills_mem_kept hr).2
  refine ⟨bind_str hid, ?_, ?_⟩
  · intro ht
    rw [classify_status_of_internal (isInternal_of_transfer ht)] at hstatus
    exact bind_str hstatus
  · intro hns
    cases hint : isInternal (toBill r) with
    | true =>
      rw [classify_status_of_internal hint] at hstatus
      exact absurd (bind_str hstatus) hns
    | false =>
      have hty : r.type = .str "支出".toList := by
        rcases hkept with h | h
        · exact h
        · rw [isInternal_of_transfer h] at hint
          exact Bool.noConfusion hint
      rw [classify_status_of_not_internal hint] at hstatus
      have htype2 : bind (.str "支出".toList) = some row.type := by
        rw [← hty]; exact htype
      exact ⟨hty, bind_str htype2, bind_str hstatus⟩

theorem mem_uploadBody {files : List (Env × Sheet)} {bill : Bill} :
    bill ∈ uploadBody files ↔
      ∃ f ∈ files, ∃ r ∈ extractBills f.1 f.2, bill = toBill r := by
  simp only [uploadBody, List.mem_map, List.mem_flatten]
  constructor
  · rintro ⟨r, ⟨l, ⟨f, hf, rfl⟩, hr⟩, rfl⟩
    exact ⟨f, hf, r, hr, rfl⟩
  · rintro ⟨f, hf, r, hr, rfl⟩
    exact ⟨r, ⟨_, ⟨f, hf, rfl⟩, hr⟩, rfl⟩

theorem bindBill_of_binds {bill : Bill} {v1 v2 v3 v4 v5 v6 v7 v8 v9 v10 v11 v12 : SqlVal}
    (h1 : bind bill.id = some v1) (h2 : bind bill.platform = some v2)
    (h3 : bind bill.time = some v3) (h4 : bind bill.date_str = some v4)
    (h5 : bind bill.hour = some v5) (h6 : bind bill.category = some v6)
    (h7 : bind bill.peer = some v7) (h8 : bind bill.item = some v8)
    (h9 : bind bill.amount = some v9) (h10 : bind bill.type = some v10)
    (h11 : bind bill.method = some v11) (h12 : bind bill.status = some v12) :
    bindBill bill = some ⟨v1, v2, v3, v4, v5, v6, v7, v8, v9, v10, v11, v12⟩ := by
  unfold bindBill
  rw [h1, h2, h3, h4, h5, h6, h7, h8, h9, h10, h11, h12]
  rfl

theorem classify_frame (bill : Bill) :
    (classify bill).platform = bill.platform ∧ (classify bill).time = bill.time ∧
    (classify bill).date_str = bill.date_str ∧ (classify bill).hour = bill.hour ∧
    (classify bill).category = bill.category ∧ (classify bill).peer = bill.peer ∧
    (classify bill).item = bill.item ∧ (classify bill).method = bill.method := by
  unfold classify
  split_ifs <;> exact ⟨rfl, rfl, rfl, rfl, rfl, rfl, rfl, rfl⟩

theorem bind_jsonNum (x : JsNum) : ∃ a, bind (jsonNum x) = some a := by
  cases x with
  | nan => exact ⟨_, rfl⟩
  | inf negative => exact ⟨_, rfl⟩
  | fin q => exact ⟨_, rfl⟩

theorem classify_toBill_status (r : BillRecord) :
    ∃ st, (classify (toBill r)).status = .str st := by
  cases hint : isInternal (toBill r) with
  | true => exact ⟨_, classify_status_of_internal hint⟩
  | false =>
    refine ⟨"成功".toList, ?_⟩
    rw [classify_status_of_not_internal hint]
    rfl

/-- Claim C28. For the records that `extractBills` returns for the files of an
upload: the row that the bulk save binds for a record of direction `转账` has
the status `shadow`, and a bound row that is not shadow has the direction
`支出` and the status `成功`; a record whose category, counterparty and item are
strings is bound; every row of the store after the bulk save of the upload is
a row of the store before it or the row bound for one of the records; so
every row of a store that was empty before the upload and is not shadow has
the direction `支出` and the status `成功`. -/
theorem extracted_transfer_stored_shadow (files : List (Env × Sheet)) (db : Db) :
    (∀ f ∈ files, ∀ r ∈ extractBills f.1 f.2, ∀ row,
      bindBill (classify (toBill r)) = some row →
        row.id = .text r.id ∧
        (r.type = .str "转账".toList → row.status = .text "shadow".toList) ∧
        (row.status ≠ .text "shadow".toList →
          r.type = .str "支出".toList ∧ row.type = .text "支出".toList ∧
          row.status = .text "成功".toList)) ∧
    (∀ f ∈ files, ∀ r ∈ extractBills f.1 f.2,
      (∃ c p i, r.category = .str c ∧ r.peer = .str p ∧ r.item = .str i) →
        ∃ row, bindBill (classify (toBill r)) = some row) ∧
    (∀ x ∈ (postBills db (uploadBody files)).1.transactions,
      x ∈ db.transactions ∨
        ∃ f ∈ files, ∃ r ∈ extractBills f.1 f.2, bindBill (classify (toBill r)) = some x) ∧
    (∀ x ∈ (postBills Db.empty (uploadBody files)).1.transactions,
      x.status ≠ .text "shadow".toList →
        x.type = .text "支出".toList ∧ x.status = .text "成功".toList) := by
  have horigin : ∀ (d : Db), ∀ x ∈ (postBills d (uploadBody files)).1.transactions,
      x ∈ d.transactions ∨
        ∃ f ∈ files, ∃ r ∈ extractBills f.1 f.2, bindBill (classify (toBill r)) = some x := by
    intro d x hx
    rcases postBills_mem_origin d (uploadBody files) hx with h | ⟨bill, hbill, hbind⟩
    · exact Or.inl h
    · obtain ⟨f, hf, r, hr, rfl⟩ := mem_uploadBody.1 hbill
      exact Or.inr ⟨f, hf, r, hr, hbind⟩
  refine ⟨?_, ?_, horigin db, ?_⟩
  · intro f _ r hr row hrow
    exact extracted_row_status hr hrow
  · rintro f _ r hr ⟨c, p, i, hc, hp, hi⟩
    obtain ⟨t, ht⟩ : ∃ t, r.type = .str t := by
      rcases (extractBills_mem_kept hr).2 with hty | hty
      · exact ⟨_, hty⟩
      · exact ⟨_, hty⟩
    obtain ⟨a, ha⟩ := bind_jsonNum r.amount
    obtain ⟨st, hst⟩ := classify_toBill_status r
    obtain ⟨f1, f2, f3, f4, f5, f6, f7, f8⟩ := classify_frame (toBill r)
    exact ⟨_, bindBill_of_binds (by rw [classify_id]; rfl) (by rw [f1]; rfl)
      (by rw [f2]; rfl) (by rw [f3]; rfl) (by rw [f4]; rfl)
      (by rw [f5]; show bind r.category = _; rw [hc]; rfl)
      (by rw [f6]; show bind r.peer = _; rw [hp]; rfl)
      (by rw [f7]; show bind r.item = _; rw [hi]; rfl)
      (by rw [classify_amount]; exact ha)
      (by rw [classify_type]; show bind r.type = _; rw [ht]; rfl)
      (by rw [f8]; rfl)
      (by rw [hst]; rfl)⟩
  · intro x hx hns
    rcases horigin Db.empty x hx with h | ⟨f, _, r, hr, hbind⟩
    · simp [Db.empty] at h
    · exact ((extracted_row_status hr hbind).2.2 hns).2

/-- Witness of `extracted_transfer_stored_shadow`: the upload of the sheet of
one transfer row into an empty store leaves one row, of status `shadow`. -/
theorem extracted_transfer_stored_shadow_witness :
    (postBills Db.empty (uploadBody [(sampleEnv, sheetTransfer)])).1.transactions =
      [{ id := .text "T1".toList, platform := .text "alipay".toList, time := .num 1704103200000,
         date_str := .text "2024-01-01".toList, hour := .num 10, category := .text "转账".toList,
         peer := .text "张三".toList, item := .text "转账".toList, amount := .num 200,
         type := .text "转账".toList, method := .text "手动导入".toList,
         status := .text "shadow".toList }] ∧
    (⟨.text "T1".toList, .text "alipay".toList, .num 1704103200000, .text "2024-01-01".toList,
      .num 10, .text "转账".toList, .text "张三".toList, .text "转账".toList, .num 200,
      .text "转账".toList, .text "手动导入".toList, .text "shadow".toList⟩ : TxRow).status =
        .text "shadow".toList :=
  ⟨by decide!,
   ((extracted_transfer_stored_shadow [(sampleEnv, sheetTransfer)] Db.empty).1
      (sampleEnv, sheetTransfer) (List.mem_singleton.2 rfl)
      { id := "T1".toList, platform := "alipay".toList, time := 1704103200000,
        date_str := "2024-01-01".toList, hour := 10, category := .str "转账".toList,
        peer := .str "张三".toList, item := .str "转账".toList, amount := .fin 200,
        type := .str "转账".toList, method := "手动导入".toList }
      (by decide!) _ (by decide!)).2.1 rfl⟩

/-! ## Re-import and tag associations; tag statistics -/

theorem postBills_single {db : Db} {bill : Bill} {row : TxRow}
    (hrow : bindBill (classify bill) = some row) :
    postBills db [bill] = (insertOrReplace db row, .ok 1) := by
  have h : insertLoop db [bill] = some (insertOrReplace db row) := by
    rw [insertLoop_cons, hrow]
    rfl
  rw [postBills_of_some h]
  rfl

/-- Claim C27, what the code does instead. When a bulk save of one bill
replaces a stored transaction (the bound id is not NULL and a stored row has
it), the save succeeds, the tags table is unchanged, and the associations left
are the former ones without those of that transaction: no tag association of
the replaced transaction remains. -/
theorem resave_deletes_tag_associations (db : Db) (bill : Bill) (row : TxRow)
    (hrow : bindBill (classify bill) = some row) (hid : row.id ≠ .null)
    (hstored : ∃ r ∈ db.transactions, r.id = row.id) :
    (postBills db [bill]).2 = .ok 1 ∧
    row ∈ (postBills db [bill]).1.transactions ∧
    (postBills db [bill]).1.tags = db.tags ∧
    (postBills db [bill]).1.transaction_tags =
      db.transaction_tags.filter (fun tt => !sqlEq tt.transaction_id row.id) ∧
    (∀ p ∈ assocNames (postBills db [bill]).1, p.1 ≠ row.id) := by
  have hany : db.transactions.any (fun r => sqlEq r.id row.id) = true := by
    obtain ⟨r, hr, hrid⟩ := hstored
    rw [List.any_eq_true]
    exact ⟨r, hr, by rw [hrid]; exact sqlEq_self_of_ne_null hid⟩
  have htt : (insertOrReplace db row).transaction_tags =
      db.transaction_tags.filter (fun tt => !sqlEq tt.transaction_id row.id) := by
    simp only [insertOrReplace, hany, if_true]
  rw [postBills_single hrow]
  refine ⟨rfl, mem_insertOrReplace.2 (Or.inr rfl), rfl, htt, ?_⟩
  intro p hp
  obtain ⟨tt, hmem, tag, -, hpeq⟩ := mem_assocNames.1 hp
  have hmem2 : tt ∈ db.transaction_tags.filter (fun tt => !sqlEq tt.transaction_id row.id) := by
    rw [← htt]
    exact hmem
  have hne := (List.mem_filter.1 hmem2).2
  intro heq
  rw [hpeq] at heq
  simp only at heq
  rw [heq, sqlEq_self_of_ne_null hid] at hne
  exact Bool.noConfusion hne

/-- Witness of `resave_deletes_tag_associations`: the purchase A1 carries the
tags `小额` and `习惯性`; after the bulk save of the same bill A1 it carries
none. -/
theorem resave_deletes_tag_associations_witness :
    assocNames dbTaggedCoffee =
      [(.text "A1".toList, "小额".toList), (.text "A1".toList, "习惯性".toList)] ∧
    assocNames (postBills dbTaggedCoffee [mkBill "A1" "瑞幸咖啡" "支出" 10 .undefined]).1 = [] ∧
    (postBills dbTaggedCoffee [mkBill "A1" "瑞幸咖啡" "支出" 10 .undefined]).1.transaction_tags =
      dbTaggedCoffee.transaction_tags.filter
        (fun tt => !sqlEq tt.transaction_id (mkRow "A1" "瑞幸咖啡" "支出" 10 "成功").id) :=
  ⟨by decide!, by decide!,
   (resave_deletes_tag_associations dbTaggedCoffee (mkBill "A1" "瑞幸咖啡" "支出" 10 .undefined)
      (mkRow "A1" "瑞幸咖啡" "支出" 10 "成功") (by decide!) (by decide)
      ⟨mkRow "A1" "瑞幸咖啡" "支出" 10 "成功", by decide!, rfl⟩).2.2.2.1⟩

/-- Claim C30, at an input where the code departs from it. The tag `x` is
carried by the transaction W1 only, which is shadow: no non-shadow transaction
carries it, and `GET /api/tags` answers count 1 and totalAmount 0 for it, the
count being taken over the associations and the sum over the non-shadow
transactions. For the tags of the non-shadow purchase A1 the two agree. -/
theorem getTags_counts_shadow_transaction :
    dbTaggedShadow.transactions.map (fun r => (r.id, r.amount, r.status)) =
      [(.text "A1".toList, .num 10, .text "成功".toList),
       (.text "W1".toList, .num 100, .text "shadow".toList)] ∧
    assocNames dbTaggedShadow = [(.text "W1".toList, "x".toList)] ∧
    getTags sampleEngine dbTaggedShadow =
      [{ id := 1, name := "x".toList, color := "#a855f7".toList, count := 1,
         totalAmount := .num 0 }] ∧
    getTags sampleEngine dbTaggedCoffee =
      [{ id := 1, name := "小额".toList, color := "#a855f7".toList, count := 1,
         totalAmount := .num 10 },
       { id := 2, name := "习惯性".toList, color := "#a855f7".toList, count := 1,
         totalAmount := .num 10 }] := by
  decide!

end MyFinance
